import Mathlib

/-!
# iops-bot: permission and lifecycle model of `index.js`

A shallow embedding of the staff-management bot of `src/index.js`.

* Documents of the database are records; a collection is a `List` in natural
  (insertion) order. `findOne` is the first match, `updateOne` rewrites the
  first match, `insertOne` appends.
* A handler is a function from the world before the event to an `Outcome`:
  the world after it, the messages it sent, and whether it ended by throwing.
* Calls into the chat platform that may fail (fetching a user, changing a
  role, sending a direct message, posting to a channel) take their result from
  an `Env` value, so a theorem over all `Env` covers success and failure.
  `interaction.reply`, `showModal` and `update` are taken to be delivered.
* Times are milliseconds as `Nat`; `new Date()` is `env.now`.

The text of `handleApplicationCommand` is in two pieces in `index.js`: lines
630-672 (up to `await logAction(interaction.guil`) and lines 878-919 (from
`d, 'Application Approved', user, {`). The tail of `handleButtonInteraction`
(lines 1753-1858) is likewise at lines 672-678. The embedding joins the
pieces.
-/

namespace IopsBot

/-! ## Values and configuration -/

/-- A leaf value of a stored document, as JavaScript sees it. -/
inductive JsVal where
  | undefined
  | null
  | bool (b : Bool)
  | str (s : String)
  /-- An object (of whatever content) where a leaf is read. -/
  | obj
  deriving DecidableEq, Repr

/-- JavaScript truthiness of a leaf (`!x` is its negation). -/
def JsVal.truthy : JsVal → Bool
  | .bool b => b
  | .str s => decide (s ≠ "")
  | .obj => true
  | _ => false

/-- The four tier names of `roleHierarchy`. -/
inductive Tier where
  | owner
  | admin
  | hr
  | staff
  deriving DecidableEq, Repr

/-- The object `config.roles`. -/
structure Roles where
  staff : JsVal
  hr : JsVal
  admin : JsVal
  owner : JsVal
  deriving DecidableEq, Repr

/-- The object `config.channels`. -/
structure Channels where
  applications : JsVal
  staffLog : JsVal
  announcements : JsVal
  feedback : JsVal
  deriving DecidableEq, Repr

/-- The object `config.features`. -/
structure Features where
  applicationsEnabled : JsVal
  loaEnabled : JsVal
  remindersEnabled : JsVal
  deriving DecidableEq, Repr

/-- The config object a handler receives (`prefix` is named `prefixStr`). -/
structure GuildConfig where
  prefixStr : JsVal
  roles : Roles
  channels : Channels
  features : Features
  deriving DecidableEq, Repr

/-- `defaultConfig` (index.js 27-46). -/
def defaultConfig : GuildConfig where
  prefixStr := .str "-"
  roles := ⟨.null, .null, .null, .null⟩
  channels := ⟨.null, .null, .null, .null⟩
  features := ⟨.bool true, .bool true, .bool true⟩

/-- `config.roles[t]` for a tier name. -/
def Roles.get (r : Roles) : Tier → JsVal
  | .owner => r.owner
  | .admin => r.admin
  | .hr => r.hr
  | .staff => r.staff

/-- `config.roles[role]` for a string option value (`null` when the option is
absent); own properties only. -/
def Roles.getStr (r : Roles) (role : Option String) : JsVal :=
  if role = some "staff" then r.staff
  else if role = some "hr" then r.hr
  else if role = some "admin" then r.admin
  else if role = some "owner" then r.owner
  else .undefined

/-- A platform user (`interaction.user`, `options.getUser`). -/
structure User where
  id : String
  tag : String
  deriving DecidableEq, Repr

/-- The invoking guild member: `member.roles.cache` and whether
`member.permissions.has(PermissionFlagsBits.Administrator)`. -/
structure Member where
  roles : List String
  administrator : Bool
  deriving DecidableEq, Repr

/-- `roles.cache.has(roleId)` on a role cache. -/
def cacheHas (cache : List String) : JsVal → Bool
  | .str s => decide (s ∈ cache)
  | _ => false

/-! ## Permission check -/

/-- `roleHierarchy` (index.js 52). -/
def roleHierarchy : List Tier := [.owner, .admin, .hr, .staff]

/-- `hasPermission` (index.js 49-63). The loop over `i = 0 .. requiredIndex`
with its early `return true` is `any` over the first `requiredIndex + 1`
entries of `roleHierarchy`. -/
def hasPermission (member : Member) (requiredRole : Tier) (config : GuildConfig) : Bool :=
  if !(config.roles.get requiredRole).truthy then false
  else
    let requiredIndex := roleHierarchy.indexOf requiredRole
    if (roleHierarchy.take (requiredIndex + 1)).any
        (fun t => (config.roles.get t).truthy && cacheHas member.roles (config.roles.get t))
    then true
    else member.administrator

/-- Rank of a tier in the order `owner > admin > hr > staff`. -/
def Tier.rank : Tier → Nat
  | .staff => 0
  | .hr => 1
  | .admin => 2
  | .owner => 3

/-- The words of the specification: the member holds the configured role ID of
tier `t` or of some tier above it. -/
def holdsTierOrAbove (member : Member) (t : Tier) (config : GuildConfig) : Prop :=
  ∃ u : Tier, t.rank ≤ u.rank ∧
    ∃ id : String, config.roles.get u = .str id ∧ id ≠ "" ∧ id ∈ member.roles

/-- The role of tier `t` is configured: `config.roles[t]` is truthy. -/
@[reducible] def roleConfigured (config : GuildConfig) (t : Tier) : Prop :=
  (config.roles.get t).truthy = true

/-- The default config with the given role IDs stored. -/
def configWithRoles (roles : Roles) : GuildConfig :=
  { defaultConfig with roles := roles }

/-! ## Documents and collections -/

/-- A document of `applications`. An absent field and a `null` field are both
`none`. -/
structure ApplicationRecord where
  userId : String
  guildId : String
  name : String
  age : String
  experience : String
  motivation : String
  availability : String
  submittedAt : Nat
  status : String
  approvedBy : Option String := none
  approvedAt : Option Nat := none
  deniedBy : Option String := none
  deniedAt : Option Nat := none
  denialReason : Option String := none
  deriving DecidableEq, Repr

/-- A document of `loa`. -/
structure LoaRecord where
  userId : String
  guildId : String
  duration : Option String
  reason : Option String
  requestedAt : Nat
  status : String
  approvedBy : Option String := none
  approvedAt : Option Nat := none
  deniedBy : Option String := none
  deniedAt : Option Nat := none
  denialReason : Option String := none
  expiredAt : Option Nat := none
  deriving DecidableEq, Repr

/-- A document of `warnings`. -/
structure WarningRecord where
  userId : String
  guildId : String
  reason : Option String
  proof : Option String
  issuedBy : String
  issuedAt : Nat
  deriving DecidableEq, Repr

mutual
/-- A value of a stored config document: what `config set` can write, a string
or a nested object. -/
inductive CfgVal where
  | str (s : String)
  | obj (fields : CfgFields)
  deriving DecidableEq, Repr
/-- The fields of an object, in insertion order. -/
inductive CfgFields where
  | nil
  | cons (key : String) (val : CfgVal) (rest : CfgFields)
  deriving DecidableEq, Repr
end

/-- The own property `key` of an object; `none` when it has none. -/
def CfgFields.lookup : CfgFields → String → Option CfgVal
  | .nil, _ => none
  | .cons k v rest, key => if k = key then some v else rest.lookup key

/-- A stored value where a leaf is read. -/
def CfgVal.leaf : CfgVal → JsVal
  | .str s => .str s
  | .obj _ => .obj

/-- The property read `v[key]` on a stored value, as a leaf: `undefined` on a
string and for a property the object lacks. -/
def CfgVal.prop : CfgVal → String → JsVal
  | .obj fields, key =>
    match fields.lookup key with
    | some x => x.leaf
    | none => .undefined
  | .str _, _ => .undefined

/-- A document of `terminations`. -/
structure TerminationRecord where
  userId : String
  guildId : String
  reason : Option String
  terminatedBy : String
  terminatedAt : Nat
  rolesRemoved : List String
  deriving DecidableEq, Repr

/-- A document of `tags`. -/
structure TagRecord where
  name : Option String
  content : Option String
  guildId : String
  createdBy : String
  createdAt : Nat
  deriving DecidableEq, Repr

/-- A document of `activity`. -/
structure ActivityLogRecord where
  userId : String
  guildId : String
  activity : Option String
  hours : Int
  loggedAt : Nat
  deriving DecidableEq, Repr

/-- A document of `oncall`. -/
structure OnCallRecord where
  userId : String
  guildId : String
  setAt : Nat
  active : Bool
  unsetAt : Option Nat := none
  deriving DecidableEq, Repr

/-- A document of `feedback`; `submittedBy` is `none` for `null`. -/
structure FeedbackRecord where
  guildId : String
  message : Option String
  anonymous : Bool
  submittedBy : Option String
  submittedAt : Nat
  deriving DecidableEq, Repr

/-- A document of `configs`: its `guildId` and its other top-level keys, in
insertion order (`_id` left out). -/
structure StoredConfig where
  guildId : String
  fields : List (String × CfgVal) := []
  deriving DecidableEq, Repr

/-- The database `db`: its collections, each in natural order. -/
structure Db where
  configs : List StoredConfig := []
  applications : List ApplicationRecord := []
  warnings : List WarningRecord := []
  loa : List LoaRecord := []
  terminations : List TerminationRecord := []
  tags : List TagRecord := []
  activity : List ActivityLogRecord := []
  oncall : List OnCallRecord := []
  feedback : List FeedbackRecord := []
  deriving DecidableEq, Repr

/-- A member of a guild as the platform holds it: `guild.members.fetch(id)`
and its `roles.cache`. -/
structure GuildMember where
  guildId : String
  userId : String
  roles : List String
  deriving DecidableEq, Repr

/-- Everything a handler can read or change: the database and the role
membership the platform holds. -/
structure World where
  db : Db := {}
  members : List GuildMember := []
  deriving DecidableEq, Repr

/-- Results of the platform calls of one event. -/
structure Env where
  /-- The value of `new Date()`. -/
  now : Nat
  /-- Whether `member.roles.add` and `member.roles.remove` resolve. -/
  grantOk : Bool
  /-- Whether `user.send` resolves. -/
  dmOk : Bool
  /-- The result of `client.users.fetch(id)`; `none` when it rejects. -/
  userFetch : String → Option User
  /-- The channel IDs in `guild.channels.cache`. -/
  channels : List String
  /-- Whether `channel.send` resolves. -/
  sendOk : Bool
  /-- The start date `handleStaffReportCommand` computes from `new Date()` for
  the period `today`, `week` or `month`, in the time zone of the process. -/
  periodStart : String → Nat := fun _ => 0
  /-- The value of `process.env.OWNER_ID`; `none` when it is not set. -/
  ownerId : Option String := none
  /-- The run of `eval(code)` in `handleEvalCommand`: the world after it and the
  text the handler then replies with (the printed result, or the error). -/
  evalCode : Option String → World → World × String := fun _ w => (w, "undefined")

/-- A message a handler sends. -/
inductive Output where
  | reply (content : String)
  | replyEmbed (title : String)
  | followUp (content : String)
  | showModal (customId : String)
  | update (content : String)
  | dm (userId : String) (text : String)
  | channelSend (channelId : String) (title : String)
  deriving DecidableEq, Repr

/-- The result of running a handler: the world after it, what it sent, and
whether it ended with an exception. -/
structure Outcome where
  world : World
  out : List Output
  threw : Bool
  deriving DecidableEq, Repr

/-- The kind of an inbound interaction, as `isChatInputCommand()`,
`isModalSubmit()` and `isButton()` tell it. -/
inductive InteractionKind where
  | chatInput
  | modalSubmit
  | button
  | other
  deriving DecidableEq, Repr

/-- One inbound interaction. -/
structure Interaction where
  /-- The invoking user, `interaction.user`. -/
  user : User
  /-- The invoking member, `interaction.member`. -/
  member : Member
  /-- The guild, `interaction.guild.id`. -/
  guildId : String
  commandName : String := ""
  /-- The value of `options.getSubcommand()`. -/
  subcommand : String := ""
  /-- The value of `options.getUser('user')`. -/
  targetUser : User := ⟨"", ""⟩
  /-- The string options, read by `options.getString(name)`. -/
  strings : List (String × String) := []
  customId : String := ""
  /-- The text inputs of a submitted form, read by `fields.getTextInputValue`. -/
  fields : List (String × String) := []
  /-- The integer options, read by `options.getInteger(name)`. -/
  integers : List (String × Int) := []
  /-- The boolean options, read by `options.getBoolean(name)`. -/
  booleans : List (String × Bool) := []
  kind : InteractionKind := .chatInput
  /-- The value of `options.getUser('user')` where the option may be left out
  (`staffreport`); `none` is `null`. -/
  optionalUser : Option User := none
  /-- The ID of `options.getChannel('channel')`; `none` is `null`. -/
  channelOption : Option String := none
  /-- The ID of `interaction.channel`; `none` is `null`. -/
  channelId : Option String := none

/-- `interaction.options.getString(name)`: `none` is `null`. -/
def Interaction.getString (i : Interaction) (name : String) : Option String :=
  i.strings.lookup name

/-- `interaction.fields.getTextInputValue(id)`: `none` when it throws. -/
def Interaction.getTextInputValue (i : Interaction) (id : String) : Option String :=
  i.fields.lookup id

/-- `interaction.options.getInteger(name)`: `none` is `null`. -/
def Interaction.getInteger (i : Interaction) (name : String) : Option Int :=
  i.integers.lookup name

/-- `interaction.options.getBoolean(name)`: `none` is `null`. -/
def Interaction.getBoolean (i : Interaction) (name : String) : Option Bool :=
  i.booleans.lookup name

/-- How a template literal prints a string option value. -/
def jsStr : Option String → String
  | some s => s
  | none => "null"

/-! ### Collection operations -/

/-- `collection.updateOne(filter, { $set })`: rewrites the first match. -/
def updateOne {α : Type} (filter : α → Bool) (set : α → α) : List α → List α
  | [] => []
  | x :: xs => if filter x then set x :: xs else x :: updateOne filter set xs

/-- The `matchedCount` of `updateOne`. -/
def matchedCount {α : Type} (filter : α → Bool) (l : List α) : Nat :=
  if l.any filter then 1 else 0

/-- `collection.insertOne(doc)`. -/
def insertOne {α : Type} (doc : α) (l : List α) : List α := l ++ [doc]

/-- `collection.findOne(filter)`. -/
def findOne {α : Type} (filter : α → Bool) (l : List α) : Option α := l.find? filter

/-- The filter `{ userId, guildId, status: 'pending' }` on `applications`. -/
def pendingApp (userId guildId : String) (r : ApplicationRecord) : Bool :=
  decide (r.userId = userId ∧ r.guildId = guildId ∧ r.status = "pending")

/-- The filter `{ userId, guildId, status: 'pending' }` on `loa`. -/
def pendingLoa (userId guildId : String) (r : LoaRecord) : Bool :=
  decide (r.userId = userId ∧ r.guildId = guildId ∧ r.status = "pending")

/-- The sub-fields the handlers read of a stored `roles` value. -/
def Roles.ofStored (v : CfgVal) : Roles :=
  ⟨v.prop "staff", v.prop "hr", v.prop "admin", v.prop "owner"⟩

/-- The sub-fields the handlers read of a stored `channels` value. -/
def Channels.ofStored (v : CfgVal) : Channels :=
  ⟨v.prop "applications", v.prop "staffLog", v.prop "announcements", v.prop "feedback"⟩

/-- The sub-fields the handlers read of a stored `features` value. -/
def Features.ofStored (v : CfgVal) : Features :=
  ⟨v.prop "applicationsEnabled", v.prop "loaEnabled", v.prop "remindersEnabled"⟩

/-- The spread `{ ...defaultConfig, ...config }` of one stored document: each
top-level key the document has replaces the default of that key as a whole.
The result is given by the properties the handlers read of it. -/
def spreadOverDefaults (c : StoredConfig) : GuildConfig :=
  { prefixStr :=
      match c.fields.lookup "prefix" with
      | some v => v.leaf
      | none => defaultConfig.prefixStr
    roles :=
      match c.fields.lookup "roles" with
      | some v => Roles.ofStored v
      | none => defaultConfig.roles
    channels :=
      match c.fields.lookup "channels" with
      | some v => Channels.ofStored v
      | none => defaultConfig.channels
    features :=
      match c.fields.lookup "features" with
      | some v => Features.ofStored v
      | none => defaultConfig.features }

/-- `getGuildConfig` (index.js 66-69). -/
def getGuildConfig (db : Db) (guildId : String) : GuildConfig :=
  match findOne (fun c : StoredConfig => decide (c.guildId = guildId)) db.configs with
  | some c => spreadOverDefaults c
  | none => defaultConfig

/-! ### Guild membership -/

/-- `interaction.guild.members.fetch(userId)`: `none` when it rejects. -/
def fetchMember (w : World) (guildId userId : String) : Option GuildMember :=
  w.members.find? (fun m => decide (m.guildId = guildId ∧ m.userId = userId))

/-- The world after `member.roles.add(roleId)` resolved. -/
def addRole (w : World) (guildId userId roleId : String) : World :=
  let grant := fun m : GuildMember =>
    { m with roles := if roleId ∈ m.roles then m.roles else m.roles ++ [roleId] }
  let isTarget := fun m : GuildMember => decide (m.guildId = guildId ∧ m.userId = userId)
  { w with members := updateOne isTarget grant w.members }

/-- Whether the member of the guild holds the role. -/
def holdsRole (w : World) (guildId userId roleId : String) : Prop :=
  ∃ m, fetchMember w guildId userId = some m ∧ roleId ∈ m.roles

/-! ## Handlers -/

/-- `logAction` (index.js 80-104): posts to the staff-log channel when it is
configured and in the channel cache. The result is what was sent and whether
the call threw. -/
def logAction (env : Env) (w : World) (guildId : String) (action : String) (_user : User) :
    List Output × Bool :=
  let config := getGuildConfig w.db guildId
  match config.channels.staffLog with
  | .str ch =>
    if ch ∈ env.channels then
      if env.sendOk then ([.channelSend ch ("Staff Action: " ++ action)], false) else ([], true)
    else ([], false)
  | _ => ([], false)

/-- A `try { await user.send(..) } catch { console.error(..) }` block. -/
def trySendDm (env : Env) (userId text : String) : List Output :=
  if env.dmOk then [.dm userId text] else []

/-- `createApplicationForm` (index.js 107-151). -/
def createApplicationForm (w : World) : Outcome :=
  ⟨w, [.showModal "staff_application"], false⟩

/-- `handleApplyCommand` (index.js 610-627). -/
def handleApplyCommand (i : Interaction) (config : GuildConfig) (w : World) : Outcome :=
  if !config.features.applicationsEnabled.truthy then
    ⟨w, [.reply "Applications are currently disabled."], false⟩
  else
    match findOne (pendingApp i.user.id i.guildId) w.db.applications with
    | some _ => ⟨w, [.reply "You already have a pending application."], false⟩
    | none => createApplicationForm w

/-- The `$set` of application approval. -/
def setApproved (actorId : String) (now : Nat) (r : ApplicationRecord) : ApplicationRecord :=
  { r with status := "approved", approvedBy := some actorId, approvedAt := some now }

/-- The `$set` of application denial. -/
def setDenied (actorId : String) (now : Nat) (reason : Option String)
    (r : ApplicationRecord) : ApplicationRecord :=
  { r with status := "denied", deniedBy := some actorId, deniedAt := some now,
           denialReason := reason }

/-- The world with the `applications` collection replaced. -/
def World.withApplications (w : World) (apps : List ApplicationRecord) : World :=
  { w with db := { w.db with applications := apps } }

/-- The world with the `loa` collection replaced. -/
def World.withLoa (w : World) (loa : List LoaRecord) : World :=
  { w with db := { w.db with loa := loa } }

/-- The world with the `warnings` collection replaced. -/
def World.withWarnings (w : World) (ws : List WarningRecord) : World :=
  { w with db := { w.db with warnings := ws } }

/-- The world with the `terminations` collection replaced. -/
def World.withTerminations (w : World) (ts : List TerminationRecord) : World :=
  { w with db := { w.db with terminations := ts } }

/-- The world with the `tags` collection replaced. -/
def World.withTags (w : World) (ts : List TagRecord) : World :=
  { w with db := { w.db with tags := ts } }

/-- The world with the `activity` collection replaced. -/
def World.withActivity (w : World) (l : List ActivityLogRecord) : World :=
  { w with db := { w.db with activity := l } }

/-- The world with the `oncall` collection replaced. -/
def World.withOnCall (w : World) (l : List OnCallRecord) : World :=
  { w with db := { w.db with oncall := l } }

/-- The world with the `feedback` collection replaced. -/
def World.withFeedback (w : World) (l : List FeedbackRecord) : World :=
  { w with db := { w.db with feedback := l } }

/-- `handleApplicationCommand` (index.js 630-672 and 878-919). -/
def handleApplicationCommand (env : Env) (i : Interaction) (config : GuildConfig)
    (w : World) : Outcome :=
  if !hasPermission i.member .hr config then
    ⟨w, [.reply "You need HR permissions to manage applications."], false⟩
  else
    let user := i.targetUser
    if i.subcommand = "approve" then
      let role := i.getString "role"
      let roleId := config.roles.getStr role
      if !roleId.truthy then
        ⟨w, [.reply (jsStr role ++ " role not configured.")], false⟩
      else
        match fetchMember w i.guildId user.id with
        | none => ⟨w, [], true⟩
        | some _ =>
          match roleId, env.grantOk with
          | .str rid, true =>
            let w1 := addRole w i.guildId user.id rid
            let w2 := w1.withApplications
              (updateOne (pendingApp user.id i.guildId) (setApproved i.user.id env.now)
                w1.db.applications)
            let dm := trySendDm env user.id "Application Approved!"
            let log := logAction env w2 i.guildId "Application Approved" user
            if log.2 then ⟨w2, dm ++ log.1, true⟩
            else
              ⟨w2, dm ++ log.1 ++
                [.reply ("Approved " ++ user.tag ++ " for " ++ jsStr role ++ " position.")], false⟩
          | _, _ => ⟨w, [], true⟩
    else if i.subcommand = "deny" then
      let reason := i.getString "reason"
      let w1 := w.withApplications
        (updateOne (pendingApp user.id i.guildId) (setDenied i.user.id env.now reason)
          w.db.applications)
      let dm := trySendDm env user.id "Application Update"
      let log := logAction env w1 i.guildId "Application Denied" user
      if log.2 then ⟨w1, dm ++ log.1, true⟩
      else ⟨w1, dm ++ log.1 ++ [.reply ("Denied application from " ++ user.tag ++ ".")], false⟩
    else ⟨w, [], false⟩

/-- `handleWarnCommand` (index.js 922-982). -/
def handleWarnCommand (env : Env) (i : Interaction) (config : GuildConfig) (w : World) : Outcome :=
  if !hasPermission i.member .hr config then
    ⟨w, [.reply "You need HR permissions to issue warnings."], false⟩
  else
    let user := i.targetUser
    let reason := i.getString "reason"
    let proof := i.getString "proof"
    let warning : WarningRecord :=
      { userId := user.id, guildId := i.guildId, reason := reason, proof := proof,
        issuedBy := i.user.id, issuedAt := env.now }
    let w1 := w.withWarnings (insertOne warning w.db.warnings)
    let warningCount := (w1.db.warnings.filter
      (fun r => decide (r.userId = user.id ∧ r.guildId = i.guildId))).length
    let log := logAction env w1 i.guildId "Warning Issued" user
    if log.2 then ⟨w1, log.1, true⟩
    else
      let dm := trySendDm env user.id "Staff Warning Issued"
      ⟨w1, log.1 ++ dm ++
        [.reply ("Issued warning to " ++ user.tag ++ ". Total warnings: " ++ toString warningCount)],
        false⟩

/-- `handleLoaCommand` (index.js 1118-1161). -/
def handleLoaCommand (env : Env) (i : Interaction) (config : GuildConfig) (w : World) : Outcome :=
  if !hasPermission i.member .staff config then
    ⟨w, [.reply "You need staff permissions to request LOA."], false⟩
  else
    let duration := i.getString "duration"
    let reason := i.getString "reason"
    match findOne (pendingLoa i.user.id i.guildId) w.db.loa with
    | some _ => ⟨w, [.reply "You already have a pending LOA request."], false⟩
    | none =>
      let loaRequest : LoaRecord :=
        { userId := i.user.id, guildId := i.guildId, duration := duration, reason := reason,
          requestedAt := env.now, status := "pending" }
      let w1 := w.withLoa (insertOne loaRequest w.db.loa)
      let log := logAction env w1 i.guildId "LOA Requested" i.user
      if log.2 then ⟨w1, log.1, true⟩
      else
        ⟨w1, log.1 ++
          [.reply "Your LOA request has been submitted and is pending HR approval."], false⟩

/-- The `$set` of LOA approval. -/
def setLoaApproved (actorId : String) (now : Nat) (r : LoaRecord) : LoaRecord :=
  { r with status := "approved", approvedBy := some actorId, approvedAt := some now }

/-- The `$set` of LOA denial. -/
def setLoaDenied (actorId : String) (now : Nat) (reason : Option String)
    (r : LoaRecord) : LoaRecord :=
  { r with status := "denied", deniedBy := some actorId, deniedAt := some now,
           denialReason := reason }

/-- `handleLoaManageCommand` (index.js 1164-1262). In `list`, building the
embed throws when a user cannot be fetched or a listed record has no
`approvedAt`. -/
def handleLoaManageCommand (env : Env) (i : Interaction) (config : GuildConfig)
    (w : World) : Outcome :=
  if !hasPermission i.member .hr config then
    ⟨w, [.reply "You need HR permissions to manage LOA requests."], false⟩
  else if i.subcommand = "approve" then
    let user := i.targetUser
    let w1 := w.withLoa
      (updateOne (pendingLoa user.id i.guildId) (setLoaApproved i.user.id env.now) w.db.loa)
    if matchedCount (pendingLoa user.id i.guildId) w.db.loa = 0 then
      ⟨w1, [.reply "No pending LOA found for that user."], false⟩
    else
      let log := logAction env w1 i.guildId "LOA Approved" user
      if log.2 then ⟨w1, log.1, true⟩
      else
        let dm := trySendDm env user.id
          "Your LOA request has been approved. Take the time you need!"
        ⟨w1, log.1 ++ dm ++ [.reply ("Approved LOA for " ++ user.tag ++ ".")], false⟩
  else if i.subcommand = "deny" then
    let user := i.targetUser
    let reason := i.getString "reason"
    let w1 := w.withLoa
      (updateOne (pendingLoa user.id i.guildId) (setLoaDenied i.user.id env.now reason) w.db.loa)
    if matchedCount (pendingLoa user.id i.guildId) w.db.loa = 0 then
      ⟨w1, [.reply "No pending LOA found for that user."], false⟩
    else
      let log := logAction env w1 i.guildId "LOA Denied" user
      if log.2 then ⟨w1, log.1, true⟩
      else
        let dm := trySendDm env user.id
          ("Your LOA request has been denied. Reason: " ++ jsStr reason)
        ⟨w1, log.1 ++ dm ++ [.reply ("Denied LOA for " ++ user.tag ++ ".")], false⟩
  else if i.subcommand = "list" then
    let activeLoas := w.db.loa.filter
      (fun r => decide (r.guildId = i.guildId ∧ r.status = "approved"))
    if activeLoas.length = 0 then ⟨w, [.reply "No active LOAs."], false⟩
    else if activeLoas.all (fun r => (env.userFetch r.userId).isSome && r.approvedAt.isSome) then
      ⟨w, [.replyEmbed "Active Leave of Absence"], false⟩
    else ⟨w, [], true⟩
  else ⟨w, [], false⟩

/-- `handleModalSubmit` (index.js 1688-1750). `getTextInputValue` throws for a
field the submission lacks. -/
def handleModalSubmit (env : Env) (i : Interaction) (w : World) : Outcome :=
  if i.customId = "staff_application" then
    match i.getTextInputValue "applicant_name", i.getTextInputValue "applicant_age",
      i.getTextInputValue "applicant_experience", i.getTextInputValue "applicant_motivation",
      i.getTextInputValue "applicant_availability" with
    | some name, some age, some experience, some motivation, some availability =>
      let application : ApplicationRecord :=
        { userId := i.user.id, guildId := i.guildId, name := name, age := age,
          experience := experience, motivation := motivation, availability := availability,
          submittedAt := env.now, status := "pending" }
      let w1 := w.withApplications (insertOne application w.db.applications)
      let config := getGuildConfig w1.db i.guildId
      let done : List Output :=
        [.reply "Your application has been submitted! HR will review it shortly."]
      match config.channels.applications with
      | .str ch =>
        if ch ∈ env.channels then
          if env.sendOk then ⟨w1, .channelSend ch "New Staff Application" :: done, false⟩
          else ⟨w1, [], true⟩
        else ⟨w1, done, false⟩
      | _ => ⟨w1, done, false⟩
    | _, _, _, _, _ => ⟨w, [], true⟩
  else ⟨w, [], false⟩

/-- The pieces of a character list between occurrences of `sep`. -/
def splitOnChar (sep : Char) : List Char → List (List Char)
  | [] => [[]]
  | c :: cs =>
    if c = sep then [] :: splitOnChar sep cs
    else
      match splitOnChar sep cs with
      | [] => [[c]]
      | p :: ps => (c :: p) :: ps

/-- `s.split('_')`. -/
def splitUnderscore (s : String) : List String :=
  (splitOnChar '_' s.data).map String.mk

/-- `s.startsWith(p)`. -/
def startsWith (s p : String) : Bool := p.data.isPrefixOf s.data

/-- `handleButtonInteraction` (index.js 1753-1858, with its last lines at
672-678). `userId` is `customId.split('_')[2]`; a missing piece makes the
fetch reject. -/
def handleButtonInteraction (env : Env) (i : Interaction) (w : World) : Outcome :=
  let config := getGuildConfig w.db i.guildId
  let userId := (splitUnderscore i.customId)[2]?
  if !hasPermission i.member .hr config then
    ⟨w, [.reply "You need HR permissions to manage applications."], false⟩
  else if startsWith i.customId "approve_app_" then
    ⟨w, [.showModal ("approve_modal_" ++ userId.getD "undefined")], false⟩
  else if startsWith i.customId "deny_app_" then
    ⟨w, [.showModal ("deny_modal_" ++ userId.getD "undefined")], false⟩
  else if startsWith i.customId "approve_modal_" then
    match i.getTextInputValue "role_selection", userId with
    | some role, some uid =>
      match env.userFetch uid, fetchMember w i.guildId uid with
      | some user, some _ =>
        let roleId := config.roles.getStr (some role)
        if !roleId.truthy then ⟨w, [.reply (role ++ " role not configured.")], false⟩
        else
          match roleId, env.grantOk with
          | .str rid, true =>
            let w1 := addRole w i.guildId uid rid
            let w2 := w1.withApplications
              (updateOne (pendingApp uid i.guildId) (setApproved i.user.id env.now)
                w1.db.applications)
            let upd : Output :=
              .update ("Application approved by " ++ i.user.tag ++ " - " ++ role ++
                " role assigned")
            let dm := trySendDm env uid "Your staff application has been approved."
            let log := logAction env w2 i.guildId "Application Approved" user
            ⟨w2, upd :: dm ++ log.1, log.2⟩
          | _, _ => ⟨w, [], true⟩
      | _, _ => ⟨w, [], true⟩
    | _, _ => ⟨w, [], true⟩
  else if startsWith i.customId "deny_modal_" then
    match i.getTextInputValue "denial_reason", userId with
    | some reason, some uid =>
      match env.userFetch uid with
      | some user =>
        let w1 := w.withApplications
          (updateOne (pendingApp uid i.guildId) (setDenied i.user.id env.now (some reason))
            w.db.applications)
        let upd : Output := .update ("Application denied by " ++ i.user.tag)
        let dm := trySendDm env uid "Your staff application has been reviewed."
        let log := logAction env w1 i.guildId "Application Denied" user
        ⟨w1, upd :: dm ++ log.1, log.2⟩
      | none => ⟨w, [], true⟩
    | _, _ => ⟨w, [], true⟩
  else ⟨w, [], false⟩

/-! ### Configuration commands -/

/-- `key.split('.')`. -/
def splitDot (s : String) : List String :=
  (splitOnChar '.' s.data).map String.mk

/-- The assignment `o[key] = val` on the own properties of an object: an own
property of that name is replaced, otherwise one is added. -/
def CfgFields.assign : CfgFields → String → CfgVal → CfgFields
  | .nil, key, val => .cons key val .nil
  | .cons k v rest, key, val =>
    if k = key then .cons k val rest else .cons k v (rest.assign key val)

/-- The assignment `o[key] = val` where `o` is the object that the own
properties `path` lead to from the object `root`. -/
def assignAt : CfgFields → List String → String → CfgVal → CfgFields
  | root, [], key, val => root.assign key val
  | root, p :: ps, key, val =>
    match root.lookup p with
    | some (.obj inner) => root.assign p (.obj (assignAt inner ps key val))
    | _ => root

/-- The variables of the loop of `handleConfigCommand` (index.js 576-584):
`updateObj`, given by its own properties, and `current`, given by the path of
own properties that leads to it from `updateObj`; `none` once `current` is an
object that no own property of `updateObj` leads to. -/
structure LoopState where
  updateObj : CfgFields
  current : Option (List String)
  deriving DecidableEq, Repr

/-- One turn of the loop (index.js 580-581): `current[k] = {}` and
`current = current[k]`. For the name `__proto__` the assignment sets the
prototype of `current` and stores no own property, and `current` becomes that
prototype, which no own property of `updateObj` leads to. -/
def loopStep (s : LoopState) (k : String) : LoopState :=
  match s.current with
  | some path =>
    if k = "__proto__" then ⟨s.updateObj, none⟩
    else ⟨assignAt s.updateObj path k (.obj .nil), some (path ++ [k])⟩
  | none => s

/-- The assignment `current[keys[keys.length - 1]] = value` after the loop
(index.js 584). A string is not taken as a prototype, so for the name
`__proto__` nothing is stored. -/
def lastAssign (s : LoopState) (k : String) (value : String) : CfgFields :=
  match s.current with
  | some path =>
    if k = "__proto__" then s.updateObj else assignAt s.updateObj path k (.str value)
  | none => s.updateObj

/-- The object `updateObj` that `handleConfigCommand` builds from the pieces of
the key (index.js 576-584), by its own properties: the loop runs over the
pieces before the last, then the value is assigned under the last. (`split`
never returns the empty list; there the last name would be `undefined`.) -/
def buildUpdateObj (keys : List String) (value : String) : CfgFields :=
  let s := keys.dropLast.foldl loopStep ⟨.nil, some []⟩
  lastAssign s (keys.getLast?.getD "undefined") value

/-- `$set` of one top-level key on the keys of a document. -/
def setField (fields : List (String × CfgVal)) (key : String) (val : CfgVal) :
    List (String × CfgVal) :=
  if fields.any (fun kv => decide (kv.1 = key)) then
    fields.map (fun kv => if kv.1 = key then (key, val) else kv)
  else fields ++ [(key, val)]

/-- `$set: { ...updates, guildId }` on the keys of a document: every top-level
key of `updates` is set, as a whole, to its value; a key `guildId` of
`updates` is overridden by the guild id. -/
def setFields (fields : List (String × CfgVal)) : CfgFields → List (String × CfgVal)
  | .nil => fields
  | .cons k v rest =>
    if k = "guildId" then setFields fields rest else setFields (setField fields k v) rest

/-- `updateGuildConfig` (index.js 71-77): `updateOne` with `upsert: true`. Keys
the database refuses are outside the model. -/
def updateGuildConfig (db : Db) (guildId : String) (updates : CfgFields) : Db :=
  let isGuild := fun c : StoredConfig => decide (c.guildId = guildId)
  match findOne isGuild db.configs with
  | some _ =>
    { db with configs :=
        updateOne isGuild (fun c => { c with fields := setFields c.fields updates }) db.configs }
  | none =>
    { db with configs :=
        insertOne { guildId := guildId, fields := setFields [] updates } db.configs }

/-- `handleConfigCommand` (index.js 564-607). `key` and `value` are required
options; an interaction without one of them is taken to throw. In `view` the
embed refuses a prefix that is not a string. -/
def handleConfigCommand (i : Interaction) (config : GuildConfig) (w : World) : Outcome :=
  if !hasPermission i.member .admin config then
    ⟨w, [.reply "You need admin permissions to use this command."], false⟩
  else if i.subcommand = "set" then
    match i.getString "key", i.getString "value" with
    | some key, some value =>
      let keys := splitDot key
      let updateObj := buildUpdateObj keys value
      ⟨{ w with db := updateGuildConfig w.db i.guildId updateObj },
        [.reply ("Configuration updated: `" ++ key ++ "` = `" ++ value ++ "`")], false⟩
    | _, _ => ⟨w, [], true⟩
  else if i.subcommand = "view" then
    match config.prefixStr with
    | .obj => ⟨w, [], true⟩
    | .bool true => ⟨w, [], true⟩
    | _ => ⟨w, [.replyEmbed "Bot Configuration"], false⟩
  else ⟨w, [], false⟩

/-! ### Scheduled LOA clean-up -/

/-- `collection.updateMany(filter, { $set })`. -/
def updateMany {α : Type} (filter : α → Bool) (set : α → α) (l : List α) : List α :=
  l.map (fun x => if filter x then set x else x)

/-- The retention window `30 * 24 * 60 * 60 * 1000` milliseconds. -/
def thirtyDays : Nat := 30 * 24 * 60 * 60 * 1000

/-- The filter `{ status: 'approved', approvedAt: { $lt: new Date(Date.now() -
thirtyDays) } }` (index.js 779-783). A record without `approvedAt` does not
match. -/
def expiredLoa (now : Nat) (r : LoaRecord) : Bool :=
  decide (r.status = "approved") &&
    match r.approvedAt with
    | some t => decide ((t : Int) < (now : Int) - (thirtyDays : Int))
    | none => false

/-- The `$set` of the clean-up: `{ status: 'expired', expiredAt: new Date() }`. -/
def setLoaExpired (now : Nat) (r : LoaRecord) : LoaRecord :=
  { r with status := "expired", expiredAt := some now }

/-- The daily LOA clean-up of `startScheduledTasks` (index.js 773-793), run at
time `now`; both clock reads of the job are the instant `now`. -/
def cleanUpExpiredLoas (now : Nat) (w : World) : World :=
  w.withLoa (updateMany (expiredLoa now) (setLoaExpired now) w.db.loa)

/-! ### Staff role transitions -/

/-- The world after `member.roles.remove(roleIds)` resolved. -/
def removeRoles (w : World) (guildId userId : String) (roleIds : List String) : World :=
  let revoke := fun m : GuildMember =>
    { m with roles := m.roles.filter (fun r => decide (r ∉ roleIds)) }
  let isTarget := fun m : GuildMember => decide (m.guildId = guildId ∧ m.userId = userId)
  { w with members := updateOne isTarget revoke w.members }

/-- The statement `if (roleId && member.roles.cache.has(roleId))
rolesToRemove.push(roleId)`. -/
def pushIfHeld (cache : List String) (roleId : JsVal) (rolesToRemove : List String) :
    List String :=
  match roleId with
  | .str s => if roleId.truthy && cacheHas cache roleId then rolesToRemove ++ [s] else rolesToRemove
  | _ => rolesToRemove

/-- The list `rolesToRemove` of `handlePromoteCommand` (index.js 1281-1291). -/
def promoteRolesToRemove (role : Option String) (config : GuildConfig) (cache : List String) :
    List String :=
  let l0 : List String := []
  let l1 := if role = some "hr" ∨ role = some "admin" then pushIfHeld cache config.roles.staff l0
    else l0
  if role = some "admin" then pushIfHeld cache config.roles.hr l1 else l1

/-- `handlePromoteCommand` (index.js 1265-1305). -/
def handlePromoteCommand (env : Env) (i : Interaction) (config : GuildConfig) (w : World) :
    Outcome :=
  if !hasPermission i.member .admin config then
    ⟨w, [.reply "You need admin permissions to promote staff."], false⟩
  else
    let user := i.targetUser
    let role := i.getString "role"
    let roleId := config.roles.getStr role
    if !roleId.truthy then ⟨w, [.reply (jsStr role ++ " role not configured.")], false⟩
    else
      match fetchMember w i.guildId user.id with
      | none => ⟨w, [], true⟩
      | some member =>
        let rolesToRemove := promoteRolesToRemove role config member.roles
        if rolesToRemove.length > 0 ∧ env.grantOk = false then ⟨w, [], true⟩
        else
          let w1 := if rolesToRemove.length > 0
            then removeRoles w i.guildId user.id rolesToRemove else w
          match roleId, env.grantOk with
          | .str rid, true =>
            let w2 := addRole w1 i.guildId user.id rid
            let log := logAction env w2 i.guildId "Staff Promoted" user
            if log.2 then ⟨w2, log.1, true⟩
            else
              ⟨w2, log.1 ++ [.reply ("Promoted " ++ user.tag ++ " to " ++ jsStr role ++ ".")],
                false⟩
          | _, _ => ⟨w1, [], true⟩

/-- The list `rolesToRemove` of `handleDemoteCommand` (index.js 1317-1323). -/
def demoteRolesToRemove (config : GuildConfig) (cache : List String) : List String :=
  pushIfHeld cache config.roles.hr (pushIfHeld cache config.roles.admin [])

/-- `handleDemoteCommand` (index.js 1308-1341). The test for the staff role
after the removal reads the role cache of the member as it was fetched. -/
def handleDemoteCommand (env : Env) (i : Interaction) (config : GuildConfig) (w : World) :
    Outcome :=
  if !hasPermission i.member .admin config then
    ⟨w, [.reply "You need admin permissions to demote staff."], false⟩
  else
    let user := i.targetUser
    match fetchMember w i.guildId user.id with
    | none => ⟨w, [], true⟩
    | some member =>
      let rolesToRemove := demoteRolesToRemove config member.roles
      let finish := fun (w2 : World) =>
        let log := logAction env w2 i.guildId "Staff Demoted" user
        if log.2 then (⟨w2, log.1, true⟩ : Outcome)
        else ⟨w2, log.1 ++ [.reply ("Demoted " ++ user.tag ++ " to basic staff.")], false⟩
      if rolesToRemove.length > 0 then
        if env.grantOk = false then ⟨w, [], true⟩
        else
          let w1 := removeRoles w i.guildId user.id rolesToRemove
          if config.roles.staff.truthy && !cacheHas member.roles config.roles.staff then
            match config.roles.staff with
            | .str sid => finish (addRole w1 i.guildId user.id sid)
            | _ => ⟨w1, [], true⟩
          else finish w1
      else finish w

/-- The list `rolesToRemove` of `handleTerminateCommand` (index.js 1060-1069). -/
def terminateRolesToRemove (config : GuildConfig) (cache : List String) : List String :=
  pushIfHeld cache config.roles.admin
    (pushIfHeld cache config.roles.hr (pushIfHeld cache config.roles.staff []))

/-- `handleTerminateCommand` (index.js 1049-1115). -/
def handleTerminateCommand (env : Env) (i : Interaction) (config : GuildConfig) (w : World) :
    Outcome :=
  if !hasPermission i.member .admin config then
    ⟨w, [.reply "You need admin permissions to terminate staff."], false⟩
  else
    let user := i.targetUser
    let reason := i.getString "reason"
    match fetchMember w i.guildId user.id with
    | none => ⟨w, [], true⟩
    | some member =>
      let rolesToRemove := terminateRolesToRemove config member.roles
      if rolesToRemove.length > 0 ∧ env.grantOk = false then ⟨w, [], true⟩
      else
        let w1 := if rolesToRemove.length > 0
          then removeRoles w i.guildId user.id rolesToRemove else w
        let termination : TerminationRecord :=
          { userId := user.id, guildId := i.guildId, reason := reason,
            terminatedBy := i.user.id, terminatedAt := env.now, rolesRemoved := rolesToRemove }
        let w2 := w1.withTerminations (insertOne termination w1.db.terminations)
        let log := logAction env w2 i.guildId "Staff Terminated" user
        if log.2 then ⟨w2, log.1, true⟩
        else
          let dm := trySendDm env user.id "Staff Termination Notice"
          ⟨w2, log.1 ++ dm ++
            [.reply ("Terminated " ++ user.tag ++ ". Removed " ++
              toString rolesToRemove.length ++ " staff roles.")], false⟩

/-! ### Infractions, tags, activity, on-call, feedback -/

/-- `collection.deleteMany(filter)`. -/
def deleteMany {α : Type} (filter : α → Bool) (l : List α) : List α :=
  l.filter (fun x => !filter x)

/-- The `deletedCount` of `deleteMany`. -/
def deletedCountMany {α : Type} (filter : α → Bool) (l : List α) : Nat :=
  (l.filter filter).length

/-- `collection.deleteOne(filter)`: removes the first match. -/
def deleteOne {α : Type} (filter : α → Bool) : List α → List α
  | [] => []
  | x :: xs => if filter x then xs else x :: deleteOne filter xs

/-- Insertion of a document into a list sorted by `le`. -/
def insertSorted {α : Type} (le : α → α → Bool) (x : α) : List α → List α
  | [] => [x]
  | y :: ys => if le x y then x :: y :: ys else y :: insertSorted le x ys

/-- `cursor.sort(..)`: the documents in the order of `le` (the order among
equal keys is not fixed by the database; here that of the collection). -/
def sortBy {α : Type} (le : α → α → Bool) (l : List α) : List α :=
  l.foldr (insertSorted le) []

/-- The filter `{ userId, guildId }` on `warnings`. -/
def warningOf (userId guildId : String) (r : WarningRecord) : Bool :=
  decide (r.userId = userId ∧ r.guildId = guildId)

/-- The query of `handleInfractionsCommand` (index.js 992-996): the warnings of
(user, guild), newest first, at most ten. -/
def infractionsQuery (db : Db) (userId guildId : String) : List WarningRecord :=
  (sortBy (fun a b => decide (b.issuedAt ≤ a.issuedAt))
    (db.warnings.filter (warningOf userId guildId))).take 10

/-- `handleInfractionsCommand` (index.js 985-1021). -/
def handleInfractionsCommand (i : Interaction) (config : GuildConfig) (w : World) : Outcome :=
  if !hasPermission i.member .hr config then
    ⟨w, [.reply "You need HR permissions to view infractions."], false⟩
  else
    let user := i.targetUser
    let warnings := infractionsQuery w.db user.id i.guildId
    if warnings.length = 0 then
      ⟨w, [.reply (user.tag ++ " has no infractions on record.")], false⟩
    else ⟨w, [.replyEmbed ("Infractions for " ++ user.tag)], false⟩

/-- `handleClearInfractionsCommand` (index.js 1024-1046). -/
def handleClearInfractionsCommand (env : Env) (i : Interaction) (config : GuildConfig)
    (w : World) : Outcome :=
  if !hasPermission i.member .admin config then
    ⟨w, [.reply "You need admin permissions to clear infractions."], false⟩
  else
    let user := i.targetUser
    let deletedCount := deletedCountMany (warningOf user.id i.guildId) w.db.warnings
    let w1 := w.withWarnings (deleteMany (warningOf user.id i.guildId) w.db.warnings)
    let log := logAction env w1 i.guildId "Infractions Cleared" user
    if log.2 then ⟨w1, log.1, true⟩
    else
      ⟨w1, log.1 ++
        [.reply ("Cleared " ++ toString deletedCount ++ " infractions for " ++ user.tag ++ ".")],
        false⟩

/-- `handleFeedbackCommand` (index.js 1369-1401). -/
def handleFeedbackCommand (env : Env) (i : Interaction) (config : GuildConfig) (w : World) :
    Outcome :=
  let message := i.getString "message"
  let anonymous := (i.getBoolean "anonymous").getD false
  let feedback : FeedbackRecord :=
    { guildId := i.guildId, message := message, anonymous := anonymous,
      submittedBy := if anonymous then none else some i.user.id, submittedAt := env.now }
  let w1 := w.withFeedback (insertOne feedback w.db.feedback)
  let done : List Output := [.reply "Thank you for your feedback!"]
  match config.channels.feedback with
  | .str ch =>
    if ch ∈ env.channels then
      if env.sendOk then ⟨w1, .channelSend ch "New Staff Feedback" :: done, false⟩
      else ⟨w1, [], true⟩
    else ⟨w1, done, false⟩
  | _ => ⟨w1, done, false⟩

/-- The value of `interaction.options.getInteger('hours') || 0`. -/
def hoursOrZero (hours : Option Int) : Int :=
  match hours with
  | some h => if h = 0 then 0 else h
  | none => 0

/-- `handleLogActivityCommand` (index.js 1404-1426). -/
def handleLogActivityCommand (env : Env) (i : Interaction) (config : GuildConfig) (w : World) :
    Outcome :=
  if !hasPermission i.member .staff config then
    ⟨w, [.reply "You need staff permissions to log activity."], false⟩
  else
    let activity := i.getString "activity"
    let hours := hoursOrZero (i.getInteger "hours")
    let activityLog : ActivityLogRecord :=
      { userId := i.user.id, guildId := i.guildId, activity := activity, hours := hours,
        loggedAt := env.now }
    let w1 := w.withActivity (insertOne activityLog w.db.activity)
    let shown := if hours > 0 then " (" ++ toString hours ++ " hours)" else ""
    ⟨w1, [.reply ("Activity logged: " ++ jsStr activity ++ shown)], false⟩

/-- The filter `{ name, guildId }` on `tags`. -/
def tagOf (name : Option String) (guildId : String) (r : TagRecord) : Bool :=
  decide (r.name = name ∧ r.guildId = guildId)

/-- `handleTagCommand` (index.js 1518-1531). A tag without content cannot be
sent. -/
def handleTagCommand (i : Interaction) (_config : GuildConfig) (w : World) : Outcome :=
  let tagName := i.getString "name"
  match findOne (tagOf tagName i.guildId) w.db.tags with
  | none => ⟨w, [.reply "Tag not found."], false⟩
  | some tag =>
    match tag.content with
    | some content => ⟨w, [.reply content], false⟩
    | none => ⟨w, [], true⟩

/-- `handleTagManageCommand` (index.js 1534-1595). The order of the names in
the embed of `list` is not part of `Output`. -/
def handleTagManageCommand (env : Env) (i : Interaction) (config : GuildConfig) (w : World) :
    Outcome :=
  if !hasPermission i.member .hr config then
    ⟨w, [.reply "You need HR permissions to manage tags."], false⟩
  else if i.subcommand = "create" then
    let name := i.getString "name"
    let content := i.getString "content"
    match findOne (tagOf name i.guildId) w.db.tags with
    | some _ => ⟨w, [.reply "A tag with that name already exists."], false⟩
    | none =>
      let tag : TagRecord :=
        { name := name, content := content, guildId := i.guildId, createdBy := i.user.id,
          createdAt := env.now }
      ⟨w.withTags (insertOne tag w.db.tags),
        [.reply ("Tag " ++ String.singleton '"' ++ jsStr name ++ String.singleton '"' ++
          " created successfully.")], false⟩
  else if i.subcommand = "delete" then
    let name := i.getString "name"
    let w1 := w.withTags (deleteOne (tagOf name i.guildId) w.db.tags)
    if matchedCount (tagOf name i.guildId) w.db.tags = 0 then
      ⟨w1, [.reply "Tag not found."], false⟩
    else
      ⟨w1, [.reply ("Tag " ++ String.singleton '"' ++ jsStr name ++ String.singleton '"' ++
        " deleted successfully.")], false⟩
  else if i.subcommand = "list" then
    let tags := w.db.tags.filter (fun r => decide (r.guildId = i.guildId))
    if tags.length = 0 then ⟨w, [.reply "No tags found."], false⟩
    else ⟨w, [.replyEmbed "Available Tags"], false⟩
  else ⟨w, [], false⟩

/-- The filter `{ userId, guildId }` on `oncall`. -/
def onCallOf (userId guildId : String) (r : OnCallRecord) : Bool :=
  decide (r.userId = userId ∧ r.guildId = guildId)

/-- The `$set` of `oncall set`. -/
def setOnCall (userId guildId : String) (now : Nat) (r : OnCallRecord) : OnCallRecord :=
  { r with userId := userId, guildId := guildId, setAt := now, active := true }

/-- The `$set` of `oncall unset`. -/
def unsetOnCall (now : Nat) (r : OnCallRecord) : OnCallRecord :=
  { r with active := false, unsetAt := some now }

/-- `updateOne(filter, { $set }, { upsert: true })` of `oncall set`: the first
match is rewritten, and without a match the document is inserted. -/
def upsertOnCall (userId guildId : String) (now : Nat) (l : List OnCallRecord) :
    List OnCallRecord :=
  match findOne (onCallOf userId guildId) l with
  | some _ => updateOne (onCallOf userId guildId) (setOnCall userId guildId now) l
  | none => insertOne { userId := userId, guildId := guildId, setAt := now, active := true } l

/-- `handleOnCallCommand` (index.js 1630-1685). In `list`, building the embed
throws when a user cannot be fetched. -/
def handleOnCallCommand (env : Env) (i : Interaction) (config : GuildConfig) (w : World) :
    Outcome :=
  if !hasPermission i.member .staff config then
    ⟨w, [.reply "You need staff permissions to use the on-call system."], false⟩
  else if i.subcommand = "set" then
    ⟨w.withOnCall (upsertOnCall i.user.id i.guildId env.now w.db.oncall),
      [.reply "You are now marked as on-call."], false⟩
  else if i.subcommand = "unset" then
    ⟨w.withOnCall (updateOne (onCallOf i.user.id i.guildId) (unsetOnCall env.now) w.db.oncall),
      [.reply "You are no longer on-call."], false⟩
  else if i.subcommand = "list" then
    let onCallStaff := w.db.oncall.filter
      (fun r => decide (r.guildId = i.guildId ∧ r.active = true))
    if onCallStaff.length = 0 then
      ⟨w, [.reply "No staff members are currently on-call."], false⟩
    else if onCallStaff.all (fun r => (env.userFetch r.userId).isSome) then
      ⟨w, [.replyEmbed "Staff On-Call"], false⟩
    else ⟨w, [], true⟩
  else ⟨w, [], false⟩

/-- `handleAnnounceCommand` (index.js 1344-1366). The channel is the `channel`
option, else the configured announcements channel when it is in the channel
cache, else the channel of the interaction; without any of them
`channel.send` throws. -/
def handleAnnounceCommand (env : Env) (i : Interaction) (config : GuildConfig) (w : World) :
    Outcome :=
  if !hasPermission i.member .hr config then
    ⟨w, [.reply "You need HR permissions to make announcements."], false⟩
  else
    let cached : Option String :=
      match config.channels.announcements with
      | .str ch => if ch ∈ env.channels then some ch else none
      | _ => none
    let channel := (i.channelOption.orElse fun _ => cached).orElse fun _ => i.channelId
    match channel with
    | none => ⟨w, [], true⟩
    | some ch =>
      if env.sendOk then
        ⟨w, [.channelSend ch "Staff Announcement",
          .reply ("Announcement sent to <#" ++ ch ++ ">.")], false⟩
      else ⟨w, [], true⟩

/-- The query of `handleStaffReportCommand` (index.js 1450-1463): the activity
of the guild logged at or after the start date, of the user when one is given,
newest first, at most twenty. -/
def staffReportQuery (db : Db) (guildId : String) (startDate : Nat) (user : Option User) :
    List ActivityLogRecord :=
  let ofUser := fun r : ActivityLogRecord =>
    match user with
    | some u => decide (r.userId = u.id)
    | none => true
  (sortBy (fun a b => decide (b.loggedAt ≤ a.loggedAt))
    (db.activity.filter fun r =>
      decide (r.guildId = guildId ∧ startDate ≤ r.loggedAt) && ofUser r)).take 20

/-- `handleStaffReportCommand` (index.js 1429-1515). Without a user the embed
has one field per user of the activities, and building it throws when a user
cannot be fetched. -/
def handleStaffReportCommand (env : Env) (i : Interaction) (config : GuildConfig) (w : World) :
    Outcome :=
  if !hasPermission i.member .hr config then
    ⟨w, [.reply "You need HR permissions to view staff reports."], false⟩
  else
    let user := i.optionalUser
    let period :=
      match i.getString "period" with
      | some p => if p = "" then "week" else p
      | none => "week"
    let startDate :=
      if period = "today" ∨ period = "week" ∨ period = "month" then env.periodStart period
      else env.now
    let activities := staffReportQuery w.db i.guildId startDate user
    if activities.length = 0 then
      ⟨w, [.reply ("No activity found for the specified " ++ period ++ ".")], false⟩
    else
      match user with
      | some _ => ⟨w, [.replyEmbed ("Staff Activity Report - " ++ period)], false⟩
      | none =>
        if activities.all (fun r => (env.userFetch r.userId).isSome) then
          ⟨w, [.replyEmbed ("Staff Activity Report - " ++ period)], false⟩
        else ⟨w, [], true⟩

/-- `handleEvalCommand` (index.js 1598-1627): for the bot owner the code of the
`code` option is evaluated, inside `try`, and the result or the error is the
reply. -/
def handleEvalCommand (env : Env) (i : Interaction) (_config : GuildConfig) (w : World) :
    Outcome :=
  if some i.user.id ≠ env.ownerId then
    ⟨w, [.reply "This command is restricted to the bot owner."], false⟩
  else
    let r := env.evalCode (i.getString "code") w
    ⟨r.1, [.reply ("```js\n" ++ r.2 ++ "\n```")], false⟩

/-- Whether `interaction.replied` is set after the given messages. -/
def replied (out : List Output) : Bool :=
  out.any fun o =>
    match o with
    | .reply _ => true
    | .replyEmbed _ => true
    | .followUp _ => true
    | .showModal _ => true
    | .update _ => true
    | _ => false

/-- The `switch` of `handleSlashCommand` (index.js 492-550); a name outside the
switch runs nothing. -/
def runCommand (env : Env) (i : Interaction) (config : GuildConfig) (w : World) : Outcome :=
  if i.commandName = "config" then handleConfigCommand i config w
  else if i.commandName = "apply" then handleApplyCommand i config w
  else if i.commandName = "application" then handleApplicationCommand env i config w
  else if i.commandName = "warn" then handleWarnCommand env i config w
  else if i.commandName = "infractions" then handleInfractionsCommand i config w
  else if i.commandName = "clearinfractions" then handleClearInfractionsCommand env i config w
  else if i.commandName = "terminate" then handleTerminateCommand env i config w
  else if i.commandName = "loa" then handleLoaCommand env i config w
  else if i.commandName = "loa-manage" then handleLoaManageCommand env i config w
  else if i.commandName = "promote" then handlePromoteCommand env i config w
  else if i.commandName = "demote" then handleDemoteCommand env i config w
  else if i.commandName = "announce" then handleAnnounceCommand env i config w
  else if i.commandName = "feedback" then handleFeedbackCommand env i config w
  else if i.commandName = "logactivity" then handleLogActivityCommand env i config w
  else if i.commandName = "staffreport" then handleStaffReportCommand env i config w
  else if i.commandName = "tag" then handleTagCommand i config w
  else if i.commandName = "tag-manage" then handleTagManageCommand env i config w
  else if i.commandName = "eval" then handleEvalCommand env i config w
  else if i.commandName = "oncall" then handleOnCallCommand env i config w
  else ⟨w, [], false⟩

/-- `handleSlashCommand` (index.js 487-561): the handler runs inside `try`; an
exception is answered with the generic error reply. -/
def handleSlashCommand (env : Env) (i : Interaction) (w : World) : Outcome :=
  let config := getGuildConfig w.db i.guildId
  let r := runCommand env i config w
  if r.threw then
    let msg := "An error occurred while executing this command."
    ⟨r.world, r.out ++ [if replied r.out then Output.followUp msg else Output.reply msg], false⟩
  else r

/-- The `interactionCreate` listener (index.js 476-484). -/
def interactionCreate (env : Env) (i : Interaction) (w : World) : Outcome :=
  match i.kind with
  | .chatInput => handleSlashCommand env i w
  | .modalSubmit => handleModalSubmit env i w
  | .button => handleButtonInteraction env i w
  | .other => ⟨w, [], false⟩

/-! ## Predicates of the specification -/

/-- A pending ApplicationRecord exists for (user, guild). -/
def hasPendingApp (w : World) (userId guildId : String) : Prop :=
  ∃ r ∈ w.db.applications, r.userId = userId ∧ r.guildId = guildId ∧ r.status = "pending"

/-- The invariant of the data model: at most one pending ApplicationRecord per
(user, guild). -/
def atMostOnePendingApp (apps : List ApplicationRecord) : Prop :=
  ∀ userId guildId : String, (apps.filter (pendingApp userId guildId)).length ≤ 1

/-- A pending LoaRecord exists for (user, guild). -/
def hasPendingLoa (w : World) (userId guildId : String) : Prop :=
  ∃ r ∈ w.db.loa, r.userId = userId ∧ r.guildId = guildId ∧ r.status = "pending"

/-- An `application approve` that gets as far as the update: the actor passes
the hr gate, the chosen role is configured, the member is fetched and the
role grant resolves. -/
def approveRuns (env : Env) (j : Interaction) (config : GuildConfig) (w : World) : Prop :=
  hasPermission j.member Tier.hr config = true ∧ j.subcommand = "approve" ∧
    (∃ rid : String, config.roles.getStr (j.getString "role") = .str rid ∧ rid ≠ "") ∧
    (fetchMember w j.guildId j.targetUser.id).isSome = true ∧ env.grantOk = true

/-- An `application deny` (or `loa-manage deny`) by an actor that passes the
hr gate. -/
def denyRuns (j : Interaction) (config : GuildConfig) : Prop :=
  hasPermission j.member Tier.hr config = true ∧ j.subcommand = "deny"

/-- The invariant of the data model: at most one pending LoaRecord per (user,
guild). -/
def atMostOnePendingLoa (loa : List LoaRecord) : Prop :=
  ∀ userId guildId : String, (loa.filter (pendingLoa userId guildId)).length ≤ 1

/-- One LOA operation: a request, a `loa-manage` command (approve, deny or
list), or the scheduled clean-up. -/
inductive LoaOp where
  | request (env : Env) (i : Interaction) (config : GuildConfig)
  | manage (env : Env) (i : Interaction) (config : GuildConfig)
  | sweep (now : Nat)

/-- The world after one LOA operation. -/
def LoaOp.run : LoaOp → World → World
  | .request env i config, w => (handleLoaCommand env i config w).world
  | .manage env i config, w => (handleLoaManageCommand env i config w).world
  | .sweep now, w => cleanUpExpiredLoas now w

/-- The world after a sequence of LOA operations, one after another. -/
def runLoaOps : List LoaOp → World → World
  | [], w => w
  | op :: ops, w => runLoaOps ops (op.run w)

/-- Every record of `before` is at the same place in `after`, and where its
status differs the change is pending to approved, pending to denied, or
approved to expired. -/
def legalLoaChange (before after : List LoaRecord) : Prop :=
  ∀ (k : Nat) (r : LoaRecord), before[k]? = some r →
    ∃ r2, after[k]? = some r2 ∧
      (r2.status = r.status ∨
        (r.status = "pending" ∧ r2.status = "approved") ∨
        (r.status = "pending" ∧ r2.status = "denied") ∨
        (r.status = "approved" ∧ r2.status = "expired"))

/-- The words of the specification for the clean-up: the record is approved
and its `approvedAt` is earlier than `now` minus 30 days (2592000000 ms). -/
def approvedLongAgo (now : Nat) (r : LoaRecord) : Prop :=
  r.status = "approved" ∧ ∃ t : Nat, r.approvedAt = some t ∧ (t : Int) < (now : Int) - 2592000000

/-- The option value that names a tier in the `role` option. -/
def Tier.optionValue : Tier → String
  | .owner => "owner"
  | .admin => "admin"
  | .hr => "hr"
  | .staff => "staff"

/-- The words of the specification for `promote`: the configured role IDs of
the tiers strictly below the target, in the order staff < hr < admin, that the
member holds. -/
def heldBelow (target : Tier) (config : GuildConfig) (cache : List String) : List String :=
  ([Tier.staff, Tier.hr, Tier.admin].filter (fun t => decide (t.rank < target.rank))).filterMap
    (fun t =>
      match config.roles.get t with
      | .str id => if id ≠ "" ∧ id ∈ cache then some id else none
      | _ => none)

/-- The role ID is the configured ID of one of the staff tiers staff, hr,
admin. -/
def isStaffTierRole (config : GuildConfig) (roleId : String) : Prop :=
  roleId ≠ "" ∧ (config.roles.staff = .str roleId ∨ config.roles.hr = .str roleId ∨
    config.roles.admin = .str roleId)

/-- The member holds the configured admin role or the configured hr role. -/
def holdsAdminOrHr (config : GuildConfig) (cache : List String) : Prop :=
  ∃ id : String, id ≠ "" ∧ id ∈ cache ∧
    (config.roles.admin = .str id ∨ config.roles.hr = .str id)

/-- The words of the specification for the update object of `config set`: the
singly nested object with `value` under the path of the segments. -/
def nestedObject : List String → String → CfgVal
  | [], value => .str value
  | k :: ks, value => .obj (.cons k (nestedObject ks value) .nil)

/-- Reading the properties of a path in turn; `none` when one is missing. -/
def readPath : CfgVal → List String → Option CfgVal
  | v, [] => some v
  | .str _, _ :: _ => none
  | .obj fields, k :: ks =>
    match fields.lookup k with
    | some x => readPath x ks
    | none => none

mutual
/-- The number of paths of a stored value that end in a string. -/
def CfgVal.pathCount : CfgVal → Nat
  | .str _ => 1
  | .obj fields => fields.pathCount
/-- The number of paths through the fields of an object. -/
def CfgFields.pathCount : CfgFields → Nat
  | .nil => 0
  | .cons _ v rest => v.pathCount + rest.pathCount
end

/-- The fields of the object in which the own properties `path` lead to an
object of fields `leaf`, each object on the way having that one property. -/
def chainTo : List String → CfgFields → CfgFields
  | [], leaf => leaf
  | k :: ks, leaf => .cons k (.obj (chainTo ks leaf)) .nil

/-- The commands whose handler asks `hasPermission` for the hr tier (index.js
631, 923, 986, 1165, 1345, 1430, 1535). -/
def hrTierCommands : List String :=
  ["application", "warn", "infractions", "loa-manage", "announce", "staffreport", "tag-manage"]

/-- The tier each permission-gated command asks `hasPermission` for. -/
def commandTier (commandName : String) : Option Tier :=
  if commandName = "warn" then some .hr
  else if commandName = "clearinfractions" then some .admin
  else if commandName = "terminate" then some .admin
  else if commandName = "promote" then some .admin
  else if commandName = "demote" then some .admin
  else if commandName = "loa" then some .staff
  else if commandName = "loa-manage" then some .hr
  else if commandName = "tag-manage" then some .hr
  else if commandName = "config" then some .admin
  else if commandName = "logactivity" then some .staff
  else if commandName = "oncall" then some .staff
  else none

/-- The refusal each permission-gated command replies with. -/
def refusalText (commandName : String) : String :=
  if commandName = "warn" then "You need HR permissions to issue warnings."
  else if commandName = "clearinfractions" then
    "You need admin permissions to clear infractions."
  else if commandName = "terminate" then "You need admin permissions to terminate staff."
  else if commandName = "promote" then "You need admin permissions to promote staff."
  else if commandName = "demote" then "You need admin permissions to demote staff."
  else if commandName = "loa" then "You need staff permissions to request LOA."
  else if commandName = "loa-manage" then "You need HR permissions to manage LOA requests."
  else if commandName = "tag-manage" then "You need HR permissions to manage tags."
  else if commandName = "config" then "You need admin permissions to use this command."
  else if commandName = "logactivity" then "You need staff permissions to log activity."
  else if commandName = "oncall" then "You need staff permissions to use the on-call system."
  else ""

/-- A tag with the name exists in the guild. -/
def hasTag (w : World) (name : Option String) (guildId : String) : Prop :=
  ∃ r ∈ w.db.tags, r.name = name ∧ r.guildId = guildId

/-- The invariant of the data model: at most one tag per (name, guild). -/
def uniqueTags (tags : List TagRecord) : Prop :=
  ∀ (name : Option String) (guildId : String), (tags.filter (tagOf name guildId)).length ≤ 1

/-- The message is a direct message to a user. -/
def isDm : Output → Bool
  | .dm _ _ => true
  | _ => false

/-- Two outcomes with the same world and the same end, and the same messages
apart from direct messages. -/
def sameButDm (a b : Outcome) : Prop :=
  a.world = b.world ∧ a.threw = b.threw ∧
    a.out.filter (fun o => !isDm o) = b.out.filter (fun o => !isDm o)

/-! ## Sample inputs -/

/-- A user of guild `g1` with no role, invoking `/apply`. -/
def applicant : Interaction :=
  { user := ⟨"u1", "ann#1"⟩, member := ⟨[], false⟩, guildId := "g1", commandName := "apply" }

/-- The submission of the application form by the same user. -/
def applicantForm : Interaction :=
  { user := ⟨"u1", "ann#1"⟩, member := ⟨[], false⟩, guildId := "g1",
    customId := "staff_application",
    fields := [("applicant_name", "Ann"), ("applicant_age", "30"),
      ("applicant_experience", "none"), ("applicant_motivation", "help"),
      ("applicant_availability", "10h")] }

/-- A platform in which every call resolves, at time 1000. -/
def calmEnv : Env :=
  { now := 1000, grantOk := true, dmOk := true, userFetch := fun id => some ⟨id, id⟩,
    channels := [], sendOk := true }

/-- An environment in which the platform rejects changes of roles and fetches
no user. -/
def grantFailsEnv : Env :=
  { now := 1000, grantOk := false, dmOk := true, userFetch := fun _ => none,
    channels := [], sendOk := true }

/-- A config with the staff and hr roles set. -/
def staffHrConfig : GuildConfig :=
  configWithRoles ⟨.str "r-staff", .str "r-hr", .null, .null⟩

/-- The stored config of `g1` after `roles.staff` and `roles.hr` were written
in one object. -/
def staffHrStored : StoredConfig :=
  { guildId := "g1",
    fields := [("roles", .obj (.cons "staff" (.str "r-staff") (.cons "hr" (.str "r-hr") .nil)))] }

/-- An hr member running `application approve user:u1 role:staff`. -/
def hrApprove : Interaction :=
  { user := ⟨"u2", "bob#2"⟩, member := ⟨["r-hr"], false⟩, guildId := "g1",
    commandName := "application", subcommand := "approve", targetUser := ⟨"u1", "ann#1"⟩,
    strings := [("role", "staff")] }

/-- An hr member running `application deny user:u1 reason:late`. -/
def hrDeny : Interaction :=
  { user := ⟨"u2", "bob#2"⟩, member := ⟨["r-hr"], false⟩, guildId := "g1",
    commandName := "application", subcommand := "deny", targetUser := ⟨"u1", "ann#1"⟩,
    strings := [("reason", "late")] }

/-- A pending application of `u1` in `g1`. -/
def pendingOfAnn : ApplicationRecord :=
  { userId := "u1", guildId := "g1", name := "Ann", age := "30", experience := "none",
    motivation := "help", availability := "10h", submittedAt := 5, status := "pending" }

/-- A world in which `u1` is a member of `g1` without roles and has one
pending application. -/
def annPendingWorld : World :=
  { db := { applications := [pendingOfAnn] }, members := [⟨"g1", "u1", []⟩] }

/-- A world in which `u1` is a member of `g1` and no application is stored. -/
def annNoApplicationWorld : World :=
  { members := [⟨"g1", "u1", []⟩] }

/-- An approved application of `u1` in `g1`. -/
def approvedOfAnn : ApplicationRecord :=
  { pendingOfAnn with status := "approved", approvedBy := some "u2", approvedAt := some 9 }

/-- A staff member of `g1` running `/loa duration:"1 week" reason:"travel"`. -/
def loaRequester : Interaction :=
  { user := ⟨"u3", "bea#3"⟩, member := ⟨["r-staff"], false⟩, guildId := "g1",
    commandName := "loa", strings := [("duration", "1 week"), ("reason", "travel")] }

/-- An hr member running `loa-manage deny user:u3 reason:"insufficient notice"`. -/
def hrLoaDeny : Interaction :=
  { user := ⟨"u2", "bob#2"⟩, member := ⟨["r-hr"], false⟩, guildId := "g1",
    commandName := "loa-manage", subcommand := "deny", targetUser := ⟨"u3", "bea#3"⟩,
    strings := [("reason", "insufficient notice")] }

/-- An approved leave of `u3`, approved at time 1000. -/
def approvedLoaOfBea : LoaRecord :=
  { userId := "u3", guildId := "g1", duration := some "1 week", reason := some "travel",
    requestedAt := 900, status := "approved", approvedBy := some "u2", approvedAt := some 1000 }

/-- A stored config of `g1` whose `features` object has only `loaEnabled`. -/
def loaFlagStored : StoredConfig :=
  { guildId := "g1", fields := [("features", .obj (.cons "loaEnabled" (.str "false") .nil))] }

/-- A stored config of `g1` with the admin role and the applications channel. -/
def adminAndAppsChannelStored : StoredConfig :=
  { guildId := "g1",
    fields := [("roles", .obj (.cons "admin" (.str "r-admin") .nil)),
      ("channels", .obj (.cons "applications" (.str "c-apps") .nil))] }

/-- A holder of the admin role running
`config set key:channels.staffLog value:c-log`. -/
def adminSetsStaffLog : Interaction :=
  { user := ⟨"u4", "eve#4"⟩, member := ⟨["r-admin"], false⟩, guildId := "g1",
    commandName := "config", subcommand := "set",
    strings := [("key", "channels.staffLog"), ("value", "c-log")] }

/-- A config with the staff, hr and admin roles set. -/
def threeTierConfig : GuildConfig :=
  configWithRoles ⟨.str "r-staff", .str "r-hr", .str "r-admin", .null⟩

/-- A holder of the admin role running `promote user:u1 role:admin`. -/
def adminPromotes : Interaction :=
  { user := ⟨"u4", "eve#4"⟩, member := ⟨["r-admin"], false⟩, guildId := "g1",
    commandName := "promote", targetUser := ⟨"u1", "ann#1"⟩, strings := [("role", "admin")] }

/-- A holder of the admin role running `demote user:u1`. -/
def adminDemotes : Interaction :=
  { user := ⟨"u4", "eve#4"⟩, member := ⟨["r-admin"], false⟩, guildId := "g1",
    commandName := "demote", targetUser := ⟨"u1", "ann#1"⟩ }

/-- A holder of the admin role running `terminate user:u1 reason:"gone"`. -/
def adminTerminates : Interaction :=
  { user := ⟨"u4", "eve#4"⟩, member := ⟨["r-admin"], false⟩, guildId := "g1",
    commandName := "terminate", targetUser := ⟨"u1", "ann#1"⟩, strings := [("reason", "gone")] }

/-- A world in which `u1` holds the staff and hr roles and a role `r-misc`. -/
def annStaffHrWorld : World :=
  { members := [⟨"g1", "u1", ["r-staff", "r-misc", "r-hr"]⟩] }

/-- A staff member running `logactivity activity:"patrol" hours:-5`. -/
def logsNegativeHours : Interaction :=
  { user := ⟨"u3", "bea#3"⟩, member := ⟨["r-staff"], false⟩, guildId := "g1",
    commandName := "logactivity", strings := [("activity", "patrol")],
    integers := [("hours", -5)] }

/-- An hr member running `tag-manage create name:rules content:"Be kind."`. -/
def hrCreatesTag : Interaction :=
  { user := ⟨"u2", "bob#2"⟩, member := ⟨["r-hr"], false⟩, guildId := "g1",
    commandName := "tag-manage", subcommand := "create",
    strings := [("name", "rules"), ("content", "Be kind.")] }

/-- A world of `g1` with the staff and hr roles stored, `u1` a member without
roles, and one pending application of `u1`. -/
def annPendingConfiguredWorld : World :=
  { db := { configs := [staffHrStored], applications := [pendingOfAnn] },
    members := [⟨"g1", "u1", []⟩] }

/-- An hr member clicking the Approve button under the application of `u1`. -/
def hrClicksApprove : Interaction :=
  { user := ⟨"u2", "bob#2"⟩, member := ⟨["r-hr"], false⟩, guildId := "g1",
    customId := "approve_app_u1", kind := .button }

/-- The same member submitting the follow-up form with the role `staff`. -/
def hrSubmitsApproveForm : Interaction :=
  { user := ⟨"u2", "bob#2"⟩, member := ⟨["r-hr"], false⟩, guildId := "g1",
    customId := "approve_modal_u1", fields := [("role_selection", "staff")],
    kind := .modalSubmit }

/-- The same member submitting the denial form with a reason. -/
def hrSubmitsDenyForm : Interaction :=
  { user := ⟨"u2", "bob#2"⟩, member := ⟨["r-hr"], false⟩, guildId := "g1",
    customId := "deny_modal_u1", fields := [("denial_reason", "late")],
    kind := .modalSubmit }

/-- A staff member running `oncall set`. -/
def staffSetsOnCall : Interaction :=
  { user := ⟨"u3", "bea#3"⟩, member := ⟨["r-staff"], false⟩, guildId := "g1",
    commandName := "oncall", subcommand := "set" }

/-! ## Theorems: permission check -/

/-- The loop test of `hasPermission` at one tier says that the member holds
the configured role ID of that tier. -/
theorem loopTest_iff (cache : List String) (v : JsVal) :
    (v.truthy && cacheHas cache v) = true ↔
      ∃ id : String, v = .str id ∧ id ≠ "" ∧ id ∈ cache := by
  cases v <;> simp [JsVal.truthy, cacheHas]

/-- The tiers the loop of `hasPermission` visits, for each required tier. -/
theorem scanned_tiers (t : Tier) :
    roleHierarchy.take (roleHierarchy.indexOf t + 1) =
      match t with
      | .owner => [.owner]
      | .admin => [.owner, .admin]
      | .hr => [.owner, .admin, .hr]
      | .staff => [.owner, .admin, .hr, .staff] := by
  cases t <;> rfl

/-- The scan of `hasPermission` visits exactly the tiers at or above the
required one. -/
theorem scan_iff (member : Member) (t : Tier) (config : GuildConfig) :
    (roleHierarchy.take (roleHierarchy.indexOf t + 1)).any
        (fun u => (config.roles.get u).truthy && cacheHas member.roles (config.roles.get u)) = true
      ↔ holdsTierOrAbove member t config := by
  unfold holdsTierOrAbove
  rw [scanned_tiers]
  simp only [List.any_eq_true, loopTest_iff]
  constructor
  · rintro ⟨u, hu, h⟩
    refine ⟨u, ?_, h⟩
    cases t <;> cases u <;> simp_all [Tier.rank]
  · rintro ⟨u, hu, h⟩
    refine ⟨u, ?_, h⟩
    cases t <;> cases u <;> simp_all [Tier.rank]

/-- What `hasPermission` computes, for every input. -/
theorem hasPermission_eq_true_iff (member : Member) (t : Tier) (config : GuildConfig) :
    hasPermission member t config = true ↔
      roleConfigured config t ∧
        (holdsTierOrAbove member t config ∨ member.administrator = true) := by
  unfold hasPermission roleConfigured
  rw [← scan_iff]
  cases hcfg : (config.roles.get t).truthy <;> simp

/-- C1, as amended: for every tier whose role is configured in the guild
config, `hasPermission` returns true if and only if the member holds the
configured role ID of that tier or of a tier above it, or is a platform
administrator; for a tier whose role is not configured it returns false for
every member that is not a platform administrator, whatever roles the member
holds. -/
theorem hasPermission_configured_iff (member : Member) (t : Tier) (config : GuildConfig) :
    (roleConfigured config t →
      (hasPermission member t config = true ↔
        (holdsTierOrAbove member t config ∨ member.administrator = true))) ∧
    (¬ roleConfigured config t → member.administrator = false →
      hasPermission member t config = false) := by
  constructor
  · intro hcfg
    rw [hasPermission_eq_true_iff]
    exact ⟨fun h => h.2, fun h => ⟨hcfg, h⟩⟩
  · intro hcfg _
    cases h : hasPermission member t config with
    | false => rfl
    | true => exact absurd ((hasPermission_eq_true_iff member t config).1 h).1 hcfg

/-- Witness of C1 as amended: hr configured and the member holds the admin
role; owner not configured and the member, no administrator, holds that
admin role. -/
theorem hasPermission_configured_iff_witness :
    (hasPermission ⟨["r-admin"], false⟩ Tier.hr
        (configWithRoles ⟨.null, .str "r-hr", .str "r-admin", .null⟩) = true ↔
      (holdsTierOrAbove ⟨["r-admin"], false⟩ Tier.hr
          (configWithRoles ⟨.null, .str "r-hr", .str "r-admin", .null⟩) ∨
        (⟨["r-admin"], false⟩ : Member).administrator = true)) ∧
    hasPermission ⟨["r-admin"], false⟩ Tier.owner
        (configWithRoles ⟨.null, .str "r-hr", .str "r-admin", .null⟩) = false :=
  ⟨(hasPermission_configured_iff _ _ _).1 (by decide),
    (hasPermission_configured_iff ⟨["r-admin"], false⟩ Tier.owner
      (configWithRoles ⟨.null, .str "r-hr", .str "r-admin", .null⟩)).2 (by decide) rfl⟩

/-- C1 as stated fails: with the hr role not configured, a member holding the
configured admin role satisfies the right-hand side, and `hasPermission`
returns false for the hr tier. -/
theorem hasPermission_iff_counterexample :
    ¬ (∀ (member : Member) (t : Tier) (config : GuildConfig),
        hasPermission member t config = true ↔
          (holdsTierOrAbove member t config ∨ member.administrator = true)) := by
  intro h
  have h1 := h ⟨["r-admin"], false⟩ Tier.hr
    (configWithRoles ⟨.null, .null, .str "r-admin", .null⟩)
  have h2 : hasPermission ⟨["r-admin"], false⟩ Tier.hr
      (configWithRoles ⟨.null, .null, .str "r-admin", .null⟩) = false := by
    decide
  rw [h2] at h1
  have h3 := h1.2 (Or.inl ⟨Tier.admin, by decide, "r-admin", rfl, by decide, by simp⟩)
  exact Bool.noConfusion h3

/-- The guard of `hasPermission` at the hr tier: with the hr role not
configured the result is false, whatever roles the member holds. -/
theorem hasPermission_hr_unconfigured (member : Member) (config : GuildConfig)
    (hhr : config.roles.hr.truthy = false) (_hadm : member.administrator = false) :
    hasPermission member Tier.hr config = false := by
  simp [hasPermission, Roles.get, hhr]

/-- C2, the code at the failing input: under the default config (no stored
config, no role set) `hasPermission` refuses the admin tier to a platform
administrator, whatever roles the administrator holds. -/
theorem hasPermission_admin_default_config (roles : List String) (guildId : String) :
    hasPermission ⟨roles, true⟩ Tier.admin (getGuildConfig {} guildId) = false := by
  rfl

/-- C3: with the hr role not configured, `hasPermission` for the hr tier is
false for every member that is not a platform administrator, whatever roles
the member holds, and every hr-tier handler (`warn`, `application`,
`infractions`, `loa-manage`, `announce`, `staffreport`, `tag-manage`, and the
handler of the application buttons and forms) only answers with its refusal,
leaving the world as it was; so does the dispatch of each of these commands. -/
theorem hr_unconfigured_refused (env : Env) (i : Interaction) (config : GuildConfig) (w : World)
    (hhr : config.roles.hr.truthy = false) (hadm : i.member.administrator = false) :
    hasPermission i.member Tier.hr config = false ∧
    handleWarnCommand env i config w =
      ⟨w, [.reply "You need HR permissions to issue warnings."], false⟩ ∧
    handleApplicationCommand env i config w =
      ⟨w, [.reply "You need HR permissions to manage applications."], false⟩ ∧
    handleLoaManageCommand env i config w =
      ⟨w, [.reply "You need HR permissions to manage LOA requests."], false⟩ ∧
    (getGuildConfig w.db i.guildId = config →
      handleButtonInteraction env i w =
        ⟨w, [.reply "You need HR permissions to manage applications."], false⟩) ∧
    handleInfractionsCommand i config w =
      ⟨w, [.reply "You need HR permissions to view infractions."], false⟩ ∧
    handleTagManageCommand env i config w =
      ⟨w, [.reply "You need HR permissions to manage tags."], false⟩ ∧
    handleAnnounceCommand env i config w =
      ⟨w, [.reply "You need HR permissions to make announcements."], false⟩ ∧
    handleStaffReportCommand env i config w =
      ⟨w, [.reply "You need HR permissions to view staff reports."], false⟩ ∧
    (i.commandName ∈ hrTierCommands →
      ∃ what : String, runCommand env i config w =
        ⟨w, [.reply ("You need HR permissions to " ++ what)], false⟩) := by
  have h := hasPermission_hr_unconfigured i.member config hhr hadm
  have hwarn : handleWarnCommand env i config w =
      ⟨w, [.reply "You need HR permissions to issue warnings."], false⟩ := by
    simp [h, handleWarnCommand]
  have happ : handleApplicationCommand env i config w =
      ⟨w, [.reply "You need HR permissions to manage applications."], false⟩ := by
    simp [h, handleApplicationCommand]
  have hloa : handleLoaManageCommand env i config w =
      ⟨w, [.reply "You need HR permissions to manage LOA requests."], false⟩ := by
    simp [h, handleLoaManageCommand]
  have hinf : handleInfractionsCommand i config w =
      ⟨w, [.reply "You need HR permissions to view infractions."], false⟩ := by
    simp [h, handleInfractionsCommand]
  have htag : handleTagManageCommand env i config w =
      ⟨w, [.reply "You need HR permissions to manage tags."], false⟩ := by
    simp [h, handleTagManageCommand]
  have hann : handleAnnounceCommand env i config w =
      ⟨w, [.reply "You need HR permissions to make announcements."], false⟩ := by
    simp [h, handleAnnounceCommand]
  have hrep : handleStaffReportCommand env i config w =
      ⟨w, [.reply "You need HR permissions to view staff reports."], false⟩ := by
    simp [h, handleStaffReportCommand]
  refine ⟨h, hwarn, happ, hloa, ?_, hinf, htag, hann, hrep, ?_⟩
  · intro hcfg
    simp [handleButtonInteraction, hcfg, h]
  · intro hmem
    simp only [hrTierCommands, List.mem_cons, List.mem_singleton, List.not_mem_nil,
      or_false] at hmem
    rcases hmem with hn | hn | hn | hn | hn | hn | hn
    · refine ⟨"manage applications.", ?_⟩
      rw [show runCommand env i config w = handleApplicationCommand env i config w from by
        simp [runCommand, hn]]
      exact happ
    · refine ⟨"issue warnings.", ?_⟩
      rw [show runCommand env i config w = handleWarnCommand env i config w from by
        simp [runCommand, hn]]
      exact hwarn
    · refine ⟨"view infractions.", ?_⟩
      rw [show runCommand env i config w = handleInfractionsCommand i config w from by
        simp [runCommand, hn]]
      exact hinf
    · refine ⟨"manage LOA requests.", ?_⟩
      rw [show runCommand env i config w = handleLoaManageCommand env i config w from by
        simp [runCommand, hn]]
      exact hloa
    · refine ⟨"make announcements.", ?_⟩
      rw [show runCommand env i config w = handleAnnounceCommand env i config w from by
        simp [runCommand, hn]]
      exact hann
    · refine ⟨"view staff reports.", ?_⟩
      rw [show runCommand env i config w = handleStaffReportCommand env i config w from by
        simp [runCommand, hn]]
      exact hrep
    · refine ⟨"manage tags.", ?_⟩
      rw [show runCommand env i config w = handleTagManageCommand env i config w from by
        simp [runCommand, hn]]
      exact htag

/-- Witness of C3: only the admin role is configured and the member holds it. -/
theorem hr_unconfigured_refused_witness :
    hasPermission ⟨["r-admin"], false⟩ Tier.hr
      (configWithRoles ⟨.null, .null, .str "r-admin", .null⟩) = false :=
  (hr_unconfigured_refused calmEnv
    { user := ⟨"u2", "hr#2"⟩, member := ⟨["r-admin"], false⟩, guildId := "g1" }
    (configWithRoles ⟨.null, .null, .str "r-admin", .null⟩) {} (by decide) (by decide)).1

/-! ## Theorems: collection operations -/

theorem updateOne_length {α : Type} (filter : α → Bool) (set : α → α) (l : List α) :
    (updateOne filter set l).length = l.length := by
  induction l with
  | nil => rfl
  | cons x xs ih => by_cases h : filter x = true <;> simp [updateOne, h, ih]

/-- A document that does not match the filter stays where it is. -/
theorem updateOne_getElem?_of_not_filter {α : Type} (filter : α → Bool) (set : α → α)
    (l : List α) (k : Nat) (r : α) (hk : l[k]? = some r) (hr : filter r = false) :
    (updateOne filter set l)[k]? = some r := by
  induction l generalizing k with
  | nil => simp at hk
  | cons x xs ih =>
    by_cases h : filter x = true
    · cases k with
      | zero =>
        simp at hk
        subst hk
        simp [hr] at h
      | succ n => simpa [updateOne, h] using hk
    · cases k with
      | zero => simpa [updateOne, h] using hk
      | succ n =>
        simp only [updateOne, h]
        simpa using ih n (by simpa using hk)

/-- Without a match, `updateOne` changes nothing. -/
theorem updateOne_of_find?_none {α : Type} (filter : α → Bool) (set : α → α) (l : List α)
    (h : l.find? filter = none) : updateOne filter set l = l := by
  induction l with
  | nil => rfl
  | cons x xs ih =>
    by_cases hx : filter x = true
    · simp [List.find?, hx] at h
    · have hxs : xs.find? filter = none := by simpa [List.find?, hx] using h
      simp [updateOne, hx, ih hxs]

/-- With a match, `updateOne` rewrites exactly the first matching document. -/
theorem updateOne_split {α : Type} (filter : α → Bool) (set : α → α) (l : List α)
    (h : ∃ x ∈ l, filter x = true) :
    ∃ l1 r l2, l = l1 ++ r :: l2 ∧ filter r = true ∧ (∀ x ∈ l1, filter x = false) ∧
      updateOne filter set l = l1 ++ set r :: l2 := by
  induction l with
  | nil => simp at h
  | cons x xs ih =>
    by_cases hx : filter x = true
    · exact ⟨[], x, xs, rfl, hx, by simp, by simp [updateOne, hx]⟩
    · have h' : ∃ y ∈ xs, filter y = true := by
        obtain ⟨y, hy, hfy⟩ := h
        rcases List.mem_cons.1 hy with rfl | hy
        · exact absurd hfy hx
        · exact ⟨y, hy, hfy⟩
      obtain ⟨l1, r, l2, hl, hr, hl1, hu⟩ := ih h'
      refine ⟨x :: l1, r, l2, by simp [hl], hr, ?_, by simp [updateOne, hx, hu]⟩
      intro y hy
      rcases List.mem_cons.1 hy with rfl | hy
      · simpa using hx
      · exact hl1 y hy

/-- When the rewritten document no longer matches and at most one document
matched, none matches after `updateOne`. -/
theorem find?_updateOne_none {α : Type} (filter : α → Bool) (set : α → α) (l : List α)
    (hset : ∀ x, filter (set x) = false) (hone : (l.filter filter).length ≤ 1) :
    (updateOne filter set l).find? filter = none := by
  induction l with
  | nil => rfl
  | cons x xs ih =>
    by_cases hx : filter x = true
    · simp only [List.filter, hx, List.length_cons] at hone
      have hnil : xs.filter filter = [] := List.eq_nil_of_length_eq_zero (by omega)
      simp only [updateOne, hx, if_true, List.find?, hset]
      rw [List.find?_eq_none]
      intro y hy
      have := List.filter_eq_nil_iff.1 hnil y hy
      simpa using this
    · simp only [List.filter, hx] at hone
      simp only [updateOne, hx, List.find?]
      simpa using ih hone

theorem find?_pendingApp_isSome_iff (w : World) (userId guildId : String) :
    (findOne (pendingApp userId guildId) w.db.applications).isSome = true ↔
      hasPendingApp w userId guildId := by
  simp [findOne, hasPendingApp, pendingApp, List.find?_isSome]

theorem find?_pendingLoa_isSome_iff (w : World) (userId guildId : String) :
    (findOne (pendingLoa userId guildId) w.db.loa).isSome = true ↔
      hasPendingLoa w userId guildId := by
  simp [findOne, hasPendingLoa, pendingLoa, List.find?_isSome]

/-! ## Theorems: applications -/

/-- C4, the code at the failing input. From the empty store the user runs
`/apply` twice; no application is stored yet, so both commands open the form.
The user submits both forms: `handleModalSubmit` inserts without looking for a
pending record, and the store holds two pending records of (u1, g1). -/
theorem two_pending_after_two_forms :
    atMostOnePendingApp ([] : List ApplicationRecord) ∧
    handleApplyCommand applicant defaultConfig {} =
      ⟨{}, [.showModal "staff_application"], false⟩ ∧
    ((handleModalSubmit calmEnv applicantForm
        (handleModalSubmit calmEnv applicantForm {}).world).world.db.applications.filter
      (pendingApp "u1" "g1")).length = 2 ∧
    ¬ atMostOnePendingApp
      (handleModalSubmit calmEnv applicantForm
        (handleModalSubmit calmEnv applicantForm {}).world).world.db.applications := by
  refine ⟨fun _ _ => by simp, by decide, by decide, ?_⟩
  intro h
  have h2 := h "u1" "g1"
  revert h2
  decide

/-- The world after an `application approve` that gets as far as the update. -/
theorem approve_world (env : Env) (j : Interaction) (config : GuildConfig) (w : World)
    (rid : String) (hperm : hasPermission j.member Tier.hr config = true)
    (hsub : j.subcommand = "approve")
    (hrole : config.roles.getStr (j.getString "role") = .str rid) (hne : rid ≠ "")
    (hmem : (fetchMember w j.guildId j.targetUser.id).isSome = true)
    (hgrant : env.grantOk = true) :
    (handleApplicationCommand env j config w).world =
      (addRole w j.guildId j.targetUser.id rid).withApplications
        (updateOne (pendingApp j.targetUser.id j.guildId) (setApproved j.user.id env.now)
          w.db.applications) := by
  obtain ⟨m, hm⟩ := Option.isSome_iff_exists.1 hmem
  simp only [handleApplicationCommand, hperm, hsub, hrole, hm, hgrant, JsVal.truthy]
  simp only [hne, ne_eq, not_false_eq_true, decide_True, Bool.not_true, Bool.false_eq_true,
    if_false, if_true]
  split <;> rfl

/-- The world after an `application deny` by an actor that passes the gate. -/
theorem deny_world (env : Env) (j : Interaction) (config : GuildConfig) (w : World)
    (hruns : denyRuns j config) :
    (handleApplicationCommand env j config w).world =
      w.withApplications
        (updateOne (pendingApp j.targetUser.id j.guildId)
          (setDenied j.user.id env.now (j.getString "reason")) w.db.applications) := by
  obtain ⟨hperm, hsub⟩ := hruns
  simp only [handleApplicationCommand, hperm, hsub]
  simp only [Bool.not_true, Bool.false_eq_true, if_false, if_true,
    show ("deny" = "approve") = False by decide]
  split <;> rfl

theorem pendingApp_setApproved (userId guildId actorId : String) (now : Nat)
    (r : ApplicationRecord) : pendingApp userId guildId (setApproved actorId now r) = false := by
  simp [pendingApp, setApproved]

theorem pendingApp_setDenied (userId guildId actorId : String) (now : Nat)
    (reason : Option String) (r : ApplicationRecord) :
    pendingApp userId guildId (setDenied actorId now reason r) = false := by
  simp [pendingApp, setDenied]

/-- What `handleApplyCommand` does when applications are enabled. -/
theorem handleApplyCommand_enabled (i : Interaction) (config : GuildConfig) (w : World)
    (hen : config.features.applicationsEnabled.truthy = true) :
    handleApplyCommand i config w =
      match findOne (pendingApp i.user.id i.guildId) w.db.applications with
      | some _ => ⟨w, [.reply "You already have a pending application."], false⟩
      | none => ⟨w, [.showModal "staff_application"], false⟩ := by
  simp [handleApplyCommand, hen, createApplicationForm]

/-- C5: with applications enabled, `handleApplyCommand` answers with the
already-pending reply, opening no form, if and only if a pending
ApplicationRecord exists for (user, guild), and opens the form otherwise; it
never changes the world. In particular, from a store with at most one pending
record of the user, once `application approve` or `application deny` has run
for that user, a new apply opens the form. -/
theorem apply_refused_iff_pending (i : Interaction) (config : GuildConfig) (w : World)
    (hen : config.features.applicationsEnabled.truthy = true) :
    ((handleApplyCommand i config w).out = [.reply "You already have a pending application."] ↔
      hasPendingApp w i.user.id i.guildId) ∧
    ((handleApplyCommand i config w).out = [.showModal "staff_application"] ↔
      ¬ hasPendingApp w i.user.id i.guildId) ∧
    (handleApplyCommand i config w).world = w ∧
    (∀ (env : Env) (j : Interaction) (cfg : GuildConfig),
      j.targetUser.id = i.user.id → j.guildId = i.guildId →
      (approveRuns env j cfg w ∨ denyRuns j cfg) →
      (w.db.applications.filter (pendingApp i.user.id i.guildId)).length ≤ 1 →
      (handleApplyCommand i config (handleApplicationCommand env j cfg w).world).out =
        [.showModal "staff_application"]) := by
  have key : ∀ w : World, handleApplyCommand i config w =
      match findOne (pendingApp i.user.id i.guildId) w.db.applications with
      | some _ => ⟨w, [.reply "You already have a pending application."], false⟩
      | none => ⟨w, [.showModal "staff_application"], false⟩ :=
    fun w => handleApplyCommand_enabled i config w hen
  have hiff := find?_pendingApp_isSome_iff w i.user.id i.guildId
  refine ⟨?_, ?_, ?_, ?_⟩
  · rw [key, ← hiff]
    cases findOne (pendingApp i.user.id i.guildId) w.db.applications <;> simp
  · rw [key, ← hiff]
    cases findOne (pendingApp i.user.id i.guildId) w.db.applications <;> simp
  · rw [key]
    cases findOne (pendingApp i.user.id i.guildId) w.db.applications <;> rfl
  · intro env j cfg hu hg hruns hone
    rw [key]
    have hnone : findOne (pendingApp i.user.id i.guildId)
        (handleApplicationCommand env j cfg w).world.db.applications = none := by
      rcases hruns with ⟨hperm, hsub, ⟨rid, hrole, hne⟩, hmem, hgrant⟩ | hd
      · rw [approve_world env j cfg w rid hperm hsub hrole hne hmem hgrant, hu, hg]
        exact find?_updateOne_none _ _ _ (pendingApp_setApproved _ _ _ _) hone
      · rw [deny_world env j cfg w hd, hu, hg]
        exact find?_updateOne_none _ _ _ (pendingApp_setDenied _ _ _ _ _) hone
    rw [hnone]

/-- Witness of C5: under the default config, for the sample applicant. -/
theorem apply_refused_iff_pending_witness :
    defaultConfig.features.applicationsEnabled.truthy = true ∧
    ((handleApplyCommand applicant defaultConfig annPendingWorld).out =
        [.reply "You already have a pending application."] ↔
      hasPendingApp annPendingWorld "u1" "g1") :=
  ⟨by decide, (apply_refused_iff_pending applicant defaultConfig annPendingWorld (by decide)).1⟩

/-- After `updateOne`, the first match of the same filter is the rewritten
document, when it still matches. -/
theorem find?_updateOne_same {α : Type} (filter : α → Bool) (set : α → α) (l : List α) (m : α)
    (hm : l.find? filter = some m) (hset : filter (set m) = true) :
    (updateOne filter set l).find? filter = some (set m) := by
  induction l with
  | nil => simp at hm
  | cons x xs ih =>
    by_cases hx : filter x = true
    · simp only [List.find?, hx, Option.some.injEq] at hm
      subst hm
      simp [updateOne, hx, List.find?, hset]
    · simp only [List.find?, hx] at hm
      simp only [updateOne, hx, List.find?]
      simpa using ih (by simpa using hm)

/-- After `member.roles.add(roleId)` the fetched member holds the role. -/
theorem holdsRole_addRole (w : World) (guildId userId roleId : String)
    (hmem : (fetchMember w guildId userId).isSome = true) :
    holdsRole (addRole w guildId userId roleId) guildId userId roleId := by
  obtain ⟨m, hm⟩ := Option.isSome_iff_exists.1 hmem
  have hpm : decide (m.guildId = guildId ∧ m.userId = userId) = true := by
    have := List.find?_some hm
    simpa using this
  refine ⟨{ m with roles := if roleId ∈ m.roles then m.roles else m.roles ++ [roleId] }, ?_, ?_⟩
  · exact find?_updateOne_same _ _ _ m hm (by simpa using hpm)
  · by_cases h : roleId ∈ m.roles <;> simp [h]

/-- C6: for an authorized `application approve` with the chosen role
configured, the member fetched and the role grant resolving, from a store with
a pending ApplicationRecord of (user, guild): afterwards the member holds the
configured role ID, and the applications collection differs in exactly one
document, a formerly pending record of (user, guild), now with status
approved, approvedBy the actor and approvedAt the current time. -/
theorem approve_grants_role_and_marks_record (env : Env) (j : Interaction)
    (config : GuildConfig) (w : World) (rid : String)
    (hperm : hasPermission j.member Tier.hr config = true)
    (hsub : j.subcommand = "approve")
    (hrole : config.roles.getStr (j.getString "role") = .str rid) (hne : rid ≠ "")
    (hmem : (fetchMember w j.guildId j.targetUser.id).isSome = true)
    (hgrant : env.grantOk = true)
    (hpend : hasPendingApp w j.targetUser.id j.guildId) :
    holdsRole (handleApplicationCommand env j config w).world j.guildId j.targetUser.id rid ∧
    ∃ l1 r l2, w.db.applications = l1 ++ r :: l2 ∧
      r.userId = j.targetUser.id ∧ r.guildId = j.guildId ∧ r.status = "pending" ∧
      (handleApplicationCommand env j config w).world.db.applications =
        l1 ++ { r with status := "approved", approvedBy := some j.user.id,
                       approvedAt := some env.now } :: l2 := by
  rw [approve_world env j config w rid hperm hsub hrole hne hmem hgrant]
  refine ⟨holdsRole_addRole w _ _ _ hmem, ?_⟩
  have hex : ∃ x ∈ w.db.applications, pendingApp j.targetUser.id j.guildId x = true := by
    obtain ⟨r, hr, h1, h2, h3⟩ := hpend
    exact ⟨r, hr, by simp [pendingApp, h1, h2, h3]⟩
  obtain ⟨l1, r, l2, hl, hr, -, hu⟩ :=
    updateOne_split (pendingApp j.targetUser.id j.guildId) (setApproved j.user.id env.now)
      w.db.applications hex
  have hr' : r.userId = j.targetUser.id ∧ r.guildId = j.guildId ∧ r.status = "pending" := by
    simpa [pendingApp] using hr
  exact ⟨l1, r, l2, hl, hr'.1, hr'.2.1, hr'.2.2, hu⟩

/-- Witness of C6: an hr member approves the pending application of `u1` for
the staff role. -/
theorem approve_grants_role_and_marks_record_witness :
    holdsRole (handleApplicationCommand calmEnv hrApprove staffHrConfig annPendingWorld).world
      "g1" "u1" "r-staff" :=
  (approve_grants_role_and_marks_record calmEnv hrApprove staffHrConfig annPendingWorld "r-staff"
    (by decide) (by decide) (by decide) (by decide) (by decide) (by decide)
    ⟨pendingOfAnn, by simp [annPendingWorld], rfl, rfl, rfl⟩).1

/-- C7, the code at the failing input. No application is stored for `u1`. An
hr member runs `application approve user:u1 role:staff`: the member receives
the staff role and the actor is told the approval succeeded. The same actor
runs `application deny`: the actor is told the denial succeeded. -/
theorem approve_and_deny_without_pending_record :
    handleApplicationCommand calmEnv hrApprove staffHrConfig annNoApplicationWorld =
      ⟨{ members := [⟨"g1", "u1", ["r-staff"]⟩] },
        [.dm "u1" "Application Approved!", .reply "Approved ann#1 for staff position."],
        false⟩ ∧
    handleApplicationCommand calmEnv hrDeny staffHrConfig annNoApplicationWorld =
      ⟨annNoApplicationWorld,
        [.dm "u1" "Application Update", .reply "Denied application from ann#1."], false⟩ := by
  constructor <;> decide

/-- C8: for an authorized `application approve` slash command with the chosen
role configured, when fetching the member or granting the role fails, the
world is left as it was (the record stays pending, no role changes) and the
only message is the generic error reply. -/
theorem approve_failure_leaves_world (env : Env) (i : Interaction) (w : World)
    (hcmd : i.commandName = "application") (hsub : i.subcommand = "approve")
    (hperm : hasPermission i.member Tier.hr (getGuildConfig w.db i.guildId) = true)
    (hrole : ((getGuildConfig w.db i.guildId).roles.getStr (i.getString "role")).truthy = true)
    (hfail : fetchMember w i.guildId i.targetUser.id = none ∨ env.grantOk = false) :
    handleSlashCommand env i w =
      ⟨w, [.reply "An error occurred while executing this command."], false⟩ := by
  have hthrow : handleApplicationCommand env i (getGuildConfig w.db i.guildId) w =
      ⟨w, [], true⟩ := by
    simp only [handleApplicationCommand, hperm, hsub, hrole]
    simp only [Bool.not_true, Bool.false_eq_true, if_false, if_true]
    rcases hfail with hf | hg
    · simp [hf]
    · cases hm : fetchMember w i.guildId i.targetUser.id with
      | none => rfl
      | some m =>
        simp only [hg]
        split <;> simp_all
  simp [handleSlashCommand, runCommand, hcmd, hthrow, replied]

/-- Witness of C8: the role grant is rejected by the platform. -/
theorem approve_failure_leaves_world_witness :
    handleSlashCommand grantFailsEnv hrApprove
        { db := { configs := [staffHrStored],
                  applications := [pendingOfAnn] },
          members := [⟨"g1", "u1", []⟩] } =
      ⟨{ db := { configs := [staffHrStored],
                 applications := [pendingOfAnn] },
         members := [⟨"g1", "u1", []⟩] },
        [.reply "An error occurred while executing this command."], false⟩ :=
  approve_failure_leaves_world _ hrApprove _ (by decide) (by decide) (by decide) (by decide)
    (Or.inr rfl)

/-- A record that is not pending does not match the pending filter. -/
theorem pendingApp_of_terminal (userId guildId : String) (r : ApplicationRecord)
    (hterm : r.status = "approved" ∨ r.status = "denied") :
    pendingApp userId guildId r = false := by
  rcases hterm with h | h <;> simp [pendingApp, h]

/-- The applications collection after `handleApplicationCommand` is the one
before, or the one before with one `updateOne` on a pending filter. -/
theorem handleApplicationCommand_apps (env : Env) (i : Interaction) (config : GuildConfig)
    (w : World) :
    (handleApplicationCommand env i config w).world.db.applications = w.db.applications ∨
    ∃ (uid : String) (set : ApplicationRecord → ApplicationRecord),
      (handleApplicationCommand env i config w).world.db.applications =
        updateOne (pendingApp uid i.guildId) set w.db.applications := by
  unfold handleApplicationCommand
  dsimp only
  (repeat' split) <;>
    first
    | (left; rfl)
    | (right; exact ⟨_, _, rfl⟩)

/-- The applications collection after `handleButtonInteraction` is the one
before, or the one before with one `updateOne` on a pending filter. -/
theorem handleButtonInteraction_apps (env : Env) (i : Interaction) (w : World) :
    (handleButtonInteraction env i w).world.db.applications = w.db.applications ∨
    ∃ (uid : String) (set : ApplicationRecord → ApplicationRecord),
      (handleButtonInteraction env i w).world.db.applications =
        updateOne (pendingApp uid i.guildId) set w.db.applications := by
  unfold handleButtonInteraction
  dsimp only
  (repeat' split) <;>
    first
    | (left; rfl)
    | (right; exact ⟨_, _, rfl⟩)

/-- The applications collection after `handleModalSubmit` is the one before,
or the one before with one document appended. -/
theorem handleModalSubmit_apps (env : Env) (i : Interaction) (w : World) :
    (handleModalSubmit env i w).world.db.applications = w.db.applications ∨
    ∃ doc : ApplicationRecord,
      (handleModalSubmit env i w).world.db.applications = w.db.applications ++ [doc] := by
  unfold handleModalSubmit
  dsimp only
  (repeat' split) <;>
    first
    | (left; rfl)
    | (right; exact ⟨_, rfl⟩)

/-- C9: approved and denied are terminal. For every world and every
invocation of `application approve` or `application deny`, by slash command
(`handleApplicationCommand`) or by the follow-up form (the form branches of
`handleButtonInteraction`, and `handleModalSubmit`, to which form submissions
are dispatched), a stored ApplicationRecord whose status is approved or
denied is afterwards at the same place with every field as before; the slash
command and the button handler delete and add no document. -/
theorem terminal_records_unchanged (env : Env) (i : Interaction) (config : GuildConfig)
    (w : World) (k : Nat) (r : ApplicationRecord)
    (hk : w.db.applications[k]? = some r)
    (hterm : r.status = "approved" ∨ r.status = "denied") :
    (handleApplicationCommand env i config w).world.db.applications[k]? = some r ∧
    (handleApplicationCommand env i config w).world.db.applications.length =
      w.db.applications.length ∧
    (handleButtonInteraction env i w).world.db.applications[k]? = some r ∧
    (handleButtonInteraction env i w).world.db.applications.length =
      w.db.applications.length ∧
    (handleModalSubmit env i w).world.db.applications[k]? = some r := by
  refine ⟨?_, ?_, ?_, ?_, ?_⟩
  · rcases handleApplicationCommand_apps env i config w with h | ⟨uid, set, h⟩
    · rw [h]; exact hk
    · rw [h]
      exact updateOne_getElem?_of_not_filter _ _ _ k r hk (pendingApp_of_terminal _ _ r hterm)
  · rcases handleApplicationCommand_apps env i config w with h | ⟨uid, set, h⟩
    · rw [h]
    · rw [h, updateOne_length]
  · rcases handleButtonInteraction_apps env i w with h | ⟨uid, set, h⟩
    · rw [h]; exact hk
    · rw [h]
      exact updateOne_getElem?_of_not_filter _ _ _ k r hk (pendingApp_of_terminal _ _ r hterm)
  · rcases handleButtonInteraction_apps env i w with h | ⟨uid, set, h⟩
    · rw [h]
    · rw [h, updateOne_length]
  · rcases handleModalSubmit_apps env i w with h | ⟨doc, h⟩
    · rw [h]; exact hk
    · rw [h, List.getElem?_append_left (List.getElem?_eq_some.1 hk).1]
      exact hk

/-- Witness of C9: an approved record at place 0, and an hr member denying. -/
theorem terminal_records_unchanged_witness :
    (handleApplicationCommand calmEnv hrDeny staffHrConfig
        { db := { applications := [approvedOfAnn] } }).world.db.applications[0]? =
      some approvedOfAnn :=
  (terminal_records_unchanged calmEnv hrDeny staffHrConfig
    { db := { applications := [approvedOfAnn] } } 0 approvedOfAnn rfl (Or.inl rfl)).1

/-! ## Theorems: leave of absence -/

theorem pendingLoa_setLoaDenied (userId guildId actorId : String) (now : Nat)
    (reason : Option String) (r : LoaRecord) :
    pendingLoa userId guildId (setLoaDenied actorId now reason r) = false := by
  simp [pendingLoa, setLoaDenied]

/-- What an authorized `handleLoaCommand` does to the world. -/
theorem handleLoaCommand_world (env : Env) (i : Interaction) (config : GuildConfig) (w : World)
    (hperm : hasPermission i.member Tier.staff config = true) :
    (handleLoaCommand env i config w).world =
      match findOne (pendingLoa i.user.id i.guildId) w.db.loa with
      | some _ => w
      | none =>
        w.withLoa (w.db.loa ++
          [{ userId := i.user.id, guildId := i.guildId, duration := i.getString "duration",
             reason := i.getString "reason", requestedAt := env.now, status := "pending" }]) := by
  simp only [handleLoaCommand, hperm, Bool.not_true, Bool.false_eq_true, if_false, insertOne]
  cases findOne (pendingLoa i.user.id i.guildId) w.db.loa with
  | some r => rfl
  | none =>
    dsimp only
    split <;> rfl

/-- The loa collection after a `loa-manage deny` by an actor that passes the
gate. -/
theorem loaDeny_loa (env : Env) (j : Interaction) (config : GuildConfig) (w : World)
    (hruns : denyRuns j config) :
    (handleLoaManageCommand env j config w).world.db.loa =
      updateOne (pendingLoa j.targetUser.id j.guildId)
        (setLoaDenied j.user.id env.now (j.getString "reason")) w.db.loa := by
  obtain ⟨hperm, hsub⟩ := hruns
  simp only [handleLoaManageCommand, hperm, hsub]
  simp only [Bool.not_true, Bool.false_eq_true, if_false, if_true,
    show ("deny" = "approve") = False by decide]
  (repeat' split) <;> rfl

/-- C10: for every authorized LOA request, if a pending LoaRecord exists for
(user, guild) the request is refused and the world is unchanged; otherwise
exactly one record is appended to the loa collection, with status pending and
the given duration and reason. Consequently, from a store with at most one
pending LoaRecord of the user, after an hr member has run `loa-manage deny`
for that user, the user's next request appends a record. -/
theorem loa_request_refused_iff_pending (env : Env) (i : Interaction) (config : GuildConfig)
    (w : World) (hperm : hasPermission i.member Tier.staff config = true) :
    (hasPendingLoa w i.user.id i.guildId →
      handleLoaCommand env i config w =
        ⟨w, [.reply "You already have a pending LOA request."], false⟩) ∧
    (¬ hasPendingLoa w i.user.id i.guildId →
      (handleLoaCommand env i config w).world =
        w.withLoa (w.db.loa ++
          [{ userId := i.user.id, guildId := i.guildId, duration := i.getString "duration",
             reason := i.getString "reason", requestedAt := env.now, status := "pending" }])) ∧
    (∀ (envd : Env) (j : Interaction) (cfg : GuildConfig),
      j.targetUser.id = i.user.id → j.guildId = i.guildId → denyRuns j cfg →
      (w.db.loa.filter (pendingLoa i.user.id i.guildId)).length ≤ 1 →
      (handleLoaCommand env i config (handleLoaManageCommand envd j cfg w).world).world =
        (handleLoaManageCommand envd j cfg w).world.withLoa
          ((handleLoaManageCommand envd j cfg w).world.db.loa ++
            [{ userId := i.user.id, guildId := i.guildId, duration := i.getString "duration",
               reason := i.getString "reason", requestedAt := env.now,
               status := "pending" }])) := by
  refine ⟨?_, ?_, ?_⟩
  · intro hp
    obtain ⟨r, hr⟩ := Option.isSome_iff_exists.1
      ((find?_pendingLoa_isSome_iff w i.user.id i.guildId).2 hp)
    simp [handleLoaCommand, hperm, hr]
  · intro hp
    have hnone : findOne (pendingLoa i.user.id i.guildId) w.db.loa = none := by
      cases h : findOne (pendingLoa i.user.id i.guildId) w.db.loa with
      | none => rfl
      | some r =>
        exact absurd ((find?_pendingLoa_isSome_iff w i.user.id i.guildId).1 (by simp [h])) hp
    rw [handleLoaCommand_world env i config w hperm, hnone]
  · intro envd j cfg hu hg hruns hone
    have hnone : findOne (pendingLoa i.user.id i.guildId)
        (handleLoaManageCommand envd j cfg w).world.db.loa = none := by
      rw [loaDeny_loa envd j cfg w hruns, hu, hg]
      exact find?_updateOne_none _ _ _ (pendingLoa_setLoaDenied _ _ _ _ _) hone
    rw [handleLoaCommand_world env i config _ hperm, hnone]

/-- Witness of C10: a staff member with no stored LOA requests a leave. -/
theorem loa_request_refused_iff_pending_witness :
    hasPermission loaRequester.member Tier.staff staffHrConfig = true ∧
    (¬ hasPendingLoa {} "u3" "g1" →
      (handleLoaCommand calmEnv loaRequester staffHrConfig {}).world =
        World.withLoa {}
          [{ userId := "u3", guildId := "g1", duration := some "1 week",
             reason := some "travel", requestedAt := 1000, status := "pending" }]) :=
  ⟨by decide, (loa_request_refused_iff_pending calmEnv loaRequester staffHrConfig {}
    (by decide)).2.1⟩

/-- Place by place, `updateOne` leaves a document or rewrites one that matched. -/
theorem updateOne_getElem?_cases {α : Type} (filter : α → Bool) (set : α → α) (l : List α)
    (k : Nat) (r : α) (hk : l[k]? = some r) :
    (updateOne filter set l)[k]? = some r ∨
      (filter r = true ∧ (updateOne filter set l)[k]? = some (set r)) := by
  induction l generalizing k with
  | nil => simp at hk
  | cons x xs ih =>
    by_cases h : filter x = true
    · cases k with
      | zero =>
        simp at hk
        subst hk
        exact Or.inr ⟨h, by simp [updateOne, h]⟩
      | succ n => exact Or.inl (by simpa [updateOne, h] using hk)
    · cases k with
      | zero => exact Or.inl (by simpa [updateOne, h] using hk)
      | succ n =>
        have := ih n (by simpa using hk)
        simpa [updateOne, h] using this

/-- When a rewritten document never matches `p`, `updateOne` does not add
matches of `p`. -/
theorem filter_updateOne_length_le {α : Type} (filter p : α → Bool) (set : α → α)
    (l : List α) (hset : ∀ x, p (set x) = false) :
    ((updateOne filter set l).filter p).length ≤ (l.filter p).length := by
  induction l with
  | nil => simp [updateOne]
  | cons x xs ih =>
    by_cases h : filter x = true
    · simp only [updateOne, h, if_true, List.filter, hset]
      by_cases hp : p x = true
      · simp [hp]
      · simp [hp]
    · simp only [updateOne, h, List.filter]
      by_cases hp : p x = true
      · simpa [hp] using ih
      · simpa [hp] using ih

/-- When a rewritten document never matches `p`, `updateMany` does not add
matches of `p`. -/
theorem filter_updateMany_length_le {α : Type} (filter p : α → Bool) (set : α → α)
    (l : List α) (hset : ∀ x, p (set x) = false) :
    ((updateMany filter set l).filter p).length ≤ (l.filter p).length := by
  induction l with
  | nil => simp [updateMany]
  | cons x xs ih =>
    have ih' : (List.filter p (List.map (fun x => if filter x = true then set x else x) xs)).length
        ≤ (List.filter p xs).length := by simpa [updateMany] using ih
    by_cases h : filter x = true
    · by_cases hp : p x = true
      · simp only [updateMany, List.map, h, if_true, List.filter, hset, hp, List.length_cons]
        omega
      · simpa [updateMany, List.filter, h, hset, hp] using ih'
    · by_cases hp : p x = true
      · simpa [updateMany, List.filter, h, hp] using ih'
      · simpa [updateMany, List.filter, h, hp] using ih'

theorem updateMany_length {α : Type} (filter : α → Bool) (set : α → α) (l : List α) :
    (updateMany filter set l).length = l.length := by
  simp [updateMany]

theorem updateMany_getElem? {α : Type} (filter : α → Bool) (set : α → α) (l : List α)
    (k : Nat) (r : α) (hk : l[k]? = some r) :
    (updateMany filter set l)[k]? = some (if filter r then set r else r) := by
  simp [updateMany, hk]

/-- The loa collection after `handleLoaCommand`: the one before, or the one
before with one pending record of the requester appended when none of the
requester was pending. -/
theorem handleLoaCommand_loa (env : Env) (i : Interaction) (config : GuildConfig) (w : World) :
    (handleLoaCommand env i config w).world.db.loa = w.db.loa ∨
    (findOne (pendingLoa i.user.id i.guildId) w.db.loa = none ∧
      ∃ doc : LoaRecord, doc.userId = i.user.id ∧ doc.guildId = i.guildId ∧
        (handleLoaCommand env i config w).world.db.loa = w.db.loa ++ [doc]) := by
  unfold handleLoaCommand
  dsimp only
  split
  · left; rfl
  · split
    · left; rfl
    · next h =>
      right
      refine ⟨h, ⟨i.user.id, i.guildId, i.getString "duration", i.getString "reason", env.now,
        "pending", none, none, none, none, none, none⟩, rfl, rfl, ?_⟩
      split <;> rfl

/-- The loa collection after `handleLoaManageCommand`: the one before, or the
one before with one `updateOne` on a pending filter that stamps approval or
denial. -/
theorem handleLoaManageCommand_loa (env : Env) (i : Interaction) (config : GuildConfig)
    (w : World) :
    (handleLoaManageCommand env i config w).world.db.loa = w.db.loa ∨
    (handleLoaManageCommand env i config w).world.db.loa =
      updateOne (pendingLoa i.targetUser.id i.guildId) (setLoaApproved i.user.id env.now)
        w.db.loa ∨
    (handleLoaManageCommand env i config w).world.db.loa =
      updateOne (pendingLoa i.targetUser.id i.guildId)
        (setLoaDenied i.user.id env.now (i.getString "reason")) w.db.loa := by
  unfold handleLoaManageCommand
  dsimp only
  (repeat' split) <;>
    first
    | (left; rfl)
    | (right; left; rfl)
    | (right; right; rfl)

theorem pendingLoa_setLoaApproved (userId guildId actorId : String) (now : Nat) (r : LoaRecord) :
    pendingLoa userId guildId (setLoaApproved actorId now r) = false := by
  simp [pendingLoa, setLoaApproved]

theorem pendingLoa_setLoaExpired (userId guildId : String) (now : Nat) (r : LoaRecord) :
    pendingLoa userId guildId (setLoaExpired now r) = false := by
  simp [pendingLoa, setLoaExpired]

/-- One LOA operation keeps the invariant. -/
theorem LoaOp.run_atMostOnePending (op : LoaOp) (w : World)
    (hinv : atMostOnePendingLoa w.db.loa) : atMostOnePendingLoa (op.run w).db.loa := by
  intro u g
  have hw := hinv u g
  cases op with
  | request env i config =>
    rcases handleLoaCommand_loa env i config w with h | ⟨hnone, doc, hdu, hdg, h⟩
    · simp only [LoaOp.run, h]; exact hw
    · simp only [LoaOp.run, h, List.filter_append]
      by_cases hd : pendingLoa u g doc = true
      · have hug : u = i.user.id ∧ g = i.guildId := by
          simp only [pendingLoa, decide_eq_true_eq] at hd
          exact ⟨by rw [← hdu]; exact hd.1.symm, by rw [← hdg]; exact hd.2.1.symm⟩
        have hnil : w.db.loa.filter (pendingLoa u g) = [] := by
          rw [hug.1, hug.2, List.filter_eq_nil_iff]
          intro x hx
          have := List.find?_eq_none.1 hnone x hx
          simpa using this
        simp [hnil, List.filter, hd]
      · simp only [List.filter, hd, List.append_nil]
        exact hw
  | manage env i config =>
    rcases handleLoaManageCommand_loa env i config w with h | h | h
    · simp only [LoaOp.run, h]; exact hw
    · simp only [LoaOp.run, h]
      exact le_trans (filter_updateOne_length_le _ _ _ _
        (pendingLoa_setLoaApproved u g _ _)) hw
    · simp only [LoaOp.run, h]
      exact le_trans (filter_updateOne_length_le _ _ _ _
        (pendingLoa_setLoaDenied u g _ _ _)) hw
  | sweep now =>
    simp only [LoaOp.run, cleanUpExpiredLoas, World.withLoa]
    exact le_trans (filter_updateMany_length_le _ _ _ _ (pendingLoa_setLoaExpired u g now)) hw

/-- One LOA operation keeps every record in place and changes a status only
along pending to approved, pending to denied, or approved to expired. -/
theorem LoaOp.run_legal (op : LoaOp) (w : World) :
    legalLoaChange w.db.loa (op.run w).db.loa := by
  intro k r hk
  cases op with
  | request env i config =>
    rcases handleLoaCommand_loa env i config w with h | ⟨-, doc, -, -, h⟩
    · exact ⟨r, by simp only [LoaOp.run, h]; exact hk, Or.inl rfl⟩
    · refine ⟨r, ?_, Or.inl rfl⟩
      simp only [LoaOp.run, h]
      rw [List.getElem?_append_left (List.getElem?_eq_some.1 hk).1]
      exact hk
  | manage env i config =>
    rcases handleLoaManageCommand_loa env i config w with h | h | h
    · exact ⟨r, by simp only [LoaOp.run, h]; exact hk, Or.inl rfl⟩
    · simp only [LoaOp.run, h]
      rcases updateOne_getElem?_cases (pendingLoa i.targetUser.id i.guildId)
        (setLoaApproved i.user.id env.now) w.db.loa k r hk with h1 | ⟨hp, h1⟩
      · exact ⟨r, h1, Or.inl rfl⟩
      · refine ⟨_, h1, Or.inr (Or.inl ⟨?_, rfl⟩)⟩
        simp only [pendingLoa, decide_eq_true_eq] at hp
        exact hp.2.2
    · simp only [LoaOp.run, h]
      rcases updateOne_getElem?_cases (pendingLoa i.targetUser.id i.guildId)
        (setLoaDenied i.user.id env.now (i.getString "reason")) w.db.loa k r hk with
        h1 | ⟨hp, h1⟩
      · exact ⟨r, h1, Or.inl rfl⟩
      · refine ⟨_, h1, Or.inr (Or.inr (Or.inl ⟨?_, rfl⟩))⟩
        simp only [pendingLoa, decide_eq_true_eq] at hp
        exact hp.2.2
  | sweep now =>
    refine ⟨_, updateMany_getElem? (expiredLoa now) (setLoaExpired now) w.db.loa k r hk, ?_⟩
    by_cases he : expiredLoa now r = true
    · simp only [he, if_true]
      refine Or.inr (Or.inr (Or.inr ⟨?_, rfl⟩))
      simp only [expiredLoa, Bool.and_eq_true, decide_eq_true_eq] at he
      exact he.1
    · simp [he]

/-- C11: for every sequence of LOA operations (request, `loa-manage` approve
or deny, clean-up) run one after another from a store with at most one
pending LoaRecord per (user, guild), the resulting store has at most one
pending LoaRecord per (user, guild), and each operation of the sequence keeps
every record in place and changes a status only from pending to approved,
from pending to denied, or from approved to expired. -/
theorem loa_ops_keep_invariant (ops : List LoaOp) (w : World)
    (hinv : atMostOnePendingLoa w.db.loa) :
    atMostOnePendingLoa (runLoaOps ops w).db.loa ∧
    ∀ (pre : List LoaOp) (op : LoaOp) (post : List LoaOp), ops = pre ++ op :: post →
      legalLoaChange (runLoaOps pre w).db.loa (op.run (runLoaOps pre w)).db.loa := by
  constructor
  · induction ops generalizing w with
    | nil => exact hinv
    | cons op ops ih => exact ih (op.run w) (LoaOp.run_atMostOnePending op w hinv)
  · intro pre op post _
    exact LoaOp.run_legal op _

/-- Witness of C11: request, second request, denial, third request, clean-up,
from the empty store. -/
theorem loa_ops_keep_invariant_witness :
    atMostOnePendingLoa
      (runLoaOps [.request calmEnv loaRequester staffHrConfig,
        .request calmEnv loaRequester staffHrConfig,
        .manage calmEnv hrLoaDeny staffHrConfig,
        .request calmEnv loaRequester staffHrConfig,
        .sweep 5000000000] {}).db.loa :=
  (loa_ops_keep_invariant _ {} (fun _ _ => by simp [World.db, Db.loa])).1

/-- A world with its own loa collection put back is the same world. -/
theorem World.withLoa_self (w : World) : w.withLoa w.db.loa = w := by
  cases w with
  | mk db members => cases db; rfl

/-- C12: for an authorized `loa-manage approve` or `loa-manage deny`, when
(user, guild) has no pending LoaRecord the only message is the reply that no
pending LOA was found and the world is unchanged; when a pending record
exists, the loa collection differs in exactly one document, a formerly pending
record of (user, guild) in which only `status` and the approval fields
(`approvedBy`, `approvedAt`), respectively the denial fields (`deniedBy`,
`deniedAt`, `denialReason`), are set; in every case the role membership and
the other collections are as before. -/
theorem loa_manage_without_pending (env : Env) (i : Interaction) (config : GuildConfig)
    (w : World) (hperm : hasPermission i.member Tier.hr config = true)
    (hsub : i.subcommand = "approve" ∨ i.subcommand = "deny") :
    (¬ hasPendingLoa w i.targetUser.id i.guildId →
      handleLoaManageCommand env i config w =
        ⟨w, [.reply "No pending LOA found for that user."], false⟩) ∧
    (hasPendingLoa w i.targetUser.id i.guildId →
      ∃ l1 r l2, w.db.loa = l1 ++ r :: l2 ∧
        r.userId = i.targetUser.id ∧ r.guildId = i.guildId ∧ r.status = "pending" ∧
        ((i.subcommand = "approve" ∧
            (handleLoaManageCommand env i config w).world.db.loa =
              l1 ++ { r with status := "approved", approvedBy := some i.user.id,
                             approvedAt := some env.now } :: l2) ∨
          (i.subcommand = "deny" ∧
            (handleLoaManageCommand env i config w).world.db.loa =
              l1 ++ { r with status := "denied", deniedBy := some i.user.id,
                             deniedAt := some env.now,
                             denialReason := i.getString "reason" } :: l2))) ∧
    (handleLoaManageCommand env i config w).world.members = w.members ∧
    (handleLoaManageCommand env i config w).world.db.applications = w.db.applications ∧
    (handleLoaManageCommand env i config w).world.db.warnings = w.db.warnings ∧
    (handleLoaManageCommand env i config w).world.db.terminations = w.db.terminations ∧
    (handleLoaManageCommand env i config w).world.db.configs = w.db.configs := by
  have hiff := find?_pendingLoa_isSome_iff w i.targetUser.id i.guildId
  refine ⟨?_, ?_, ?_⟩
  · intro hp
    have hnone : findOne (pendingLoa i.targetUser.id i.guildId) w.db.loa = none := by
      cases h : findOne (pendingLoa i.targetUser.id i.guildId) w.db.loa with
      | none => rfl
      | some r => exact absurd (hiff.1 (by simp [h])) hp
    have hupd : ∀ set, updateOne (pendingLoa i.targetUser.id i.guildId) set w.db.loa = w.db.loa :=
      fun set => updateOne_of_find?_none _ set _ hnone
    have hmc : matchedCount (pendingLoa i.targetUser.id i.guildId) w.db.loa = 0 := by
      have hfalse : w.db.loa.any (pendingLoa i.targetUser.id i.guildId) = false := by
        rw [List.any_eq_false]
        intro x hx
        simpa using List.find?_eq_none.1 hnone x hx
      simp [matchedCount, hfalse]
    rcases hsub with hs | hs
    · simp [handleLoaManageCommand, hperm, hs, hupd, hmc, World.withLoa_self]
    · simp [handleLoaManageCommand, hperm, hs, hupd, hmc, World.withLoa_self]
  · intro hp
    have hex : ∃ x ∈ w.db.loa, pendingLoa i.targetUser.id i.guildId x = true := by
      obtain ⟨r, hr, h1, h2, h3⟩ := hp
      exact ⟨r, hr, by simp [pendingLoa, h1, h2, h3]⟩
    have hdeny := loaDeny_loa env i config w
    rcases hsub with hs | hs
    · obtain ⟨l1, r, l2, hl, hr, -, hu⟩ :=
        updateOne_split (pendingLoa i.targetUser.id i.guildId)
          (setLoaApproved i.user.id env.now) w.db.loa hex
      have hr' : r.userId = i.targetUser.id ∧ r.guildId = i.guildId ∧ r.status = "pending" := by
        simpa [pendingLoa] using hr
      refine ⟨l1, r, l2, hl, hr'.1, hr'.2.1, hr'.2.2, Or.inl ⟨hs, Eq.trans ?_ hu⟩⟩
      simp only [handleLoaManageCommand, hperm, hs]
      simp only [Bool.not_true, Bool.false_eq_true, if_false, if_true]
      (repeat' split) <;> rfl
    · obtain ⟨l1, r, l2, hl, hr, -, hu⟩ :=
        updateOne_split (pendingLoa i.targetUser.id i.guildId)
          (setLoaDenied i.user.id env.now (i.getString "reason")) w.db.loa hex
      have hr' : r.userId = i.targetUser.id ∧ r.guildId = i.guildId ∧ r.status = "pending" := by
        simpa [pendingLoa] using hr
      exact ⟨l1, r, l2, hl, hr'.1, hr'.2.1, hr'.2.2,
        Or.inr ⟨hs, Eq.trans (hdeny ⟨hperm, hs⟩) hu⟩⟩
  · unfold handleLoaManageCommand
    dsimp only
    (repeat' split) <;> exact ⟨rfl, rfl, rfl, rfl, rfl⟩

/-- Witness of C12: an hr member denies the leave of a user that has none. -/
theorem loa_manage_without_pending_witness :
    hasPermission hrLoaDeny.member Tier.hr staffHrConfig = true ∧
    (¬ hasPendingLoa {} "u3" "g1" →
      handleLoaManageCommand calmEnv hrLoaDeny staffHrConfig {} =
        ⟨{}, [.reply "No pending LOA found for that user."], false⟩) :=
  ⟨by decide, (loa_manage_without_pending calmEnv hrLoaDeny staffHrConfig {} (by decide)
    (Or.inr rfl)).1⟩

/-- The filter of the clean-up selects the approved records whose `approvedAt`
is earlier than `now` minus 30 days. -/
theorem expiredLoa_iff (now : Nat) (r : LoaRecord) :
    expiredLoa now r = true ↔ approvedLongAgo now r := by
  unfold expiredLoa approvedLongAgo
  have h30 : ((thirtyDays : Nat) : Int) = 2592000000 := by norm_num [thirtyDays]
  cases hat : r.approvedAt with
  | none => simp
  | some t => simp [h30]

theorem expiredLoa_setLoaExpired (now now2 : Nat) (r : LoaRecord) :
    expiredLoa now2 (setLoaExpired now r) = false := by
  simp [expiredLoa, setLoaExpired]

/-- C13: for every loa collection and time `now`, the clean-up sets `status`
to expired and `expiredAt` to `now` on exactly the records that are approved
with `approvedAt` earlier than `now` minus 30 days, and leaves every other
record unchanged; it deletes and adds no record and touches nothing else of
the world. -/
theorem cleanUp_expires_exactly (now : Nat) (w : World) (k : Nat) (r : LoaRecord)
    (hk : w.db.loa[k]? = some r) :
    (approvedLongAgo now r →
      (cleanUpExpiredLoas now w).db.loa[k]? =
        some { r with status := "expired", expiredAt := some now }) ∧
    (¬ approvedLongAgo now r → (cleanUpExpiredLoas now w).db.loa[k]? = some r) ∧
    (cleanUpExpiredLoas now w).db.loa.length = w.db.loa.length ∧
    (cleanUpExpiredLoas now w).members = w.members ∧
    (cleanUpExpiredLoas now w).db.applications = w.db.applications ∧
    (cleanUpExpiredLoas now w).db.warnings = w.db.warnings ∧
    (cleanUpExpiredLoas now w).db.terminations = w.db.terminations ∧
    (cleanUpExpiredLoas now w).db.configs = w.db.configs := by
  have hget := updateMany_getElem? (expiredLoa now) (setLoaExpired now) w.db.loa k r hk
  refine ⟨?_, ?_, updateMany_length _ _ _, rfl, rfl, rfl, rfl, rfl⟩
  · intro h
    have he := (expiredLoa_iff now r).2 h
    simp only [he, if_true] at hget
    exact hget
  · intro h
    have he : expiredLoa now r = false := by
      cases hb : expiredLoa now r with
      | false => rfl
      | true => exact absurd ((expiredLoa_iff now r).1 hb) h
    simp only [he] at hget
    exact hget

/-- Witness of C13: a leave approved at time 1000 is expired by the clean-up
at time 5000000000. -/
theorem cleanUp_expires_exactly_witness :
    (cleanUpExpiredLoas 5000000000 { db := { loa := [approvedLoaOfBea] } }).db.loa[0]? =
      some { approvedLoaOfBea with status := "expired", expiredAt := some 5000000000 } :=
  (cleanUp_expires_exactly 5000000000 { db := { loa := [approvedLoaOfBea] } } 0
    approvedLoaOfBea rfl).1 ⟨rfl, 1000, rfl, by decide⟩

/-- Running `updateMany` twice is running it once, when a rewritten document
no longer matches. -/
theorem updateMany_idem {α : Type} (filter : α → Bool) (set : α → α) (l : List α)
    (hset : ∀ x, filter (set x) = false) :
    updateMany filter set (updateMany filter set l) = updateMany filter set l := by
  simp only [updateMany, List.map_map]
  apply List.map_congr_left
  intro x _
  by_cases h : filter x = true <;> simp [h, hset]

/-- C14: the clean-up is idempotent: for every world and time `now`, running
it a second time right after the first changes nothing; and a record that is
expired after a clean-up is left as it is, with its `expiredAt`, by a
clean-up at any time. -/
theorem cleanUp_idempotent (now : Nat) (w : World) :
    cleanUpExpiredLoas now (cleanUpExpiredLoas now w) = cleanUpExpiredLoas now w ∧
    ∀ (now2 k : Nat) (r : LoaRecord),
      (cleanUpExpiredLoas now w).db.loa[k]? = some r → r.status = "expired" →
      (cleanUpExpiredLoas now2 (cleanUpExpiredLoas now w)).db.loa[k]? = some r := by
  constructor
  · simp only [cleanUpExpiredLoas, World.withLoa]
    rw [updateMany_idem _ _ _ (expiredLoa_setLoaExpired now now)]
  · intro now2 k r hk hst
    have hget := updateMany_getElem? (expiredLoa now2) (setLoaExpired now2) _ k r hk
    have he : expiredLoa now2 r = false := by simp [expiredLoa, hst]
    simp only [he] at hget
    exact hget

/-- Witness of C14: the expired leave keeps its first `expiredAt` in a later
clean-up. -/
theorem cleanUp_idempotent_witness :
    (cleanUpExpiredLoas 6000000000
      (cleanUpExpiredLoas 5000000000 { db := { loa := [approvedLoaOfBea] } })).db.loa[0]? =
      some { approvedLoaOfBea with status := "expired", expiredAt := some 5000000000 } :=
  (cleanUp_idempotent 5000000000 { db := { loa := [approvedLoaOfBea] } }).2 6000000000 0 _
    (by decide) rfl

/-! ## Theorems: configuration -/

/-- C15, the code at the failing input. The stored config of `g1` has a
`features` object with only `loaEnabled`. In the config `getGuildConfig`
returns, `applicationsEnabled` and `remindersEnabled` are `undefined`, not
their default `true`, and `/apply` answers that applications are disabled. A
guild without stored config gets the defaults. -/
theorem partial_features_lose_defaults :
    (getGuildConfig { configs := [loaFlagStored] } "g1").features =
      ⟨.undefined, .str "false", .undefined⟩ ∧
    defaultConfig.features = ⟨.bool true, .bool true, .bool true⟩ ∧
    handleApplyCommand applicant (getGuildConfig { configs := [loaFlagStored] } "g1")
        { db := { configs := [loaFlagStored] } } =
      ⟨{ db := { configs := [loaFlagStored] } },
        [.reply "Applications are currently disabled."], false⟩ ∧
    getGuildConfig { configs := [loaFlagStored] } "g2" = defaultConfig := by
  decide

/-- C16, the code at the failing input. The stored config of `g1` has
`channels.applications`. After `config set key:channels.staffLog value:c-log`
by a holder of the admin role, the command reports success and
`getGuildConfig` returns `channels.staffLog` set and `channels.applications`
`undefined`: the sibling field is gone. -/
theorem config_set_drops_sibling_field :
    (getGuildConfig { configs := [adminAndAppsChannelStored] } "g1").channels =
      ⟨.str "c-apps", .undefined, .undefined, .undefined⟩ ∧
    (handleSlashCommand calmEnv adminSetsStaffLog
        { db := { configs := [adminAndAppsChannelStored] } }).out =
      [.reply "Configuration updated: `channels.staffLog` = `c-log`"] ∧
    (getGuildConfig
        (handleSlashCommand calmEnv adminSetsStaffLog
          { db := { configs := [adminAndAppsChannelStored] } }).world.db "g1").channels =
      ⟨.undefined, .str "c-log", .undefined, .undefined⟩ := by
  decide

/-! ## Theorems: staff role transitions -/

/-- After `updateOne`, the first match of the same filter is the rewritten
first match, when rewriting keeps a match a match. -/
theorem find?_updateOne_map {α : Type} (filter : α → Bool) (set : α → α) (l : List α)
    (hset : ∀ x, filter x = true → filter (set x) = true) :
    (updateOne filter set l).find? filter = (l.find? filter).map set := by
  induction l with
  | nil => rfl
  | cons x xs ih =>
    by_cases hx : filter x = true
    · simp [updateOne, hx, List.find?, hset x hx]
    · simp [updateOne, hx, List.find?, ih]

theorem fetchMember_addRole (w : World) (guildId userId roleId : String) :
    fetchMember (addRole w guildId userId roleId) guildId userId =
      (fetchMember w guildId userId).map
        (fun m => { m with roles := if roleId ∈ m.roles then m.roles else m.roles ++ [roleId] }) := by
  unfold fetchMember addRole
  exact find?_updateOne_map _ _ _ (fun x hx => by simpa using hx)

theorem fetchMember_removeRoles (w : World) (guildId userId : String) (roleIds : List String) :
    fetchMember (removeRoles w guildId userId roleIds) guildId userId =
      (fetchMember w guildId userId).map
        (fun m => { m with roles := m.roles.filter (fun r => decide (r ∉ roleIds)) }) := by
  unfold fetchMember removeRoles
  exact find?_updateOne_map _ _ _ (fun x hx => by simpa using hx)

/-- Who holds what after a removal followed by a grant. -/
theorem holdsRole_add_remove (w : World) (guildId userId rid : String) (rem : List String)
    (m : GuildMember) (hm : fetchMember w guildId userId = some m) (r : String) :
    holdsRole (addRole (removeRoles w guildId userId rem) guildId userId rid) guildId userId r ↔
      (r ∈ m.roles ∧ r ∉ rem) ∨ r = rid := by
  unfold holdsRole
  rw [fetchMember_addRole, fetchMember_removeRoles, hm]
  simp only [Option.map_some', Option.some.injEq, exists_eq_left']
  by_cases h : rid ∈ m.roles ∧ rid ∉ rem
  · have : rid ∈ List.filter (fun r => decide (r ∉ rem)) m.roles := by simpa using h
    simp only [this, if_true, List.mem_filter, decide_eq_true_eq]
    constructor
    · exact fun h1 => Or.inl h1
    · rintro (h1 | rfl)
      · exact h1
      · exact h
  · have : rid ∉ List.filter (fun r => decide (r ∉ rem)) m.roles := by simpa using h
    simp only [this, if_false, List.mem_append, List.mem_filter, decide_eq_true_eq,
      List.mem_singleton]

/-- Who holds what after a removal. -/
theorem holdsRole_removeRoles (w : World) (guildId userId : String) (rem : List String)
    (m : GuildMember) (hm : fetchMember w guildId userId = some m) (r : String) :
    holdsRole (removeRoles w guildId userId rem) guildId userId r ↔ (r ∈ m.roles ∧ r ∉ rem) := by
  unfold holdsRole
  rw [fetchMember_removeRoles, hm]
  simp

/-- Removing no role leaves the world as it is. -/
theorem removeRoles_nil (w : World) (guildId userId : String) :
    removeRoles w guildId userId [] = w := by
  unfold removeRoles
  have hid : ∀ l : List GuildMember,
      updateOne (fun m : GuildMember => decide (m.guildId = guildId ∧ m.userId = userId))
        (fun m => { m with roles := m.roles.filter (fun r => decide (r ∉ ([] : List String))) })
        l = l := by
    intro l
    induction l with
    | nil => rfl
    | cons x xs ih =>
      by_cases hx : (x.guildId = guildId ∧ x.userId = userId)
      · obtain ⟨h1, h2⟩ := hx
        subst h1 h2
        simp [updateOne]
      · simp only [updateOne, hx, decide_False, Bool.false_eq_true, if_false, ih]
  simp only [hid]

theorem getStr_optionValue (r : Roles) (t : Tier) : r.getStr (some t.optionValue) = r.get t := by
  cases t <;> simp [Roles.getStr, Roles.get, Tier.optionValue]

/-- What `pushIfHeld` appends. -/
theorem pushIfHeld_eq (cache : List String) (v : JsVal) (acc : List String) :
    pushIfHeld cache v acc =
      acc ++ (match v with
        | .str id => if id ≠ "" ∧ id ∈ cache then [id] else []
        | _ => []) := by
  cases v with
  | str s =>
    by_cases h1 : s = "" <;> by_cases h2 : s ∈ cache <;>
      simp [pushIfHeld, JsVal.truthy, cacheHas, h1, h2]
  | _ => simp [pushIfHeld]

/-- The world after an authorized `promote` with the target role configured,
the member fetched and the role operations resolving. -/
theorem promote_world (env : Env) (i : Interaction) (config : GuildConfig) (w : World)
    (rid : String) (m : GuildMember)
    (hperm : hasPermission i.member Tier.admin config = true)
    (hrole : config.roles.getStr (i.getString "role") = .str rid) (hne : rid ≠ "")
    (hm : fetchMember w i.guildId i.targetUser.id = some m) (hgrant : env.grantOk = true) :
    (handlePromoteCommand env i config w).world =
      addRole (removeRoles w i.guildId i.targetUser.id
        (promoteRolesToRemove (i.getString "role") config m.roles)) i.guildId i.targetUser.id
        rid := by
  simp only [handlePromoteCommand, hperm, hrole, hm, hgrant, JsVal.truthy]
  simp only [hne, ne_eq, not_false_eq_true, decide_True, Bool.not_true, Bool.false_eq_true,
    if_false, and_false]
  by_cases hlen : (promoteRolesToRemove (i.getString "role") config m.roles).length > 0
  · simp only [hlen, if_true, Bool.true_eq_false, and_false, if_false]
    split <;> rfl
  · have hnil : promoteRolesToRemove (i.getString "role") config m.roles = [] :=
      List.eq_nil_of_length_eq_zero (by omega)
    simp only [hnil, List.length_nil, gt_iff_lt, Nat.lt_irrefl, if_false, removeRoles_nil,
      Bool.true_eq_false, and_false]
    split <;> rfl

/-- The list `promote` revokes is the list of the specification. -/
theorem promoteRolesToRemove_eq_heldBelow (target : Tier) (config : GuildConfig)
    (cache : List String) (htarget : target ≠ Tier.owner) :
    promoteRolesToRemove (some target.optionValue) config cache =
      heldBelow target config cache := by
  cases target with
  | owner => exact absurd rfl htarget
  | admin =>
    simp only [promoteRolesToRemove, heldBelow, pushIfHeld_eq, Tier.optionValue, Tier.rank,
      Roles.get]
    cases config.roles.staff <;> cases config.roles.hr <;> simp [List.filter, List.filterMap] <;>
      split_ifs <;> simp_all
  | hr =>
    simp only [promoteRolesToRemove, heldBelow, pushIfHeld_eq, Tier.optionValue, Tier.rank,
      Roles.get]
    cases config.roles.staff <;> simp [List.filter, List.filterMap]
    split_ifs <;> simp_all
  | staff =>
    simp [promoteRolesToRemove, heldBelow, Tier.optionValue, Tier.rank, List.filter]

/-- C18: for every target role in {staff, hr, admin} that is configured, in an
authorized `promote` with the member fetched and the role operations
resolving, the list of role IDs revoked is the list of configured role IDs of
the tiers strictly below the target that the member holds (nothing for staff,
staff for hr, staff and hr for admin); afterwards the member holds exactly the
roles held before that are not in that list, and the target role: no other
role is revoked, and the target role is granted. -/
theorem promote_revokes_lower_tiers (env : Env) (i : Interaction) (config : GuildConfig)
    (w : World) (target : Tier) (rid : String) (m : GuildMember)
    (htarget : target ≠ Tier.owner)
    (hopt : i.getString "role" = some target.optionValue)
    (hperm : hasPermission i.member Tier.admin config = true)
    (hcfg : config.roles.get target = .str rid) (hne : rid ≠ "")
    (hm : fetchMember w i.guildId i.targetUser.id = some m) (hgrant : env.grantOk = true) :
    promoteRolesToRemove (i.getString "role") config m.roles = heldBelow target config m.roles ∧
    heldBelow Tier.staff config m.roles = [] ∧
    (∀ r : String,
      holdsRole (handlePromoteCommand env i config w).world i.guildId i.targetUser.id r ↔
        (r ∈ m.roles ∧ r ∉ heldBelow target config m.roles) ∨ r = rid) := by
  have hrole : config.roles.getStr (i.getString "role") = .str rid := by
    rw [hopt, getStr_optionValue, hcfg]
  have hrem : promoteRolesToRemove (i.getString "role") config m.roles =
      heldBelow target config m.roles := by
    rw [hopt]
    exact promoteRolesToRemove_eq_heldBelow target config m.roles htarget
  refine ⟨hrem, by simp [heldBelow, Tier.rank, List.filter], ?_⟩
  intro r
  rw [promote_world env i config w rid m hperm hrole hne hm hgrant, hrem]
  exact holdsRole_add_remove w _ _ rid _ m hm r

/-- Witness of C18: promotion to admin of a member holding staff, hr and
another role. -/
theorem promote_revokes_lower_tiers_witness :
    promoteRolesToRemove (adminPromotes.getString "role") threeTierConfig
        ["r-staff", "r-misc", "r-hr"] =
      heldBelow Tier.admin threeTierConfig ["r-staff", "r-misc", "r-hr"] :=
  (promote_revokes_lower_tiers calmEnv adminPromotes threeTierConfig annStaffHrWorld Tier.admin
    "r-admin" ⟨"g1", "u1", ["r-staff", "r-misc", "r-hr"]⟩ (by decide) (by decide) (by decide)
    (by decide) (by decide) (by decide) rfl).1

/-- C17: for every member and every config with the admin role configured and
its ID distinct from the configured staff and hr role IDs, after an
authorized `promote` to admin with the member fetched and the role operations
resolving, the member holds the admin role and holds neither the configured
staff role nor the configured hr role, whatever roles the member held
before. -/
theorem promote_admin_leaves_only_admin (env : Env) (i : Interaction) (config : GuildConfig)
    (w : World) (aid : String) (m : GuildMember)
    (hopt : i.getString "role" = some "admin")
    (hperm : hasPermission i.member Tier.admin config = true)
    (hcfg : config.roles.admin = .str aid) (hne : aid ≠ "")
    (hstaff : config.roles.staff ≠ .str aid) (hhr : config.roles.hr ≠ .str aid)
    (hm : fetchMember w i.guildId i.targetUser.id = some m) (hgrant : env.grantOk = true) :
    holdsRole (handlePromoteCommand env i config w).world i.guildId i.targetUser.id aid ∧
    (∀ sid : String, config.roles.staff = .str sid → sid ≠ "" →
      ¬ holdsRole (handlePromoteCommand env i config w).world i.guildId i.targetUser.id sid) ∧
    (∀ hid : String, config.roles.hr = .str hid → hid ≠ "" →
      ¬ holdsRole (handlePromoteCommand env i config w).world i.guildId i.targetUser.id hid) := by
  have hrole : config.roles.getStr (i.getString "role") = .str aid := by
    rw [hopt]
    simpa [Roles.getStr] using hcfg
  have hw := promote_world env i config w aid m hperm hrole hne hm hgrant
  have hrem : promoteRolesToRemove (i.getString "role") config m.roles =
      pushIfHeld m.roles config.roles.hr (pushIfHeld m.roles config.roles.staff []) := by
    rw [hopt]
    simp [promoteRolesToRemove]
  rw [hw, hrem]
  refine ⟨(holdsRole_add_remove w _ _ aid _ m hm aid).2 (Or.inr rfl), ?_, ?_⟩
  · intro sid hs hsne hholds
    rcases (holdsRole_add_remove w _ _ aid _ m hm sid).1 hholds with ⟨hin, hnot⟩ | heq
    · apply hnot
      simp [pushIfHeld_eq, hs, hsne, hin]
    · exact hstaff (by rw [hs, heq])
  · intro hid hh hhne hholds
    rcases (holdsRole_add_remove w _ _ aid _ m hm hid).1 hholds with ⟨hin, hnot⟩ | heq
    · apply hnot
      simp [pushIfHeld_eq, hh, hhne, hin]
    · exact hhr (by rw [hh, heq])

/-- Witness of C17: a member holding staff, hr and another role is promoted
to admin. -/
theorem promote_admin_leaves_only_admin_witness :
    holdsRole (handlePromoteCommand calmEnv adminPromotes threeTierConfig annStaffHrWorld).world
      "g1" "u1" "r-admin" :=
  (promote_admin_leaves_only_admin calmEnv adminPromotes threeTierConfig annStaffHrWorld
    "r-admin" ⟨"g1", "u1", ["r-staff", "r-misc", "r-hr"]⟩ (by decide) (by decide) (by decide)
    (by decide) (by decide) (by decide) rfl rfl).1

theorem mem_pushIfHeld (cache : List String) (v : JsVal) (acc : List String) (r : String) :
    r ∈ pushIfHeld cache v acc ↔ r ∈ acc ∨ (v = .str r ∧ r ≠ "" ∧ r ∈ cache) := by
  rw [pushIfHeld_eq]
  cases v with
  | str s =>
    simp only [List.mem_append]
    constructor
    · rintro (h | h)
      · exact Or.inl h
      · split_ifs at h with hc
        · have hrs : r = s := by simpa using h
          subst hrs
          exact Or.inr ⟨rfl, hc.1, hc.2⟩
        · simp at h
    · rintro (h | ⟨hv, h2, h3⟩)
      · exact Or.inl h
      · have hsr : s = r := by injection hv
        subst hsr
        right
        simp [h2, h3]
  | _ => simp

theorem mem_demoteRolesToRemove (config : GuildConfig) (cache : List String) (r : String) :
    r ∈ demoteRolesToRemove config cache ↔
      r ≠ "" ∧ r ∈ cache ∧ (config.roles.admin = .str r ∨ config.roles.hr = .str r) := by
  simp only [demoteRolesToRemove, mem_pushIfHeld, List.not_mem_nil, false_or]
  tauto

theorem demoteRolesToRemove_ne_nil_iff (config : GuildConfig) (cache : List String) :
    demoteRolesToRemove config cache ≠ [] ↔ holdsAdminOrHr config cache := by
  unfold holdsAdminOrHr
  constructor
  · intro h
    obtain ⟨r, hr⟩ := List.exists_mem_of_ne_nil _ h
    exact ⟨r, (mem_demoteRolesToRemove config cache r).1 hr⟩
  · rintro ⟨r, hr⟩ hnil
    have := (mem_demoteRolesToRemove config cache r).2 hr
    rw [hnil] at this
    exact absurd this (List.not_mem_nil r)

/-- Who holds what in a world, given the fetched member. -/
theorem holdsRole_iff_of_fetch (w : World) (guildId userId : String) (m : GuildMember)
    (hm : fetchMember w guildId userId = some m) (r : String) :
    holdsRole w guildId userId r ↔ r ∈ m.roles := by
  unfold holdsRole
  rw [hm]
  simp

/-- The world after an authorized `demote` with the member fetched and the
role operations resolving. -/
theorem demote_world (env : Env) (i : Interaction) (config : GuildConfig) (w : World)
    (m : GuildMember) (hperm : hasPermission i.member Tier.admin config = true)
    (hm : fetchMember w i.guildId i.targetUser.id = some m) (hgrant : env.grantOk = true) :
    (handleDemoteCommand env i config w).world =
      if (demoteRolesToRemove config m.roles).length > 0 then
        if (config.roles.staff.truthy && !cacheHas m.roles config.roles.staff) = true then
          match config.roles.staff with
          | .str sid =>
            addRole (removeRoles w i.guildId i.targetUser.id (demoteRolesToRemove config m.roles))
              i.guildId i.targetUser.id sid
          | _ => removeRoles w i.guildId i.targetUser.id (demoteRolesToRemove config m.roles)
        else removeRoles w i.guildId i.targetUser.id (demoteRolesToRemove config m.roles)
      else w := by
  simp only [handleDemoteCommand, hperm, hm, hgrant]
  simp only [Bool.not_true, Bool.false_eq_true, if_false, Bool.true_eq_false]
  (repeat' split) <;> rfl

/-- Who holds what after `demote`, when the staff role ID is neither the admin
nor the hr role ID. -/
theorem demote_holds (env : Env) (i : Interaction) (config : GuildConfig) (w : World)
    (m : GuildMember) (hperm : hasPermission i.member Tier.admin config = true)
    (hm : fetchMember w i.guildId i.targetUser.id = some m) (hgrant : env.grantOk = true)
    (hdist : ∀ sid : String, config.roles.staff = .str sid →
      config.roles.admin ≠ .str sid ∧ config.roles.hr ≠ .str sid) (r : String) :
    holdsRole (handleDemoteCommand env i config w).world i.guildId i.targetUser.id r ↔
      (r ∈ m.roles ∧ r ∉ demoteRolesToRemove config m.roles) ∨
        (demoteRolesToRemove config m.roles ≠ [] ∧ config.roles.staff = .str r ∧ r ≠ "") := by
  rw [demote_world env i config w m hperm hm hgrant]
  by_cases hlen : (demoteRolesToRemove config m.roles).length > 0
  · have hne : demoteRolesToRemove config m.roles ≠ [] := by
      intro h
      rw [h] at hlen
      exact absurd hlen (by simp)
    simp only [hlen, if_true, hne, ne_eq, not_false_eq_true, true_and]
    by_cases hc : (config.roles.staff.truthy && !cacheHas m.roles config.roles.staff) = true
    · simp only [hc, if_true]
      cases hs : config.roles.staff with
      | str sid =>
        have hsid : sid ≠ "" := by
          rw [hs] at hc
          have hc2 : (JsVal.str sid).truthy = true ∧ (!cacheHas m.roles (.str sid)) = true := by
            simpa using hc
          simpa [JsVal.truthy] using hc2.1
        simp only [holdsRole_add_remove w _ _ sid _ m hm r, JsVal.str.injEq]
        constructor
        · rintro (h | rfl)
          · exact Or.inl h
          · exact Or.inr ⟨rfl, hsid⟩
        · rintro (h | ⟨rfl, -⟩)
          · exact Or.inl h
          · exact Or.inr rfl
      | undefined => simp [holdsRole_removeRoles w _ _ _ m hm r]
      | null => simp [holdsRole_removeRoles w _ _ _ m hm r]
      | bool b => simp [holdsRole_removeRoles w _ _ _ m hm r]
      | obj => simp [holdsRole_removeRoles w _ _ _ m hm r]
    · simp only [hc, if_false, Bool.false_eq_true, holdsRole_removeRoles w _ _ _ m hm r]
      constructor
      · exact fun h => Or.inl h
      · rintro (h | ⟨hs, hr⟩)
        · exact h
        · have hin : r ∈ m.roles := by
            rw [hs] at hc
            simpa [JsVal.truthy, cacheHas, hr] using hc
          refine ⟨hin, fun hrem => ?_⟩
          have h1 := (mem_demoteRolesToRemove config m.roles r).1 hrem
          have h2 := hdist r hs
          rcases h1.2.2 with h3 | h3
          · exact h2.1 h3
          · exact h2.2 h3
  · have hnil : demoteRolesToRemove config m.roles = [] :=
      List.eq_nil_of_length_eq_zero (by omega)
    simp [hnil, holdsRole_iff_of_fetch w _ _ m hm r]

/-- C19: for every member and config in which the staff role ID is neither
the admin nor the hr role ID, after an authorized `demote` with the member
fetched and the role operations resolving, the member holds neither the
configured admin role nor the configured hr role; if the member held one of
them and the staff role is configured, the member holds the staff role
afterwards; if the member held neither, the world is unchanged. -/
theorem demote_effect (env : Env) (i : Interaction) (config : GuildConfig) (w : World)
    (m : GuildMember) (hperm : hasPermission i.member Tier.admin config = true)
    (hm : fetchMember w i.guildId i.targetUser.id = some m) (hgrant : env.grantOk = true)
    (hdist : ∀ sid : String, config.roles.staff = .str sid →
      config.roles.admin ≠ .str sid ∧ config.roles.hr ≠ .str sid) :
    (∀ aid : String, config.roles.admin = .str aid → aid ≠ "" →
      ¬ holdsRole (handleDemoteCommand env i config w).world i.guildId i.targetUser.id aid) ∧
    (∀ hid : String, config.roles.hr = .str hid → hid ≠ "" →
      ¬ holdsRole (handleDemoteCommand env i config w).world i.guildId i.targetUser.id hid) ∧
    (holdsAdminOrHr config m.roles → ∀ sid : String, config.roles.staff = .str sid → sid ≠ "" →
      holdsRole (handleDemoteCommand env i config w).world i.guildId i.targetUser.id sid) ∧
    (¬ holdsAdminOrHr config m.roles → (handleDemoteCommand env i config w).world = w) := by
  have key := demote_holds env i config w m hperm hm hgrant hdist
  refine ⟨?_, ?_, ?_, ?_⟩
  · intro aid ha hne hholds
    rcases (key aid).1 hholds with ⟨hin, hnot⟩ | ⟨-, hs, -⟩
    · exact hnot ((mem_demoteRolesToRemove config m.roles aid).2 ⟨hne, hin, Or.inl ha⟩)
    · exact (hdist aid hs).1 ha
  · intro hid hh hne hholds
    rcases (key hid).1 hholds with ⟨hin, hnot⟩ | ⟨-, hs, -⟩
    · exact hnot ((mem_demoteRolesToRemove config m.roles hid).2 ⟨hne, hin, Or.inr hh⟩)
    · exact (hdist hid hs).2 hh
  · intro hheld sid hs hne
    exact (key sid).2 (Or.inr ⟨(demoteRolesToRemove_ne_nil_iff config m.roles).2 hheld, hs, hne⟩)
  · intro hnot
    have hnil : demoteRolesToRemove config m.roles = [] := by
      by_contra h
      exact hnot ((demoteRolesToRemove_ne_nil_iff config m.roles).1 h)
    rw [demote_world env i config w m hperm hm hgrant]
    simp [hnil]

/-- Witness of C19: a member holding hr, staff and another role is demoted. -/
theorem demote_effect_witness :
    ¬ holdsRole (handleDemoteCommand calmEnv adminDemotes threeTierConfig annStaffHrWorld).world
      "g1" "u1" "r-hr" :=
  (demote_effect calmEnv adminDemotes threeTierConfig annStaffHrWorld
    ⟨"g1", "u1", ["r-staff", "r-misc", "r-hr"]⟩ (by decide) (by decide) rfl
    (by intro sid hs; cases hs; exact ⟨by decide, by decide⟩)).2.1 "r-hr" rfl (by decide)

theorem mem_terminateRolesToRemove (config : GuildConfig) (cache : List String) (r : String) :
    r ∈ terminateRolesToRemove config cache ↔ r ∈ cache ∧ isStaffTierRole config r := by
  simp only [terminateRolesToRemove, mem_pushIfHeld, List.not_mem_nil, false_or,
    isStaffTierRole]
  tauto

/-- The world after an authorized `terminate` with the member fetched, when
there is nothing to revoke or the role removal resolves. -/
theorem terminate_world (env : Env) (i : Interaction) (config : GuildConfig) (w : World)
    (m : GuildMember) (hperm : hasPermission i.member Tier.admin config = true)
    (hm : fetchMember w i.guildId i.targetUser.id = some m)
    (hok : terminateRolesToRemove config m.roles = [] ∨ env.grantOk = true) :
    (handleTerminateCommand env i config w).world =
      (removeRoles w i.guildId i.targetUser.id
          (terminateRolesToRemove config m.roles)).withTerminations
        (w.db.terminations ++
          [{ userId := i.targetUser.id, guildId := i.guildId, reason := i.getString "reason",
             terminatedBy := i.user.id, terminatedAt := env.now,
             rolesRemoved := terminateRolesToRemove config m.roles }]) := by
  simp only [handleTerminateCommand, hperm, hm, Bool.not_true, Bool.false_eq_true, if_false,
    insertOne]
  by_cases hlen : (terminateRolesToRemove config m.roles).length > 0
  · have hgrant : env.grantOk = true := by
      rcases hok with h | h
      · rw [h] at hlen
        exact absurd hlen (by simp)
      · exact h
    simp only [hlen, hgrant, if_true, Bool.true_eq_false, and_false, if_false]
    split <;> rfl
  · have hnil : terminateRolesToRemove config m.roles = [] :=
      List.eq_nil_of_length_eq_zero (by omega)
    simp only [hnil, List.length_nil, gt_iff_lt, Nat.lt_irrefl, false_and, if_false,
      removeRoles_nil]
    split <;> rfl

/-- C20: for every member and config, an authorized `terminate` with the
member fetched and the role removal resolving appends exactly one
TerminationRecord; its `rolesRemoved` holds exactly the configured staff, hr
and admin role IDs the member held, and afterwards the member holds exactly
the roles held before that are not in `rolesRemoved`. For a member holding
none of these roles, `rolesRemoved` is empty, the role membership is
unchanged, and the record is still appended. A second `terminate` right after
the first appends a second record with empty `rolesRemoved`. -/
theorem terminate_records_roles (env : Env) (i : Interaction) (config : GuildConfig)
    (w : World) (m : GuildMember) (hperm : hasPermission i.member Tier.admin config = true)
    (hm : fetchMember w i.guildId i.targetUser.id = some m) (hgrant : env.grantOk = true) :
    (handleTerminateCommand env i config w).world.db.terminations =
      w.db.terminations ++
        [{ userId := i.targetUser.id, guildId := i.guildId, reason := i.getString "reason",
           terminatedBy := i.user.id, terminatedAt := env.now,
           rolesRemoved := terminateRolesToRemove config m.roles }] ∧
    (∀ r : String, r ∈ terminateRolesToRemove config m.roles ↔
      r ∈ m.roles ∧ isStaffTierRole config r) ∧
    (∀ r : String,
      holdsRole (handleTerminateCommand env i config w).world i.guildId i.targetUser.id r ↔
        r ∈ m.roles ∧ r ∉ terminateRolesToRemove config m.roles) ∧
    ((∀ r : String, r ∈ m.roles → ¬ isStaffTierRole config r) →
      terminateRolesToRemove config m.roles = [] ∧
      (handleTerminateCommand env i config w).world.members = w.members) ∧
    (∀ env2 : Env,
      (handleTerminateCommand env2 i config
          (handleTerminateCommand env i config w).world).world.db.terminations =
        w.db.terminations ++
          [{ userId := i.targetUser.id, guildId := i.guildId, reason := i.getString "reason",
             terminatedBy := i.user.id, terminatedAt := env.now,
             rolesRemoved := terminateRolesToRemove config m.roles },
           { userId := i.targetUser.id, guildId := i.guildId, reason := i.getString "reason",
             terminatedBy := i.user.id, terminatedAt := env2.now, rolesRemoved := [] }]) := by
  have hw := terminate_world env i config w m hperm hm (Or.inr hgrant)
  refine ⟨by rw [hw]; rfl, mem_terminateRolesToRemove config m.roles, ?_, ?_, ?_⟩
  · intro r
    rw [hw]
    exact holdsRole_removeRoles w _ _ _ m hm r
  · intro hnone
    have hnil : terminateRolesToRemove config m.roles = [] := by
      rw [List.eq_nil_iff_forall_not_mem]
      intro r hr
      have := (mem_terminateRolesToRemove config m.roles r).1 hr
      exact hnone r this.1 this.2
    refine ⟨hnil, ?_⟩
    rw [hw, hnil, removeRoles_nil]
    rfl
  · intro env2
    have hm2 : fetchMember (handleTerminateCommand env i config w).world i.guildId
        i.targetUser.id =
        some ⟨m.guildId, m.userId,
          m.roles.filter (fun r => decide (r ∉ terminateRolesToRemove config m.roles))⟩ := by
      rw [hw]
      have := fetchMember_removeRoles w i.guildId i.targetUser.id
        (terminateRolesToRemove config m.roles)
      rw [hm] at this
      exact this
    have hnil2 : terminateRolesToRemove config
        (m.roles.filter (fun r => decide (r ∉ terminateRolesToRemove config m.roles))) = [] := by
      rw [List.eq_nil_iff_forall_not_mem]
      intro r hr
      have h1 := (mem_terminateRolesToRemove config _ r).1 hr
      have h2 : r ∈ m.roles ∧ r ∉ terminateRolesToRemove config m.roles := by
        simpa using h1.1
      exact h2.2 ((mem_terminateRolesToRemove config m.roles r).2 ⟨h2.1, h1.2⟩)
    rw [terminate_world env2 i config _ _ hperm hm2 (Or.inl hnil2), hnil2, hw]
    simp [World.withTerminations, removeRoles]

/-- Witness of C20: a member holding staff, hr and another role is
terminated. -/
theorem terminate_records_roles_witness :
    (handleTerminateCommand calmEnv adminTerminates threeTierConfig
        annStaffHrWorld).world.db.terminations =
      [{ userId := "u1", guildId := "g1", reason := some "gone", terminatedBy := "u4",
         terminatedAt := 1000, rolesRemoved := ["r-staff", "r-hr"] }] :=
  (terminate_records_roles calmEnv adminTerminates threeTierConfig annStaffHrWorld
    ⟨"g1", "u1", ["r-staff", "r-misc", "r-hr"]⟩ (by decide) (by decide) rfl).1

/-! ## Theorems: the remaining commands -/

/-- C30: `hasPermission` as coded: false when the role of the required tier
is not configured; otherwise true if and only if the member holds the
configured role of some tier from owner down to the required tier, or is a
platform administrator. Hence it is monotone where the tiers are configured:
a member authorized for a tier is authorized for every lower tier whose role
is configured, in particular for every lower tier when all four roles are
configured. -/
theorem hasPermission_as_coded (member : Member) (config : GuildConfig) :
    (∀ t : Tier, ¬ roleConfigured config t → hasPermission member t config = false) ∧
    (∀ t : Tier, roleConfigured config t →
      (hasPermission member t config = true ↔
        (holdsTierOrAbove member t config ∨ member.administrator = true))) ∧
    (∀ t lower : Tier, lower.rank ≤ t.rank → roleConfigured config lower →
      hasPermission member t config = true → hasPermission member lower config = true) ∧
    ((∀ t : Tier, roleConfigured config t) →
      ∀ t lower : Tier, lower.rank ≤ t.rank →
        hasPermission member t config = true → hasPermission member lower config = true) := by
  have mono : ∀ t lower : Tier, lower.rank ≤ t.rank → roleConfigured config lower →
      hasPermission member t config = true → hasPermission member lower config = true := by
    intro t lower hle hcfg h
    rw [hasPermission_eq_true_iff] at h ⊢
    refine ⟨hcfg, ?_⟩
    rcases h.2 with ⟨u, hu, hid⟩ | hadm
    · exact Or.inl ⟨u, le_trans hle hu, hid⟩
    · exact Or.inr hadm
  refine ⟨?_, ?_, mono, fun hall t lower hle h => mono t lower hle (hall lower) h⟩
  · intro t hcfg
    cases h : hasPermission member t config with
    | false => rfl
    | true => exact absurd ((hasPermission_eq_true_iff member t config).1 h).1 hcfg
  · intro t hcfg
    rw [hasPermission_eq_true_iff]
    exact ⟨fun h => h.2, fun h => ⟨hcfg, h⟩⟩

/-- Witness of C30: with staff, hr and admin configured, a holder of the
admin role, authorized for admin, is authorized for staff. -/
theorem hasPermission_as_coded_witness :
    hasPermission ⟨["r-admin"], false⟩ Tier.staff threeTierConfig = true :=
  (hasPermission_as_coded ⟨["r-admin"], false⟩ threeTierConfig).2.2.1 Tier.admin Tier.staff
    (by decide) (by decide) (by decide)

theorem splitOnChar_ne_nil (sep : Char) (cs : List Char) : splitOnChar sep cs ≠ [] := by
  induction cs with
  | nil => simp [splitOnChar]
  | cons c cs ih =>
    by_cases h : c = sep
    · simp [splitOnChar, h]
    · simp only [splitOnChar, h, if_false]
      cases hs : splitOnChar sep cs with
      | nil => simp
      | cons p ps => simp

/-- `key.split('.')` has at least one piece. -/
theorem splitDot_ne_nil (key : String) : splitDot key ≠ [] := by
  simp [splitDot, splitOnChar_ne_nil]

theorem assignAt_chainTo (path : List String) (leaf : CfgFields) (key : String)
    (val : CfgVal) :
    assignAt (chainTo path leaf) path key val = chainTo path (leaf.assign key val) := by
  induction path with
  | nil => rfl
  | cons p ps ih => simp [assignAt, chainTo, CfgFields.lookup, CfgFields.assign, ih]

theorem chainTo_append (path : List String) (k : String) (leaf : CfgFields) :
    chainTo (path ++ [k]) leaf = chainTo path (.cons k (.obj leaf) .nil) := by
  induction path with
  | nil => rfl
  | cons p ps ih => simp [chainTo, ih]

/-- The loop over pieces none of which is `__proto__`: `updateObj` is the chain
of the pieces so far, and `current` is its innermost object. -/
theorem foldl_loopStep_chainTo (ks path : List String) (hks : "__proto__" ∉ ks) :
    ks.foldl loopStep ⟨chainTo path .nil, some path⟩ =
      ⟨chainTo (path ++ ks) .nil, some (path ++ ks)⟩ := by
  induction ks generalizing path with
  | nil => simp
  | cons k ks ih =>
    have hk : k ≠ "__proto__" := fun h => hks (by simp [h])
    have hks2 : "__proto__" ∉ ks := fun h => hks (by simp [h])
    have hstep : loopStep ⟨chainTo path .nil, some path⟩ k =
        ⟨chainTo (path ++ [k]) .nil, some (path ++ [k])⟩ := by
      simp [loopStep, hk, assignAt_chainTo, chainTo_append, CfgFields.assign]
    rw [List.foldl_cons, hstep, ih (path ++ [k]) hks2]
    simp

theorem nestedObject_append (path : List String) (k value : String) :
    nestedObject (path ++ [k]) value = .obj (chainTo path (.cons k (.str value) .nil)) := by
  induction path with
  | nil => rfl
  | cons p ps ih => simp [nestedObject, chainTo, ih]

theorem buildUpdateObj_eq_nestedObject (keys : List String) (value : String) (hne : keys ≠ [])
    (hproto : "__proto__" ∉ keys) :
    CfgVal.obj (buildUpdateObj keys value) = nestedObject keys value := by
  have hsplit : keys = keys.dropLast ++ [keys.getLast hne] :=
    (List.dropLast_append_getLast hne).symm
  have hlast : keys.getLast?.getD "undefined" = keys.getLast hne := by
    rw [List.getLast?_eq_getLast keys hne]; rfl
  have hk : keys.getLast hne ≠ "__proto__" := fun h => hproto (h ▸ List.getLast_mem hne)
  have hd : "__proto__" ∉ keys.dropLast := fun h => hproto (List.dropLast_subset keys h)
  have hfold := foldl_loopStep_chainTo keys.dropLast [] hd
  simp only [chainTo, List.nil_append] at hfold
  unfold buildUpdateObj
  rw [hlast]
  dsimp only
  rw [hfold]
  conv_rhs => rw [hsplit]
  rw [nestedObject_append]
  simp [lastAssign, hk, assignAt_chainTo, CfgFields.assign]

theorem readPath_nestedObject (keys : List String) (value : String) :
    readPath (nestedObject keys value) keys = some (.str value) := by
  induction keys with
  | nil => simp [nestedObject, readPath]
  | cons k ks ih => simp [nestedObject, readPath, CfgFields.lookup, ih]

theorem pathCount_nestedObject (keys : List String) (value : String) :
    (nestedObject keys value).pathCount = 1 := by
  induction keys with
  | nil => simp [nestedObject, CfgVal.pathCount]
  | cons k ks ih => simp [nestedObject, CfgVal.pathCount, CfgFields.pathCount, ih]

/-- C29 as stated fails: for the key `__proto__.x` the loop stores no own
property, so the update object is the empty object: it has no path, reading
`__proto__`, `x` in turn finds nothing, and it is not the nested object; the
key `__proto__` alone stores nothing either. -/
theorem updateObj_proto_segment_stores_nothing :
    splitDot "__proto__.x" = ["__proto__", "x"] ∧
    buildUpdateObj (splitDot "__proto__.x") "v" = .nil ∧
    (CfgVal.obj (buildUpdateObj ["__proto__", "x"] "v")).pathCount = 0 ∧
    readPath (.obj (buildUpdateObj ["__proto__", "x"] "v")) ["__proto__", "x"] = none ∧
    CfgVal.obj (buildUpdateObj ["__proto__", "x"] "v") ≠ nestedObject ["__proto__", "x"] "v" ∧
    buildUpdateObj (splitDot "__proto__") "v" = .nil := by
  decide

/-- C29, as amended: for every key of segments k1, ..., kn (n ≥ 1), none of
which is `__proto__`, and every value, the update object `config set` builds
is the singly nested object with the value under k1, k2, ..., kn: it has
exactly one path, and reading k1, ..., kn in turn returns the value;
`channels.staffLog` gives the object with the value under `channels`,
`staffLog`. The segments of a key are never none. -/
theorem updateObj_is_nested (keys : List String) (value : String) (hne : keys ≠ [])
    (hproto : "__proto__" ∉ keys) :
    CfgVal.obj (buildUpdateObj keys value) = nestedObject keys value ∧
    (CfgVal.obj (buildUpdateObj keys value)).pathCount = 1 ∧
    readPath (.obj (buildUpdateObj keys value)) keys = some (.str value) ∧
    buildUpdateObj (splitDot "channels.staffLog") value =
      .cons "channels" (.obj (.cons "staffLog" (.str value) .nil)) .nil ∧
    (∀ key : String, splitDot key ≠ []) := by
  rw [buildUpdateObj_eq_nestedObject keys value hne hproto]
  refine ⟨rfl, pathCount_nestedObject keys value, readPath_nestedObject keys value, ?_,
    splitDot_ne_nil⟩
  have hs : splitDot "channels.staffLog" = ["channels", "staffLog"] := by decide
  rw [hs]
  rfl

/-- Witness of C29 as amended: the key `roles.hr`. -/
theorem updateObj_is_nested_witness :
    readPath (.obj (buildUpdateObj ["roles", "hr"] "r-hr")) ["roles", "hr"] =
      some (.str "r-hr") :=
  (updateObj_is_nested ["roles", "hr"] "r-hr" (by decide) (by decide)).2.2.1

/-- The record `handleFeedbackCommand` stores. -/
theorem handleFeedbackCommand_feedback (env : Env) (i : Interaction) (config : GuildConfig)
    (w : World) :
    (handleFeedbackCommand env i config w).world.db.feedback =
      w.db.feedback ++
        [⟨i.guildId, i.getString "message", (i.getBoolean "anonymous").getD false,
          if (i.getBoolean "anonymous").getD false = true then none else some i.user.id,
          env.now⟩] := by
  unfold handleFeedbackCommand
  dsimp only
  (repeat' split) <;> rfl

/-- C28: `feedback` appends one FeedbackRecord; its `anonymous` is true if and
only if the `anonymous` option is true (an absent option counting as false);
its `submittedBy` is null if and only if `anonymous` is true, and otherwise it
is the ID of the submitting user. -/
theorem feedback_submittedBy (env : Env) (i : Interaction) (config : GuildConfig) (w : World) :
    ∃ doc : FeedbackRecord,
      (handleFeedbackCommand env i config w).world.db.feedback = w.db.feedback ++ [doc] ∧
      doc.guildId = i.guildId ∧ doc.message = i.getString "message" ∧
      doc.submittedAt = env.now ∧
      (doc.anonymous = true ↔ i.getBoolean "anonymous" = some true) ∧
      (doc.submittedBy = none ↔ doc.anonymous = true) ∧
      ((doc.anonymous = true ∧ doc.submittedBy = none) ∨
        (doc.anonymous = false ∧ doc.submittedBy = some i.user.id)) := by
  refine ⟨_, handleFeedbackCommand_feedback env i config w, rfl, rfl, rfl, ?_, ?_, ?_⟩
  · cases h : i.getBoolean "anonymous" with
    | none => simp
    | some b => cases b <;> simp
  · cases h : (i.getBoolean "anonymous").getD false <;> simp
  · cases h : (i.getBoolean "anonymous").getD false <;> simp

/-- C27 as stated fails: with the option `hours` at -5, the record that
`logactivity` writes has `hours` = -5. -/
theorem logactivity_negative_hours :
    (handleLogActivityCommand calmEnv logsNegativeHours threeTierConfig {}).world.db.activity =
      [{ userId := "u3", guildId := "g1", activity := some "patrol", hours := -5,
         loggedAt := 1000 }] ∧
    ¬ ∀ r ∈ (handleLogActivityCommand calmEnv logsNegativeHours threeTierConfig
        {}).world.db.activity, 0 ≤ r.hours := by
  decide

/-- C27, as amended: the record an authorized `logactivity` writes has
`hours` equal to the integer option `hours`, or 0 when the option is absent;
so it has `hours` ≥ 0 whenever the option is absent, zero or positive. -/
theorem logactivity_hours (env : Env) (i : Interaction) (config : GuildConfig) (w : World)
    (hperm : hasPermission i.member Tier.staff config = true) :
    (handleLogActivityCommand env i config w).world.db.activity =
      w.db.activity ++
        [{ userId := i.user.id, guildId := i.guildId, activity := i.getString "activity",
           hours := (i.getInteger "hours").getD 0, loggedAt := env.now }] ∧
    ((∀ h : Int, i.getInteger "hours" = some h → 0 ≤ h) →
      0 ≤ (i.getInteger "hours").getD 0) := by
  constructor
  · have hh : hoursOrZero (i.getInteger "hours") = (i.getInteger "hours").getD 0 := by
      cases h : i.getInteger "hours" with
      | none => rfl
      | some n =>
        by_cases h0 : n = 0
        · simp [hoursOrZero, h0]
        · simp [hoursOrZero, h0]
    simp [handleLogActivityCommand, hperm, hh, World.withActivity, insertOne]
  · intro hpos
    cases h : i.getInteger "hours" with
    | none => simp
    | some n => simpa using hpos n h

/-- Witness of C27 as amended: `logactivity` without the option `hours`. -/
theorem logactivity_hours_witness :
    (handleLogActivityCommand calmEnv loaRequester staffHrConfig {}).world.db.activity =
      [{ userId := "u3", guildId := "g1", activity := none, hours := 0, loggedAt := 1000 }] :=
  (logactivity_hours calmEnv loaRequester staffHrConfig {} (by decide)).1

/-- C21: for every permission-gated command (warn, clearinfractions,
terminate, promote, demote, loa, loa-manage, tag-manage, config, logactivity,
oncall), when `hasPermission` returns false for the invoking member and the
tier of the command, the handler the command is dispatched to only replies
with its refusal: the world, with every collection and every member's roles,
is as before. -/
theorem refused_command_changes_nothing (env : Env) (i : Interaction) (config : GuildConfig)
    (w : World) (t : Tier) (ht : commandTier i.commandName = some t)
    (hperm : hasPermission i.member t config = false) :
    runCommand env i config w = ⟨w, [.reply (refusalText i.commandName)], false⟩ := by
  have hname : ∀ n : String, i.commandName = n → commandTier n = some t →
      runCommand env i config w = ⟨w, [.reply (refusalText n)], false⟩ := by
    intro n hn hn2
    have hmem : n = "warn" ∨ n = "clearinfractions" ∨ n = "terminate" ∨ n = "promote" ∨
        n = "demote" ∨ n = "loa" ∨ n = "loa-manage" ∨ n = "tag-manage" ∨ n = "config" ∨
        n = "logactivity" ∨ n = "oncall" := by
      by_contra hcon
      simp only [not_or] at hcon
      obtain ⟨c1, c2, c3, c4, c5, c6, c7, c8, c9, c10, c11⟩ := hcon
      simp [commandTier, c1, c2, c3, c4, c5, c6, c7, c8, c9, c10, c11] at hn2
    unfold runCommand
    rw [hn]
    rcases hmem with rfl | rfl | rfl | rfl | rfl | rfl | rfl | rfl | rfl | rfl | rfl
    · simp only [commandTier, if_true, if_false, Option.some.injEq, reduceCtorEq,
        String.reduceEq] at hn2
      subst hn2
      simp [refusalText, handleWarnCommand, hperm]
    · simp only [commandTier, if_true, if_false, Option.some.injEq, reduceCtorEq,
        String.reduceEq] at hn2
      subst hn2
      simp [refusalText, handleClearInfractionsCommand, hperm]
    · simp only [commandTier, if_true, if_false, Option.some.injEq, reduceCtorEq,
        String.reduceEq] at hn2
      subst hn2
      simp [refusalText, handleTerminateCommand, hperm]
    · simp only [commandTier, if_true, if_false, Option.some.injEq, reduceCtorEq,
        String.reduceEq] at hn2
      subst hn2
      simp [refusalText, handlePromoteCommand, hperm]
    · simp only [commandTier, if_true, if_false, Option.some.injEq, reduceCtorEq,
        String.reduceEq] at hn2
      subst hn2
      simp [refusalText, handleDemoteCommand, hperm]
    · simp only [commandTier, if_true, if_false, Option.some.injEq, reduceCtorEq,
        String.reduceEq] at hn2
      subst hn2
      simp [refusalText, handleLoaCommand, hperm]
    · simp only [commandTier, if_true, if_false, Option.some.injEq, reduceCtorEq,
        String.reduceEq] at hn2
      subst hn2
      simp [refusalText, handleLoaManageCommand, hperm]
    · simp only [commandTier, if_true, if_false, Option.some.injEq, reduceCtorEq,
        String.reduceEq] at hn2
      subst hn2
      simp [refusalText, handleTagManageCommand, hperm]
    · simp only [commandTier, if_true, if_false, Option.some.injEq, reduceCtorEq,
        String.reduceEq] at hn2
      subst hn2
      simp [refusalText, handleConfigCommand, hperm]
    · simp only [commandTier, if_true, if_false, Option.some.injEq, reduceCtorEq,
        String.reduceEq] at hn2
      subst hn2
      simp [refusalText, handleLogActivityCommand, hperm]
    · simp only [commandTier, if_true, if_false, Option.some.injEq, reduceCtorEq,
        String.reduceEq] at hn2
      subst hn2
      simp [refusalText, handleOnCallCommand, hperm]
  exact hname _ rfl ht

/-- Witness of C21: `logactivity` by a member without the staff role. -/
theorem refused_command_changes_nothing_witness :
    runCommand calmEnv { logsNegativeHours with member := ⟨[], false⟩ } threeTierConfig {} =
      ⟨{}, [.reply "You need staff permissions to log activity."], false⟩ :=
  refused_command_changes_nothing calmEnv { logsNegativeHours with member := ⟨[], false⟩ }
    threeTierConfig {} Tier.staff (by decide) (by decide)

/-- The world after an authorized `clearinfractions`. -/
theorem clearInfractions_warnings (env : Env) (i : Interaction) (config : GuildConfig)
    (w : World) (hperm : hasPermission i.member Tier.admin config = true) :
    (handleClearInfractionsCommand env i config w).world =
      w.withWarnings (deleteMany (warningOf i.targetUser.id i.guildId) w.db.warnings) := by
  simp only [handleClearInfractionsCommand, hperm, Bool.not_true, Bool.false_eq_true, if_false]
  split <;> rfl

/-- C22: after an authorized `clearinfractions` for (user, guild), the query
of `infractions` for that (user, guild) returns no record, so an authorized
`infractions` answers that the user has no infractions on record; the
warnings collection is the one before without the warnings of (user, guild),
so the warnings of every other user and of every other guild are as before. -/
theorem clearinfractions_then_infractions (env : Env) (i : Interaction) (config : GuildConfig)
    (w : World) (hperm : hasPermission i.member Tier.admin config = true) :
    infractionsQuery (handleClearInfractionsCommand env i config w).world.db
      i.targetUser.id i.guildId = [] ∧
    (∀ (j : Interaction) (cfg : GuildConfig),
      hasPermission j.member Tier.hr cfg = true →
      j.targetUser.id = i.targetUser.id → j.guildId = i.guildId →
      handleInfractionsCommand j cfg (handleClearInfractionsCommand env i config w).world =
        ⟨(handleClearInfractionsCommand env i config w).world,
          [.reply (j.targetUser.tag ++ " has no infractions on record.")], false⟩) ∧
    (handleClearInfractionsCommand env i config w).world.db.warnings =
      w.db.warnings.filter
        (fun r => decide (¬ (r.userId = i.targetUser.id ∧ r.guildId = i.guildId))) ∧
    (∀ userId guildId : String, ¬ (userId = i.targetUser.id ∧ guildId = i.guildId) →
      (handleClearInfractionsCommand env i config w).world.db.warnings.filter
          (warningOf userId guildId) =
        w.db.warnings.filter (warningOf userId guildId)) := by
  have hw := clearInfractions_warnings env i config w hperm
  have hq : infractionsQuery (handleClearInfractionsCommand env i config w).world.db
      i.targetUser.id i.guildId = [] := by
    rw [hw]
    have hnil : (deleteMany (warningOf i.targetUser.id i.guildId) w.db.warnings).filter
        (warningOf i.targetUser.id i.guildId) = [] := by
      rw [List.filter_eq_nil_iff]
      intro x hx
      simp only [deleteMany, List.mem_filter] at hx
      simpa using hx.2
    simp only [infractionsQuery, World.withWarnings, hnil]
    rfl
  refine ⟨hq, ?_, ?_, ?_⟩
  · intro j cfg hj hu hg
    simp only [handleInfractionsCommand, hj, hu, hg, hq, Bool.not_true, Bool.false_eq_true,
      if_false, List.length_nil, if_true]
  · rw [hw]
    simp only [World.withWarnings, deleteMany, warningOf]
    apply List.filter_congr
    intro x _
    by_cases h : x.userId = i.targetUser.id ∧ x.guildId = i.guildId <;> simp [h]
  · intro userId guildId hne
    rw [hw]
    simp only [World.withWarnings, deleteMany, List.filter_filter]
    apply List.filter_congr
    intro x _
    by_cases h : x.userId = userId ∧ x.guildId = guildId
    · have hx : ¬ (x.userId = i.targetUser.id ∧ x.guildId = i.guildId) := by
        rintro ⟨h1, h2⟩
        exact hne ⟨h.1.symm.trans h1, h.2.symm.trans h2⟩
      have hne2 := not_and_or.1 hne
      simp [warningOf, h, hne2]
    · simp [warningOf, h]

/-- Witness of C22: an admin clears the infractions of `u1` in a store with
one warning of `u1` and one of `u3`. -/
theorem clearinfractions_then_infractions_witness :
    infractionsQuery
      (handleClearInfractionsCommand calmEnv adminTerminates threeTierConfig
        { db := { warnings := [⟨"u1", "g1", some "late", none, "u2", 7⟩,
                               ⟨"u3", "g1", some "rude", none, "u2", 8⟩] } }).world.db
      "u1" "g1" = [] :=
  (clearinfractions_then_infractions calmEnv adminTerminates threeTierConfig
    { db := { warnings := [⟨"u1", "g1", some "late", none, "u2", 7⟩,
                           ⟨"u3", "g1", some "rude", none, "u2", 8⟩] } } (by decide)).1

theorem deleteOne_length {α : Type} (filter : α → Bool) (l : List α) :
    (deleteOne filter l).length + matchedCount filter l = l.length := by
  induction l with
  | nil => simp [deleteOne, matchedCount]
  | cons x xs ih =>
    by_cases h : filter x = true
    · simp [deleteOne, matchedCount, h]
    · have hany : (x :: xs).any filter = xs.any filter := by simp [h]
      have hdel : deleteOne filter (x :: xs) = x :: deleteOne filter xs := by
        simp [deleteOne, h]
      simp only [matchedCount] at ih
      simp only [hdel, matchedCount, hany, List.length_cons]
      omega

/-- `deleteOne` never adds matches of a predicate. -/
theorem filter_deleteOne_length_le {α : Type} (filter p : α → Bool) (l : List α) :
    ((deleteOne filter l).filter p).length ≤ (l.filter p).length := by
  induction l with
  | nil => simp [deleteOne]
  | cons x xs ih =>
    by_cases h : filter x = true
    · by_cases hp : p x = true
      · simp [deleteOne, h, List.filter, hp]
      · simp [deleteOne, h, List.filter, hp]
    · by_cases hp : p x = true
      · simpa [deleteOne, h, List.filter, hp] using ih
      · simpa [deleteOne, h, List.filter, hp] using ih

/-- `deleteOne` keeps the documents of a predicate that excludes the filter. -/
theorem filter_deleteOne_of_disjoint {α : Type} (filter p : α → Bool) (l : List α)
    (hdis : ∀ x, filter x = true → p x = false) :
    (deleteOne filter l).filter p = l.filter p := by
  induction l with
  | nil => rfl
  | cons x xs ih =>
    by_cases h : filter x = true
    · simp [deleteOne, h, List.filter, hdis x h]
    · simp only [deleteOne, h, List.filter, ih]

/-- The tags collection after `handleTagManageCommand`: the one before, the
one before with a tag of a free name appended, or the one before with one
`deleteOne`. -/
theorem handleTagManageCommand_tags (env : Env) (i : Interaction) (config : GuildConfig)
    (w : World) :
    (handleTagManageCommand env i config w).world.db.tags = w.db.tags ∨
    (findOne (tagOf (i.getString "name") i.guildId) w.db.tags = none ∧
      i.subcommand = "create" ∧
      (handleTagManageCommand env i config w).world.db.tags =
        w.db.tags ++ [⟨i.getString "name", i.getString "content", i.guildId, i.user.id,
          env.now⟩]) ∨
    (i.subcommand = "delete" ∧
      (handleTagManageCommand env i config w).world.db.tags =
        deleteOne (tagOf (i.getString "name") i.guildId) w.db.tags) := by
  unfold handleTagManageCommand
  dsimp only
  split
  · left; rfl
  · split
    · next hs =>
      split
      · left; rfl
      · next hnone => right; left; exact ⟨hnone, hs, rfl⟩
    · split
      · next hs => right; right; refine ⟨hs, ?_⟩; split <;> rfl
      · (repeat' split) <;> (left; rfl)

theorem find?_tagOf_isSome_iff (w : World) (name : Option String) (guildId : String) :
    (findOne (tagOf name guildId) w.db.tags).isSome = true ↔ hasTag w name guildId := by
  simp [findOne, hasTag, tagOf, List.find?_isSome]

/-- C23: tag names stay unique within a guild. For an authorized `tag-manage`
on a tags collection with at most one tag per (name, guild): the collection
afterwards has at most one tag per (name, guild); `create` with a name taken
in the guild is refused and leaves the world unchanged; `create` with a free
name appends one tag, after which `tag` for that name in that guild replies
with the given content; `delete` removes the first tag of that name in that
guild and no other document; the tags of every other guild are as before. -/
theorem tag_names_stay_unique (env : Env) (i : Interaction) (config : GuildConfig) (w : World)
    (hperm : hasPermission i.member Tier.hr config = true) (huniq : uniqueTags w.db.tags) :
    uniqueTags (handleTagManageCommand env i config w).world.db.tags ∧
    (i.subcommand = "create" → hasTag w (i.getString "name") i.guildId →
      handleTagManageCommand env i config w =
        ⟨w, [.reply "A tag with that name already exists."], false⟩) ∧
    (i.subcommand = "create" → ¬ hasTag w (i.getString "name") i.guildId →
      (handleTagManageCommand env i config w).world.db.tags =
        w.db.tags ++ [⟨i.getString "name", i.getString "content", i.guildId, i.user.id,
          env.now⟩] ∧
      ∀ (j : Interaction) (cfg : GuildConfig) (content : String),
        j.getString "name" = i.getString "name" → j.guildId = i.guildId →
        i.getString "content" = some content →
        handleTagCommand j cfg (handleTagManageCommand env i config w).world =
          ⟨(handleTagManageCommand env i config w).world, [.reply content], false⟩) ∧
    (i.subcommand = "delete" →
      (handleTagManageCommand env i config w).world.db.tags =
        deleteOne (tagOf (i.getString "name") i.guildId) w.db.tags ∧
      (handleTagManageCommand env i config w).world.db.tags.length +
          matchedCount (tagOf (i.getString "name") i.guildId) w.db.tags =
        w.db.tags.length ∧
      ∀ (name : Option String) (guildId : String),
        ¬ (name = i.getString "name" ∧ guildId = i.guildId) →
        (handleTagManageCommand env i config w).world.db.tags.filter (tagOf name guildId) =
          w.db.tags.filter (tagOf name guildId)) ∧
    (∀ (name : Option String) (guildId : String), guildId ≠ i.guildId →
      (handleTagManageCommand env i config w).world.db.tags.filter (tagOf name guildId) =
        w.db.tags.filter (tagOf name guildId)) := by
  have hshape := handleTagManageCommand_tags env i config w
  have hdis : ∀ (name : Option String) (guildId : String),
      ¬ (name = i.getString "name" ∧ guildId = i.guildId) →
      ∀ x, tagOf (i.getString "name") i.guildId x = true → tagOf name guildId x = false := by
    intro name guildId hne x hx
    simp only [tagOf, decide_eq_true_eq] at hx
    simp only [tagOf, decide_eq_false_iff_not]
    rintro ⟨h1, h2⟩
    exact hne ⟨h1.symm.trans hx.1, h2.symm.trans hx.2⟩
  refine ⟨?_, ?_, ?_, ?_, ?_⟩
  · intro name guildId
    have hw := huniq name guildId
    rcases hshape with h | ⟨hnone, -, h⟩ | ⟨-, h⟩
    · rw [h]; exact hw
    · rw [h, List.filter_append]
      by_cases hd : tagOf name guildId ⟨i.getString "name", i.getString "content", i.guildId,
          i.user.id, env.now⟩ = true
      · have hng : name = i.getString "name" ∧ guildId = i.guildId := by
          simp only [tagOf, decide_eq_true_eq] at hd
          exact ⟨hd.1.symm, hd.2.symm⟩
        have hnil : w.db.tags.filter (tagOf name guildId) = [] := by
          rw [hng.1, hng.2, List.filter_eq_nil_iff]
          intro x hx
          have := List.find?_eq_none.1 hnone x hx
          simpa using this
        simp [hnil, List.filter, hd]
      · simp only [List.filter, hd, List.append_nil]
        exact hw
    · rw [h]
      exact le_trans (filter_deleteOne_length_le _ _ _) hw
  · intro hs hp
    obtain ⟨r, hr⟩ := Option.isSome_iff_exists.1
      ((find?_tagOf_isSome_iff w (i.getString "name") i.guildId).2 hp)
    simp [handleTagManageCommand, hperm, hs, hr]
  · intro hs hp
    have hnone : findOne (tagOf (i.getString "name") i.guildId) w.db.tags = none := by
      cases h : findOne (tagOf (i.getString "name") i.guildId) w.db.tags with
      | none => rfl
      | some r =>
        exact absurd ((find?_tagOf_isSome_iff w (i.getString "name") i.guildId).1
          (by simp [h])) hp
    have htags : (handleTagManageCommand env i config w).world.db.tags =
        w.db.tags ++ [⟨i.getString "name", i.getString "content", i.guildId, i.user.id,
          env.now⟩] := by
      simp [handleTagManageCommand, hperm, hs, hnone, World.withTags, insertOne]
    refine ⟨htags, ?_⟩
    intro j cfg content hjn hjg hc
    have hfind : findOne (tagOf (j.getString "name") j.guildId)
        (handleTagManageCommand env i config w).world.db.tags =
        some ⟨i.getString "name", i.getString "content", i.guildId, i.user.id, env.now⟩ := by
      rw [htags, hjn, hjg]
      unfold findOne at hnone ⊢
      rw [List.find?_append, hnone]
      simp [List.find?, tagOf]
    simp only [handleTagCommand, hfind, hc]
  · intro hs
    have htags : (handleTagManageCommand env i config w).world.db.tags =
        deleteOne (tagOf (i.getString "name") i.guildId) w.db.tags := by
      simp only [handleTagManageCommand, hperm, hs, Bool.not_true, Bool.false_eq_true,
        if_false, if_true, show ("delete" = "create") = False by decide]
      split <;> rfl
    refine ⟨htags, ?_, ?_⟩
    · rw [htags]
      exact deleteOne_length _ _
    · intro name guildId hne
      rw [htags]
      exact filter_deleteOne_of_disjoint _ _ _ (hdis name guildId hne)
  · intro name guildId hg
    have hne : ¬ (name = i.getString "name" ∧ guildId = i.guildId) := fun h => hg h.2
    rcases hshape with h | ⟨-, -, h⟩ | ⟨-, h⟩
    · rw [h]
    · rw [h, List.filter_append]
      have hd : tagOf name guildId ⟨i.getString "name", i.getString "content", i.guildId,
          i.user.id, env.now⟩ = false := by
        simp only [tagOf, decide_eq_false_iff_not]
        rintro ⟨-, h2⟩
        exact hg h2.symm
      simp [List.filter, hd]
    · rw [h]
      exact filter_deleteOne_of_disjoint _ _ _ (hdis name guildId hne)

/-- Witness of C23: an hr member creates the tag `rules` in an empty
collection. -/
theorem tag_names_stay_unique_witness :
    uniqueTags (handleTagManageCommand calmEnv hrCreatesTag staffHrConfig {}).world.db.tags :=
  (tag_names_stay_unique calmEnv hrCreatesTag staffHrConfig {} (by decide)
    (fun _ _ => by simp [World.db, Db.tags])).1

/-! ## Theorems: notifications and dispatch -/

theorem logAction_dmOk (env : Env) (b : Bool) (w : World) (guildId action : String) (user : User) :
    logAction { env with dmOk := b } w guildId action user = logAction env w guildId action user :=
  rfl

theorem filter_trySendDm (env : Env) (userId text : String) :
    (trySendDm env userId text).filter (fun o => !isDm o) = [] := by
  unfold trySendDm
  split <;> simp [isDm]

theorem warn_sameButDm (env : Env) (i : Interaction) (config : GuildConfig) (w : World)
    (b1 b2 : Bool) :
    sameButDm (handleWarnCommand { env with dmOk := b1 } i config w)
      (handleWarnCommand { env with dmOk := b2 } i config w) := by
  unfold handleWarnCommand sameButDm
  simp only [logAction_dmOk]
  (repeat' split) <;>
    first
    | exact ⟨rfl, rfl, rfl⟩
    | (refine ⟨rfl, rfl, ?_⟩; simp only [List.filter_append, List.filter_cons, filter_trySendDm])

theorem terminate_sameButDm (env : Env) (i : Interaction) (config : GuildConfig) (w : World)
    (b1 b2 : Bool) :
    sameButDm (handleTerminateCommand { env with dmOk := b1 } i config w)
      (handleTerminateCommand { env with dmOk := b2 } i config w) := by
  unfold handleTerminateCommand sameButDm
  simp only [logAction_dmOk]
  (repeat' split) <;>
    first
    | exact ⟨rfl, rfl, rfl⟩
    | (refine ⟨rfl, rfl, ?_⟩; simp only [List.filter_append, List.filter_cons, filter_trySendDm])

theorem application_sameButDm (env : Env) (i : Interaction) (config : GuildConfig) (w : World)
    (b1 b2 : Bool) :
    sameButDm (handleApplicationCommand { env with dmOk := b1 } i config w)
      (handleApplicationCommand { env with dmOk := b2 } i config w) := by
  unfold handleApplicationCommand sameButDm
  simp only [logAction_dmOk]
  (repeat' split) <;>
    first
    | exact ⟨rfl, rfl, rfl⟩
    | (refine ⟨rfl, rfl, ?_⟩; simp only [List.filter_append, List.filter_cons, filter_trySendDm])

theorem loaManage_sameButDm (env : Env) (i : Interaction) (config : GuildConfig) (w : World)
    (b1 b2 : Bool) :
    sameButDm (handleLoaManageCommand { env with dmOk := b1 } i config w)
      (handleLoaManageCommand { env with dmOk := b2 } i config w) := by
  unfold handleLoaManageCommand sameButDm
  simp only [logAction_dmOk]
  (repeat' split) <;>
    first
    | exact ⟨rfl, rfl, rfl⟩
    | (refine ⟨rfl, rfl, ?_⟩; simp only [List.filter_append, List.filter_cons, filter_trySendDm])

/-- C24: a failed direct message neither rolls back nor blocks what came
before it. For `warn`, `terminate`, `application` approve and deny and
`loa-manage` approve and deny, with everything else the same, the outcome
when `user.send` throws and the outcome when it resolves have the same world
(store and roles), end the same way, and carry the same messages apart from
the direct message, the reply to the actor among them. -/
theorem dm_failure_keeps_transition (env : Env) (i : Interaction) (config : GuildConfig)
    (w : World) :
    sameButDm (handleWarnCommand { env with dmOk := false } i config w)
      (handleWarnCommand { env with dmOk := true } i config w) ∧
    sameButDm (handleTerminateCommand { env with dmOk := false } i config w)
      (handleTerminateCommand { env with dmOk := true } i config w) ∧
    sameButDm (handleApplicationCommand { env with dmOk := false } i config w)
      (handleApplicationCommand { env with dmOk := true } i config w) ∧
    sameButDm (handleLoaManageCommand { env with dmOk := false } i config w)
      (handleLoaManageCommand { env with dmOk := true } i config w) :=
  ⟨warn_sameButDm env i config w false true, terminate_sameButDm env i config w false true,
    application_sameButDm env i config w false true,
    loaManage_sameButDm env i config w false true⟩

/-- C25, the code at the failing input. `u1` has a pending application. An hr
member clicks Approve: the follow-up form `approve_modal_u1` opens. The member
submits it with the role `staff`: `interactionCreate` hands the submission to
`handleModalSubmit`, which knows only `staff_application`, so nothing is
written, no role is granted and nothing is replied; the same for the denial
form. The branch that would update the record is in `handleButtonInteraction`,
which is run for button clicks only. -/
theorem followup_form_reaches_no_update :
    interactionCreate calmEnv hrClicksApprove annPendingConfiguredWorld =
      ⟨annPendingConfiguredWorld, [.showModal "approve_modal_u1"], false⟩ ∧
    interactionCreate calmEnv hrSubmitsApproveForm annPendingConfiguredWorld =
      ⟨annPendingConfiguredWorld, [], false⟩ ∧
    interactionCreate calmEnv hrSubmitsDenyForm annPendingConfiguredWorld =
      ⟨annPendingConfiguredWorld, [], false⟩ ∧
    (handleButtonInteraction calmEnv hrSubmitsApproveForm
        annPendingConfiguredWorld).world.db.applications =
      [{ pendingOfAnn with status := "approved", approvedBy := some "u2",
                           approvedAt := some 1000 }] := by
  decide

/-- C26 as stated fails: a second `oncall set`, at time 2000, of a user set
on-call at time 1000 leaves a collection that differs from the one after the
first set: `setAt` is 2000. -/
theorem oncall_second_set_restamps :
    (handleOnCallCommand calmEnv staffSetsOnCall staffHrConfig {}).world.db.oncall =
      [{ userId := "u3", guildId := "g1", setAt := 1000, active := true }] ∧
    (handleOnCallCommand { calmEnv with now := 2000 } staffSetsOnCall staffHrConfig
        (handleOnCallCommand calmEnv staffSetsOnCall staffHrConfig {}).world).world.db.oncall =
      [{ userId := "u3", guildId := "g1", setAt := 2000, active := true }] ∧
    (handleOnCallCommand { calmEnv with now := 2000 } staffSetsOnCall staffHrConfig
        (handleOnCallCommand calmEnv staffSetsOnCall staffHrConfig {}).world).world.db.oncall ≠
      (handleOnCallCommand calmEnv staffSetsOnCall staffHrConfig {}).world.db.oncall := by
  decide

/-- `updateOne` on a list whose first match is known. -/
theorem updateOne_append_of_first {α : Type} (filter : α → Bool) (set : α → α)
    (l1 : List α) (r : α) (l2 : List α) (hl1 : ∀ x ∈ l1, filter x = false)
    (hr : filter r = true) :
    updateOne filter set (l1 ++ r :: l2) = l1 ++ set r :: l2 := by
  induction l1 with
  | nil => simp [updateOne, hr]
  | cons x xs ih =>
    have hx : filter x = false := hl1 x (by simp)
    have hxs : ∀ y ∈ xs, filter y = false := fun y hy => hl1 y (by simp [hy])
    simp [updateOne, hx, ih hxs]

theorem find?_append_of_first {α : Type} (filter : α → Bool) (l1 : List α) (r : α)
    (l2 : List α) (hl1 : ∀ x ∈ l1, filter x = false) (hr : filter r = true) :
    (l1 ++ r :: l2).find? filter = some r := by
  induction l1 with
  | nil => simp [List.find?, hr]
  | cons x xs ih =>
    have hx : filter x = false := hl1 x (by simp)
    have hxs : ∀ y ∈ xs, filter y = false := fun y hy => hl1 y (by simp [hy])
    simp [List.find?, hx, ih hxs]

/-- After `oncall set` the collection has a first record of (user, guild); it
is active with `setAt` the time of the command, and no second record of
(user, guild) follows it when the collection had at most one. -/
theorem upsertOnCall_split (userId guildId : String) (now : Nat) (l : List OnCallRecord) :
    ∃ l1 r l2, upsertOnCall userId guildId now l = l1 ++ r :: l2 ∧
      (∀ x ∈ l1, onCallOf userId guildId x = false) ∧
      r.userId = userId ∧ r.guildId = guildId ∧ r.active = true ∧ r.setAt = now ∧
      ((l.filter (onCallOf userId guildId)).length ≤ 1 →
        l2.filter (onCallOf userId guildId) = []) := by
  unfold upsertOnCall
  cases hf : findOne (onCallOf userId guildId) l with
  | none =>
    have hall : ∀ x ∈ l, onCallOf userId guildId x = false := by
      intro x hx
      have := List.find?_eq_none.1 hf x hx
      simpa using this
    exact ⟨l, ⟨userId, guildId, now, true, none⟩, [], rfl, hall, rfl, rfl, rfl, rfl,
      fun _ => rfl⟩
  | some r0 =>
    have hex : ∃ x ∈ l, onCallOf userId guildId x = true :=
      ⟨r0, List.mem_of_find?_eq_some hf, List.find?_some hf⟩
    obtain ⟨l1, r, l2, hl, hr, hl1, hu⟩ :=
      updateOne_split (onCallOf userId guildId) (setOnCall userId guildId now) l hex
    refine ⟨l1, setOnCall userId guildId now r, l2, hu, hl1, rfl, rfl, rfl, rfl, ?_⟩
    intro hone
    have hl1nil : l1.filter (onCallOf userId guildId) = [] :=
      List.filter_eq_nil_iff.2 (fun x hx => by simp [hl1 x hx])
    rw [hl, List.filter_append, hl1nil] at hone
    simp only [List.nil_append, List.filter, hr, List.length_cons] at hone
    exact List.eq_nil_of_length_eq_zero (by omega)

/-- The oncall collection after an authorized `oncall set`. -/
theorem oncall_set_oncall (env : Env) (i : Interaction) (config : GuildConfig) (w : World)
    (hperm : hasPermission i.member Tier.staff config = true) (hsub : i.subcommand = "set") :
    (handleOnCallCommand env i config w).world =
      w.withOnCall (upsertOnCall i.user.id i.guildId env.now w.db.oncall) := by
  simp [handleOnCallCommand, hperm, hsub]

/-- The oncall collection after an authorized `oncall unset`. -/
theorem oncall_unset_oncall (env : Env) (i : Interaction) (config : GuildConfig) (w : World)
    (hperm : hasPermission i.member Tier.staff config = true) (hsub : i.subcommand = "unset") :
    (handleOnCallCommand env i config w).world =
      w.withOnCall
        (updateOne (onCallOf i.user.id i.guildId) (unsetOnCall env.now) w.db.oncall) := by
  simp [handleOnCallCommand, hperm, hsub]

/-- C26, as amended: for every oncall collection, a second authorized
`oncall set` of a (user, guild) that is already active changes nothing but
`setAt` of the first record of (user, guild), which becomes the time of the
second command (so nothing at all when that time is the time of the first);
the record stays active, and it is the single record of (user, guild) when
the collection had at most one before the first set. `oncall unset` after the
set rewrites that record to `active` false with `unsetAt` the time of the
unset, and keeps it and every other record in place. In any collection,
`oncall unset` deletes no record: it sets `active` to false and `unsetAt` on
the first record of (user, guild), leaves every other record as it is, and
leaves the collection as it is when (user, guild) has no record. -/
theorem oncall_set_twice (env1 env2 : Env) (i : Interaction) (config : GuildConfig) (w : World)
    (hperm : hasPermission i.member Tier.staff config = true) (hsub : i.subcommand = "set") :
    (∃ l1 r l2,
      (handleOnCallCommand env1 i config w).world.db.oncall = l1 ++ r :: l2 ∧
      (∀ x ∈ l1, onCallOf i.user.id i.guildId x = false) ∧
      r.userId = i.user.id ∧ r.guildId = i.guildId ∧ r.active = true ∧ r.setAt = env1.now ∧
      (handleOnCallCommand env2 i config
          (handleOnCallCommand env1 i config w).world).world.db.oncall =
        l1 ++ { r with setAt := env2.now } :: l2 ∧
      ((w.db.oncall.filter (onCallOf i.user.id i.guildId)).length ≤ 1 →
        l2.filter (onCallOf i.user.id i.guildId) = []) ∧
      (handleOnCallCommand env2 { i with subcommand := "unset" } config
          (handleOnCallCommand env1 i config w).world).world.db.oncall =
        l1 ++ { r with active := false, unsetAt := some env2.now } :: l2) ∧
    (env2.now = env1.now →
      (handleOnCallCommand env2 i config
          (handleOnCallCommand env1 i config w).world).world.db.oncall =
        (handleOnCallCommand env1 i config w).world.db.oncall) ∧
    (∀ (env3 : Env) (j : Interaction) (cfg : GuildConfig) (w3 : World),
      hasPermission j.member Tier.staff cfg = true → j.subcommand = "unset" →
      (handleOnCallCommand env3 j cfg w3).world.db.oncall.length = w3.db.oncall.length ∧
      (∀ (k : Nat) (r : OnCallRecord), w3.db.oncall[k]? = some r →
        (handleOnCallCommand env3 j cfg w3).world.db.oncall[k]? = some r ∨
        (r.userId = j.user.id ∧ r.guildId = j.guildId ∧
          (handleOnCallCommand env3 j cfg w3).world.db.oncall[k]? =
            some { r with active := false, unsetAt := some env3.now })) ∧
      ((∃ x ∈ w3.db.oncall, x.userId = j.user.id ∧ x.guildId = j.guildId) →
        ∃ l1 r l2, w3.db.oncall = l1 ++ r :: l2 ∧
          (∀ x ∈ l1, ¬ (x.userId = j.user.id ∧ x.guildId = j.guildId)) ∧
          r.userId = j.user.id ∧ r.guildId = j.guildId ∧
          (handleOnCallCommand env3 j cfg w3).world.db.oncall =
            l1 ++ { r with active := false, unsetAt := some env3.now } :: l2) ∧
      ((∀ x ∈ w3.db.oncall, ¬ (x.userId = j.user.id ∧ x.guildId = j.guildId)) →
        (handleOnCallCommand env3 j cfg w3).world.db.oncall = w3.db.oncall)) := by
  have h1 := oncall_set_oncall env1 i config w hperm hsub
  have h2 := oncall_set_oncall env2 i config (handleOnCallCommand env1 i config w).world
    hperm hsub
  obtain ⟨l1, r, l2, hsplit, hl1, hu, hg, hact, hset, hone⟩ :=
    upsertOnCall_split i.user.id i.guildId env1.now w.db.oncall
  have hw1 : (handleOnCallCommand env1 i config w).world.db.oncall = l1 ++ r :: l2 := by
    rw [h1]
    exact hsplit
  have hr : onCallOf i.user.id i.guildId r = true := by simp [onCallOf, hu, hg]
  have hw2 : (handleOnCallCommand env2 i config
      (handleOnCallCommand env1 i config w).world).world.db.oncall =
      l1 ++ { r with setAt := env2.now } :: l2 := by
    rw [h2]
    simp only [World.withOnCall, hw1, upsertOnCall, findOne,
      find?_append_of_first _ l1 r l2 hl1 hr,
      updateOne_append_of_first _ _ l1 r l2 hl1 hr]
    cases r with
    | mk ru rg rs ra rn =>
      simp only at hu hg hact
      subst hu hg hact
      rfl
  have hw3 : (handleOnCallCommand env2 { i with subcommand := "unset" } config
      (handleOnCallCommand env1 i config w).world).world.db.oncall =
      l1 ++ { r with active := false, unsetAt := some env2.now } :: l2 := by
    rw [oncall_unset_oncall env2 { i with subcommand := "unset" } config
      (handleOnCallCommand env1 i config w).world hperm rfl]
    simp only [World.withOnCall, hw1]
    exact updateOne_append_of_first _ _ l1 r l2 hl1 hr
  refine ⟨⟨l1, r, l2, hw1, hl1, hu, hg, hact, hset, hw2, hone, hw3⟩, ?_, ?_⟩
  · intro hnow
    rw [hw2, hw1, hnow, ← hset]
  · intro env3 j cfg w3 hj hs
    rw [oncall_unset_oncall env3 j cfg w3 hj hs]
    refine ⟨updateOne_length _ _ _, ?_, ?_, ?_⟩
    · intro k r3 hk
      rcases updateOne_getElem?_cases (onCallOf j.user.id j.guildId) (unsetOnCall env3.now)
        w3.db.oncall k r3 hk with h | ⟨hp, h⟩
      · exact Or.inl h
      · have hp2 : r3.userId = j.user.id ∧ r3.guildId = j.guildId := by
          simpa [onCallOf] using hp
        exact Or.inr ⟨hp2.1, hp2.2, h⟩
    · intro hex
      have hex2 : ∃ x ∈ w3.db.oncall, onCallOf j.user.id j.guildId x = true := by
        obtain ⟨x, hx, hxu⟩ := hex
        exact ⟨x, hx, by simpa [onCallOf] using hxu⟩
      obtain ⟨m1, r3, m2, hm, hr3, hm1, hupd⟩ :=
        updateOne_split (onCallOf j.user.id j.guildId) (unsetOnCall env3.now) w3.db.oncall hex2
      have hr3b : r3.userId = j.user.id ∧ r3.guildId = j.guildId := by
        simpa [onCallOf] using hr3
      refine ⟨m1, r3, m2, hm, ?_, hr3b.1, hr3b.2, hupd⟩
      intro x hx hxu
      have := hm1 x hx
      simp [onCallOf, hxu] at this
    · intro hnone
      have hfind : w3.db.oncall.find? (onCallOf j.user.id j.guildId) = none := by
        rw [List.find?_eq_none]
        intro x hx
        have := hnone x hx
        simpa [onCallOf] using this
      exact updateOne_of_find?_none _ _ _ hfind

/-- Witness of C26 as amended: the second `oncall set` of the sample staff
member at the time of the first. -/
theorem oncall_set_twice_witness :
    (handleOnCallCommand calmEnv staffSetsOnCall staffHrConfig
        (handleOnCallCommand calmEnv staffSetsOnCall staffHrConfig {}).world).world.db.oncall =
      (handleOnCallCommand calmEnv staffSetsOnCall staffHrConfig {}).world.db.oncall :=
  (oncall_set_twice calmEnv calmEnv staffSetsOnCall staffHrConfig {} (by decide)
    (by decide)).2.1 rfl

end IopsBot
